import Mathlib

/-!
# GoQSO — verification of the ADIF codec and import-reconciliation engine

Shallow embedding of the GoQSO contact logger's core: the ADIF tag
tokenizer/decoder (`adif.go`), the record encoder (`ExportADIFToWriter` in
`logger.go`), the frequency-to-band table (`utils.go`), the import
reconciler (`handleImportADIF`, `findExistingContact`, `createContact`,
`updateContact`), and the LoTW external-source adapter
(`downloadQSOData`, `parseADIFData`, `ConvertToADIFRecord`,
`ImportFromLoTW`).

Modelling conventions:
* Go strings are modelled as Lean `String`/`List Char`.  The repository's
  data is ASCII, where Go's byte indexing, `strings.ToLower/ToUpper` and
  `len` agree with character-wise operations; we model them
  character-wise.
* Go `float64` values (`Frequency`) are modelled as `ℚ`; `strconv.ParseFloat`
  is modelled exactly on plain decimal literals (the only shape the codec
  ever produces or that the claims exercise; exponent/hex/inf forms are
  not modelled).  Go `int` is modelled as `ℤ` (overflow is out of range for
  all inputs considered).
* `time.Now()`-based defaulting in the decoder is modelled by threading the
  current date and time strings as explicit parameters.
* The storage collaborator (PostgreSQL) is modelled as an in-memory list of
  rows with an id counter and a logical clock; `QueryRow`/`Exec` are total
  in the model (the storage-error branches of the Go code are unreachable
  in the model and the corresponding error counters stay zero).
-/

namespace GoQSO

/-! ## Character and string helpers -/

/-- ASCII whitespace, as trimmed by Go's `strings.TrimSpace` (which also
trims Unicode spaces; all inputs here are ASCII). -/
def isSpaceChar (c : Char) : Bool :=
  c == ' ' || c == '\t' || c == '\n' || c == '\r' || c == '\x0b' || c == '\x0c'

/-- Character-wise model of `strings.ToUpper` (exact on ASCII). -/
def upperStr (s : String) : String := String.mk (s.data.map Char.toUpper)

/-- Character-wise model of `strings.ToLower` (exact on ASCII). -/
def lowerStr (s : String) : String := String.mk (s.data.map Char.toLower)

/-- Decimal digit character for `n < 10`. -/
def digitChar (n : ℕ) : Char :=
  match n with
  | 0 => '0' | 1 => '1' | 2 => '2' | 3 => '3' | 4 => '4'
  | 5 => '5' | 6 => '6' | 7 => '7' | 8 => '8' | _ => '9'

/-- Little-endian digit list of a natural number, with explicit fuel so
that the definition is structurally recursive and kernel-reducible. -/
def natDigitsRevF : ℕ → ℕ → List Char
  | 0, _ => []
  | fuel + 1, n =>
      if n < 10 then [digitChar n]
      else digitChar (n % 10) :: natDigitsRevF fuel (n / 10)

/-- Little-endian digit list of a natural number. -/
def natDigitsRev (n : ℕ) : List Char := natDigitsRevF (n + 1) n

/-- Decimal digit string of a natural number (model of Go's `%d`
formatting for non-negative values). -/
def natDigits (n : ℕ) : List Char := (natDigitsRev n).reverse

/-- Numeric value of a digit string, as accumulated by a left fold (the
value `strconv.Atoi`/`ParseFloat` compute on a valid digit string). -/
def digitsToNat (l : List Char) : ℕ := l.foldl (fun a c => a * 10 + (c.toNat - 48)) 0

/-- Substring test: does `needle` occur contiguously in `hay`?  Model of
`strings.Contains`. -/
def hasSubList (needle hay : List Char) : Bool :=
  match hay with
  | [] => needle.isEmpty
  | _ :: t => needle.isPrefixOf hay || hasSubList needle t

/-! ## Data model: `ADIFRecord` (adif.go lines 14–31) -/

/-- The canonical in-memory contact record produced by the ADIF decoder
(`ADIFRecord` in `adif.go`). -/
structure ADIFRecord where
  callsign : String
  date : String
  timeOn : String
  timeOff : String
  frequency : ℚ
  band : String
  mode : String
  rstSent : String
  rstReceived : String
  name : String
  qth : String
  country : String
  grid : String
  power : ℤ
  comment : String
  confirmed : Bool
  deriving Repr, DecidableEq

/-- The zero value a fresh `ADIFRecord{}` has in Go. -/
def emptyRecord : ADIFRecord :=
  ⟨"", "", "", "", 0, "", "", "", "", "", "", "", "", 0, "", false⟩

/-! ## Frequency-to-band table (`frequencyToBand`, utils.go lines 30–61) -/

/-- Translation of `frequencyToBand`: the fixed frequency-range table with
the `"Unknown"` fallback sentinel.  The Go literals (`1.8`, `14.35`, …) are
written as explicit rationals `mkRat` so the table is kernel-computable
(a decimal numeral in Lean elaborates through `OfScientific`, which does
not reduce in the kernel). -/
def frequencyToBand (freq : ℚ) : String :=
  if mkRat 18 10 ≤ freq ∧ freq ≤ mkRat 20 10 then "160m"
  else if mkRat 35 10 ≤ freq ∧ freq ≤ mkRat 40 10 then "80m"
  else if mkRat 53 10 ≤ freq ∧ freq ≤ mkRat 54 10 then "60m"
  else if mkRat 70 10 ≤ freq ∧ freq ≤ mkRat 73 10 then "40m"
  else if mkRat 101 10 ≤ freq ∧ freq ≤ mkRat 1015 100 then "30m"
  else if mkRat 140 10 ≤ freq ∧ freq ≤ mkRat 1435 100 then "20m"
  else if mkRat 18068 1000 ≤ freq ∧ freq ≤ mkRat 18168 1000 then "17m"
  else if mkRat 210 10 ≤ freq ∧ freq ≤ mkRat 2145 100 then "15m"
  else if mkRat 2489 100 ≤ freq ∧ freq ≤ mkRat 2499 100 then "12m"
  else if mkRat 280 10 ≤ freq ∧ freq ≤ mkRat 297 10 then "10m"
  else if mkRat 500 10 ≤ freq ∧ freq ≤ mkRat 540 10 then "6m"
  else if mkRat 1440 10 ≤ freq ∧ freq ≤ mkRat 1480 10 then "2m"
  else if mkRat 4200 10 ≤ freq ∧ freq ≤ mkRat 4500 10 then "70cm"
  else "Unknown"

/-! ## Numeric parsing (strconv models) -/

/-- Unsigned decimal part of `strconv.ParseFloat`: digits with at most one
point, at least one digit overall.  The value `ip + fp / 10 ^ |fp|` is
built with `mkRat` over integer arithmetic so it is kernel-computable. -/
def parseDecimalQ (l : List Char) : Option ℚ :=
  let ip := l.takeWhile Char.isDigit
  let rest := l.dropWhile Char.isDigit
  match rest with
  | [] => if ip.isEmpty then none else some (mkRat (digitsToNat ip) 1)
  | c :: fp =>
      if c = '.' then
        if fp.all Char.isDigit && !(ip.isEmpty && fp.isEmpty) then
          some (mkRat (digitsToNat ip * 10 ^ fp.length + digitsToNat fp) (10 ^ fp.length))
        else none
      else none

/-- Model of `strconv.ParseFloat` on plain decimal literals (the shapes the
codec emits and the claims exercise). -/
def parseFreq (s : String) : Option ℚ :=
  match s.data with
  | [] => none
  | c :: l =>
      if c = '-' then (parseDecimalQ l).map (fun q => -q)
      else if c = '+' then parseDecimalQ l
      else parseDecimalQ (c :: l)

/-- Model of `strconv.Atoi`: optional sign then a non-empty digit string. -/
def parseIntGo (s : String) : Option ℤ :=
  match s.data with
  | [] => none
  | c :: l =>
      if c = '-' then
        if !l.isEmpty && l.all Char.isDigit then some (-(digitsToNat l : ℤ)) else none
      else if c = '+' then
        if !l.isEmpty && l.all Char.isDigit then some (digitsToNat l : ℤ) else none
      else
        if !(c :: l).isEmpty && (c :: l).all Char.isDigit then
          some (digitsToNat (c :: l) : ℤ)
        else none

/-- Fractional part of `%.3f`, zero-padded to width 3. -/
def pad3 (k : ℕ) : List Char :=
  if k < 10 then '0' :: '0' :: natDigits k
  else if k < 100 then '0' :: natDigits k
  else natDigits k

/-- The frequency scaled by 1000 and rounded to the nearest integer:
`⌊q·1000 + 1/2⌋`, written with integer arithmetic on the numerator and
denominator so it is kernel-computable (`freqScaled_eq_round` below ties
it to `round (q * 1000)`). -/
def freqScaled (q : ℚ) : ℤ :=
  Int.fdiv (2000 * q.num + (q.den : ℤ)) (2 * (q.den : ℤ))

/-- Model of `fmt.Sprintf` with the `%.3f` verb on the frequency value: the
value scaled by 1000 and rounded, printed as `intpart.frac3`.  (On the
rationals with at most three decimal places that the claims concern, the
rounding step is the identity and agrees with Go's float formatting.) -/
def formatFreq (q : ℚ) : String :=
  let n : ℤ := freqScaled q
  String.mk ((if n < 0 then ['-'] else []) ++
    natDigits (n.natAbs / 1000) ++ '.' :: pad3 (n.natAbs % 1000))

/-- Model of `fmt.Sprintf` with `%d` on a Go `int`. -/
def intStr (i : ℤ) : String :=
  String.mk ((if i < 0 then ['-'] else []) ++ natDigits i.natAbs)

/-! ## Tag tokenizer (the regex `<([^:>]+):(\d+)(?::[^>]*)?>([^<]*)` of
adif.go line 42 and `FindAllStringSubmatch` in `parseRecord`)

The regex is deterministic on every input: the name class `[^:>]+` is
stopped by the mandatory `:`, the digits by the optional `:`/mandatory `>`,
and the value class `[^<]*` by the next `<`; backtracking can never produce
a different match (shorter candidates fail on the next mandatory
character).  `findFields` is that matcher: at each `<` it attempts the
field pattern and otherwise advances one character, exactly like the
regex engine's scan. -/

/-- Character class `[^:>]` of the field-name capture. -/
def notColonGt (c : Char) : Bool := c != ':' && c != '>'

/-- Character class `[^<]` of the value capture. -/
def notLt (c : Char) : Bool := c != '<'

/-- Consume a literal `:`. -/
def expectColon (l : List Char) : Option (List Char) :=
  match l with
  | [] => none
  | c :: r => if c = ':' then some r else none

/-- Consume a literal `>`. -/
def expectGt (l : List Char) : Option (List Char) :=
  match l with
  | [] => none
  | c :: r => if c = '>' then some r else none

/-- Consume the `(?::[^>]*)?>` tail of the field header: either a direct
`>`, or a `:`, an ignored type hint, and then a `>`. -/
def expectGtOrTypehint (l : List Char) : Option (List Char) :=
  match l with
  | [] => none
  | c :: r =>
      if c = '>' then some r
      else if c = ':' then expectGt (r.dropWhile (fun c => c != '>'))
      else none

/-- Attempt the field pattern just after a `<`: name, `:`, digits, optional
`:typehint`, `>`, then the greedy value run.  Returns
`(name, declaredLength, value, rest)`. -/
def matchAfterLt (l : List Char) : Option (List Char × ℕ × List Char × List Char) :=
  if (l.takeWhile notColonGt).isEmpty then none else
  (expectColon (l.dropWhile notColonGt)).bind fun r2 =>
  if (r2.takeWhile Char.isDigit).isEmpty then none else
  (expectGtOrTypehint (r2.dropWhile Char.isDigit)).bind fun r4 =>
  some (l.takeWhile notColonGt, digitsToNat (r2.takeWhile Char.isDigit),
    r4.takeWhile notLt, r4.dropWhile notLt)

/-- Fueled version of the tokenizer scan (structurally recursive, hence
kernel-reducible). -/
def findFieldsF : ℕ → List Char → List (List Char × ℕ × List Char)
  | 0, _ => []
  | _, [] => []
  | fuel + 1, c :: rest =>
      if c = '<' then
        match matchAfterLt rest with
        | some (n, k, v, r') => (n, k, v) :: findFieldsF fuel r'
        | none => findFieldsF fuel rest
      else findFieldsF fuel rest

/-- The tokenizer: scan for `<`, attempt the field pattern, emit the
captured `(name, length, value)` triples in order (model of
`FindAllStringSubmatch(recordStr, -1)`). -/
def findFields (l : List Char) : List (List Char × ℕ × List Char) :=
  findFieldsF l.length l

/-! ## Record decoder (`parseRecord`, adif.go lines 134–254) -/

/-- Translation of `formatDate`: reformat `YYYYMMDD` to `YYYY-MM-DD`,
anything of another length passed through unchanged. -/
def formatDate (s : String) : String :=
  let l := s.data
  if l.length = 8 then
    String.mk (l.take 4 ++ '-' :: ((l.drop 4).take 2 ++ '-' :: l.drop 6))
  else s

/-- Translation of `formatTime`: `HHMMSS` or `HHMM` to `HH:MM:SS`, other
lengths passed through. -/
def formatTime (s : String) : String :=
  let l := s.data
  if l.length = 6 then
    String.mk (l.take 2 ++ ':' :: ((l.drop 2).take 2 ++ ':' :: l.drop 4))
  else if l.length = 4 then
    String.mk (l.take 2 ++ ':' :: ((l.drop 2).take 2 ++ ':' :: ['0', '0']))
  else s

/-- The declared-length truncation of `parseRecord` (adif.go lines
155–160): `if len(data) < length { length = len(data) }; data[:length]`. -/
def fieldValueOf (len : ℕ) (data : List Char) : List Char :=
  data.take (if data.length < len then data.length else len)

/-- The field switch of `parseRecord` (adif.go lines 163–200), applied to
the upper-cased field name. -/
def applyField (r : ADIFRecord) (fieldName : String) (v : String) : ADIFRecord :=
  if fieldName = "CALL" then { r with callsign := v }
  else if fieldName = "QSO_DATE" then { r with date := formatDate v }
  else if fieldName = "TIME_ON" then { r with timeOn := formatTime v }
  else if fieldName = "TIME_OFF" then { r with timeOff := formatTime v }
  else if fieldName = "FREQ" then
    match parseFreq v with
    | some f => { r with frequency := f }
    | none => r
  else if fieldName = "BAND" then { r with band := v }
  else if fieldName = "MODE" then { r with mode := v }
  else if fieldName = "RST_SENT" then { r with rstSent := v }
  else if fieldName = "RST_RCVD" then { r with rstReceived := v }
  else if fieldName = "NAME" then { r with name := v }
  else if fieldName = "QTH" then { r with qth := v }
  else if fieldName = "COUNTRY" then { r with country := v }
  else if fieldName = "GRIDSQUARE" then { r with grid := v }
  else if fieldName = "TX_PWR" then
    match parseIntGo v with
    | some p => { r with power := p }
    | none => r
  else if fieldName = "COMMENT" then { r with comment := v }
  else if fieldName = "QSL_RCVD" then { r with confirmed := upperStr v == "Y" }
  else r

/-- Fold the token list through the field switch, truncating each value by
its declared length first. -/
def applyTokens (r : ADIFRecord) (toks : List (List Char × ℕ × List Char)) : ADIFRecord :=
  toks.foldl
    (fun r t => applyField r (upperStr (String.mk t.1)) (String.mk (fieldValueOf t.2.1 t.2.2)))
    r

/-- The validation, band-derivation and defaulting tail of `parseRecord`
(adif.go lines 203–233).  `today`/`nowTime` stand for
`time.Now().Format("2006-01-02")` and `time.Now().Format("15:04:05")`. -/
def finalizeRecord (today nowTime : String) (r : ADIFRecord) : Except String ADIFRecord :=
  if r.callsign = "" then .error "missing required field: CALL" else
  let r1 := if r.band = "" ∧ 0 < r.frequency then { r with band := frequencyToBand r.frequency } else r
  let r2 := if r1.date = "" then { r1 with date := today } else r1
  let r3 := if r2.timeOn = "" then { r2 with timeOn := nowTime } else r2
  let r4 := if r3.timeOff = "" then { r3 with timeOff := r3.timeOn } else r3
  let r5 := if r4.mode = "" then { r4 with mode := "SSB" } else r4
  let r6 := if r5.rstSent = "" then { r5 with rstSent := "59" } else r5
  let r7 := if r6.rstReceived = "" then { r6 with rstReceived := "59" } else r6
  .ok r7

/-- Translation of `parseRecord`: tokenize one record string, fold the
field switch, then validate and default. -/
def parseRecord (today nowTime : String) (s : String) : Except String ADIFRecord :=
  finalizeRecord today nowTime (applyTokens emptyRecord (findFields s.data))

/-! ## Stream splitting (`ParseADIF`, adif.go lines 50–131) -/

/-- Does the list start with the case-insensitive end-of-record marker
`<eor>`?  (`<` and `>` are fixed under `ToLower`; the Go code lowercases
the whole buffer and searches for `"<eor>"`, which on ASCII input is this
character-wise test.) -/
def isEORAt (l : List Char) : Bool :=
  match l with
  | a :: b :: c :: d :: e :: _ =>
      a == '<' && b.toLower == 'e' && c.toLower == 'o' && d.toLower == 'r' && e == '>'
  | _ => false

/-- Fueled scan for case-insensitive `<eor>` markers. -/
def splitEORAuxF : ℕ → List Char → List Char → List (List Char)
  | 0, _, _ => []
  | _, _, [] => []
  | fuel + 1, cur, c :: rest =>
      if isEORAt (c :: rest) then cur.reverse :: splitEORAuxF fuel [] (rest.drop 4)
      else splitEORAuxF fuel (c :: cur) rest

/-- Scan for case-insensitive `<eor>` markers, emitting the segment before
each marker; everything after the last marker is discarded (the Go loop
`break`s at the final `Split` fragment, adif.go lines 85–107). -/
def splitEORAux (cur : List Char) (l : List Char) : List (List Char) :=
  splitEORAuxF l.length cur l

/-- Segments of the content delimited by case-insensitive `<eor>`. -/
def splitEOR (l : List Char) : List (List Char) := splitEORAux [] l

/-- Go `bytes.Scanner` `dropCR`: strip one trailing `'\r'`. -/
def stripCR (l : List Char) : List Char :=
  match l.getLast? with
  | some c => if c = '\r' then l.dropLast else l
  | none => l

/-- Split on `'\n'`; the final fragment is kept (a partial last line). -/
def splitNl (l : List Char) : List (List Char) :=
  match l with
  | [] => [[]]
  | c :: rest =>
      if c = '\n' then [] :: splitNl rest
      else (splitNl rest).modifyHead (fun h => c :: h)

/-- Model of `bufio.Scanner` with `ScanLines`: the lines of the input, the
final empty fragment after a trailing newline not produced, `'\r'`
stripped from line ends. -/
def scanLines (l : List Char) : List (List Char) :=
  if l = [] then []
  else if l.getLast? = some '\n' then ((splitNl l).dropLast).map stripCR
  else (splitNl l).map stripCR

/-- Leading whitespace removed. -/
def trimLead (l : List Char) : List Char := l.dropWhile isSpaceChar

/-- Model of `strings.TrimSpace`. -/
def trimSpace (l : List Char) : List Char :=
  ((trimLead l).reverse.dropWhile isSpaceChar).reverse

/-- Skip lines whose trimmed form starts with `#` (header comments,
adif.go lines 59–62). -/
def startsWithHashAfterTrim (l : List Char) : Bool :=
  match l.dropWhile isSpaceChar with
  | '#' :: _ => true
  | _ => false

/-- The content builder of `ParseADIF` (adif.go lines 54–65): each kept
line followed by a single space. -/
def joinLines (l : List Char) : List Char :=
  ((scanLines l).filter (fun ln => !(startsWithHashAfterTrim ln))).foldr
    (fun ln acc => ln ++ ' ' :: acc) []

/-- The per-record loop of `ParseADIF` (adif.go lines 114–128): parse every
non-empty segment; a failed record contributes its error message (the
printed warning) and is skipped, parsing continues. -/
def processSegmentsStep (today nowTime : String) (acc : List ADIFRecord × List String)
    (seg : List Char) : List ADIFRecord × List String :=
  match parseRecord today nowTime (String.mk seg) with
  | .ok r => (acc.1 ++ [r], acc.2)
  | .error e => (acc.1, acc.2 ++ [e])

def processSegments (today nowTime : String) (segs : List (List Char)) :
    List ADIFRecord × List String :=
  segs.foldl (processSegmentsStep today nowTime) ([], [])

/-- The record-splitting and decoding stage of `ParseADIF`, applied to the
already line-joined content: split at the case-insensitive `<eor>` markers
(content after the last marker is dropped), trim each segment, skip empty
ones, and decode the rest. -/
def parseADIFContent (today nowTime : String) (content : List Char) :
    List ADIFRecord × List String :=
  processSegments today nowTime
    (((splitEOR content).map trimSpace).filter (fun s => s ≠ []))

/-- Translation of `ParseADIF`: join the comment-stripped lines, then split
and decode.  Returns the decoded records and the per-record error
reports. -/
def parseADIF (today nowTime : String) (input : String) : List ADIFRecord × List String :=
  parseADIFContent today nowTime (joinLines input.data)

/-! ## Record encoder (`ExportADIFToWriter`, logger.go lines 866–924) -/

/-- One emitted ADIF field: `fmt.Sprintf("<NAME:%d>%s ", len(v), v)`.
Go's `len` counts bytes; on the ASCII data considered here it equals the
character count used in the model. -/
def fieldStr (name v : String) : String :=
  "<" ++ name ++ ":" ++ String.mk (natDigits v.data.length) ++ ">" ++ v ++ " "

/-- Model of `contact.Date.Format("20060102")` applied to the stored date
that was parsed from the record's ISO `YYYY-MM-DD` string: the separators
removed.  (On canonical digit dates `time.Parse` then `Format` is exactly
dash removal.) -/
def stripDashes (s : String) : String := String.mk (s.data.filter (fun c => c ≠ '-'))

/-- Translation of `strings.ReplaceAll(t, ":", "")`. -/
def stripColons (s : String) : String := String.mk (s.data.filter (fun c => c ≠ ':'))

/-- The per-contact emission of `ExportADIFToWriter` (logger.go lines
881–920): mandatory fields always, optional fields only when non-empty /
positive, then `<EOR>` and a newline. -/
def recordString (r : ADIFRecord) : String :=
  fieldStr "CALL" r.callsign
  ++ "<QSO_DATE:8>" ++ stripDashes r.date ++ " "
  ++ "<TIME_ON:6>" ++ stripColons r.timeOn ++ " "
  ++ "<TIME_OFF:6>" ++ stripColons r.timeOff ++ " "
  ++ fieldStr "FREQ" (formatFreq r.frequency)
  ++ fieldStr "BAND" r.band
  ++ fieldStr "MODE" r.mode
  ++ fieldStr "RST_SENT" r.rstSent
  ++ fieldStr "RST_RCVD" r.rstReceived
  ++ (if r.name = "" then "" else fieldStr "NAME" r.name)
  ++ (if r.qth = "" then "" else fieldStr "QTH" r.qth)
  ++ (if r.country = "" then "" else fieldStr "COUNTRY" r.country)
  ++ (if r.grid = "" then "" else fieldStr "GRIDSQUARE" r.grid)
  ++ (if 0 < r.power then fieldStr "TX_PWR" (intStr r.power) else "")
  ++ (if r.comment = "" then "" else fieldStr "COMMENT" r.comment)
  ++ "<EOR>\n"

/-- Translation of `ExportADIFToWriter`: the fixed preamble (version
`"1.0.0"`, so `len(version) = 5`), the `<EOH>` marker, then every record.
`nowStamp` stands for `time.Now().Format("2006-01-02 15:04:05")`. -/
def exportADIF (nowStamp : String) (rs : List ADIFRecord) : String :=
  "Generated by GoQSO v1.0.0 on " ++ nowStamp ++
    "\n\n<ADIF_VER:5>3.1.0\n<PROGRAMID:5>GoQSO\n<PROGRAMVERSION:5>1.0.0\n<EOH>\n\n"
  ++ String.join (rs.map recordString)

/-! ## Import reconciler (part_002 `handleImportADIF`, start.sh helpers)

The storage collaborator is modelled as an in-memory table: `findExistingContact`
is the `SELECT … WHERE callsign = $1 AND contact_date = $2 AND time_on = $3
LIMIT 1` lookup (first matching row), `createContact` the `INSERT … RETURNING`
(fresh id, `created_at = NOW()` modelled by a logical clock), `updateContact`
the `UPDATE … WHERE id = $17` (all record fields replaced, `id` and
`created_at` kept).  The model's storage operations are total, so the Go
error branches (lookup/insert/update failure) are unreachable and the
error counters stay zero. -/

/-- Import policy flags (`ImportOptions` in part_002). -/
structure ImportOptions where
  mergeDuplicates : Bool
  updateExisting : Bool
  deriving Repr, DecidableEq

/-- Import outcome payload (`ImportResult` in part_002). -/
structure ImportResult where
  success : Bool
  importedCount : ℕ
  skippedCount : ℕ
  errorCount : ℕ
  errors : List String
  message : String
  deriving Repr, DecidableEq

/-- The request payload carried to the storage helpers (`ContactRequest`). -/
structure ContactRequest where
  callsign : String
  operatorName : String
  contactDate : String
  timeOn : String
  timeOff : String
  frequency : ℚ
  band : String
  mode : String
  powerWatts : ℤ
  rstSent : String
  rstReceived : String
  qth : String
  country : String
  gridSquare : String
  comment : String
  confirmed : Bool
  deriving Repr, DecidableEq

/-- Translation of `ADIFRecord.ConvertToContactRequest` (adif.go lines
257–276). -/
def convertToContactRequest (r : ADIFRecord) : ContactRequest :=
  { callsign := r.callsign
    operatorName := r.name
    contactDate := r.date
    timeOn := r.timeOn
    timeOff := r.timeOff
    frequency := r.frequency
    band := r.band
    mode := r.mode
    powerWatts := r.power
    rstSent := r.rstSent
    rstReceived := r.rstReceived
    qth := r.qth
    country := r.country
    gridSquare := r.grid
    comment := r.comment
    confirmed := r.confirmed }

/-- A stored row (`Contact` in logger.go): the request fields plus the
persistent id and the creation timestamp (logical clock). -/
structure StoredContact where
  id : ℕ
  callsign : String
  contactDate : String
  timeOn : String
  timeOff : String
  frequency : ℚ
  band : String
  mode : String
  rstSent : String
  rstReceived : String
  operatorName : String
  qth : String
  country : String
  gridSquare : String
  powerWatts : ℤ
  comment : String
  confirmed : Bool
  createdAt : ℕ
  deriving Repr, DecidableEq

/-- The storage collaborator: rows plus the id sequence and logical clock. -/
structure Store where
  rows : List StoredContact
  nextId : ℕ
  clock : ℕ
  deriving Repr, DecidableEq

/-- The row predicate of the `findExistingContact` query: the row matches
the DedupKey `(callsign, contact_date, time_on)`. -/
def keyPred (cs date timeOn : String) (c : StoredContact) : Bool :=
  c.callsign == cs && c.contactDate == date && c.timeOn == timeOn

/-- Translation of `findExistingContact` (start.sh lines 395–423): first
row matching the DedupKey `(callsign, contact_date, time_on)`. -/
def findExistingContact (st : Store) (cs date timeOn : String) : Option StoredContact :=
  st.rows.find? (keyPred cs date timeOn)

/-- A row holding the request's field values. -/
def rowOfRequest (id createdAt : ℕ) (req : ContactRequest) : StoredContact :=
  { id := id
    callsign := req.callsign
    contactDate := req.contactDate
    timeOn := req.timeOn
    timeOff := req.timeOff
    frequency := req.frequency
    band := req.band
    mode := req.mode
    rstSent := req.rstSent
    rstReceived := req.rstReceived
    operatorName := req.operatorName
    qth := req.qth
    country := req.country
    gridSquare := req.gridSquare
    powerWatts := req.powerWatts
    comment := req.comment
    confirmed := req.confirmed
    createdAt := createdAt }

/-- Translation of `createContact`: insert a fresh row. -/
def createContact (st : Store) (req : ContactRequest) : Store :=
  { rows := st.rows ++ [rowOfRequest st.nextId st.clock req]
    nextId := st.nextId + 1
    clock := st.clock + 1 }

/-- Translation of `updateContact`: replace the fields of the row with the
given id by the request's values, keeping `id` and `created_at`. -/
def updateContact (st : Store) (id : ℕ) (req : ContactRequest) : Store :=
  { st with rows := st.rows.map (fun c => if c.id = id then rowOfRequest id c.createdAt req else c) }

/-- The per-record loop body of `handleImportADIF` (part_002 lines
563–601): the duplicate lookup is gated on
`options.MergeDuplicates || options.UpdateExisting`. -/
def importStep (options : ImportOptions) (acc : ImportResult × Store) (record : ADIFRecord) :
    ImportResult × Store :=
  let req := convertToContactRequest record
  let res := acc.1
  let st := acc.2
  if options.mergeDuplicates || options.updateExisting then
    match findExistingContact st req.callsign req.contactDate req.timeOn with
    | some existing =>
        if options.updateExisting then
          ({ res with importedCount := res.importedCount + 1 }, updateContact st existing.id req)
        else
          ({ res with skippedCount := res.skippedCount + 1 }, st)
    | none =>
        ({ res with importedCount := res.importedCount + 1 }, createContact st req)
  else
    ({ res with importedCount := res.importedCount + 1 }, createContact st req)

/-- The fresh result `handleImportADIF` starts from. -/
def initImportResult (count : ℕ) (filename : String) : ImportResult :=
  { success := true
    importedCount := 0
    skippedCount := 0
    errorCount := 0
    errors := []
    message := "Processing " ++ String.mk (natDigits count) ++ " records from " ++ filename }

/-- The final message update of `handleImportADIF`. -/
def finalizeImportMessage (filename : String) (res : ImportResult) : ImportResult :=
  if res.errorCount = 0 then
    { res with message := "Successfully imported " ++ String.mk (natDigits res.importedCount)
        ++ " contacts from " ++ filename }
  else
    { res with message := "Imported " ++ String.mk (natDigits res.importedCount)
        ++ " contacts with " ++ String.mk (natDigits res.errorCount)
        ++ " errors from " ++ filename }

/-- Translation of the import pipeline of `handleImportADIF`: parse the
uploaded stream, then reconcile each record in order. -/
def importADIF (today nowTime filename : String) (options : ImportOptions)
    (input : String) (st : Store) : ImportResult × Store :=
  let records := (parseADIF today nowTime input).1
  let out := records.foldl (importStep options) (initImportResult records.length filename, st)
  (finalizeImportMessage filename out.1, out.2)

/-! ## LoTW external-source adapter (the Go file holding `LoTWClient`) -/

/-- The failure classes of `downloadQSOData`'s response classification. -/
inductive LotwFailure where
  | authenticationFailed
  | serviceError
  | malformedResponse
  deriving Repr, DecidableEq

/-- The response classification tail of `downloadQSOData` (lines 146–155 of
the LoTW client file): a body without a case-insensitive `<EOH>` marker is
never returned as a stream; it is classified as an authentication failure
(body mentions `login` or `password`), a service error (body mentions
`error`), or a malformed response.  The HTTP transport (status codes,
network errors) is outside the model; `body` is the already-received
response body. -/
def classifyLotwResponse (body : String) : Except LotwFailure String :=
  if hasSubList "<EOH>".data (upperStr body).data then .ok body
  else if hasSubList "login".data (lowerStr body).data
      || hasSubList "password".data (lowerStr body).data then
    .error .authenticationFailed
  else if hasSubList "error".data (lowerStr body).data then .error .serviceError
  else .error .malformedResponse

/-- A QSO record as prepared from parsed ADIF data (`LoTWQSO`). -/
structure LoTWQSO where
  call : String
  band : String
  mode : String
  qsoDate : String
  timeOn : String
  country : String
  state : String
  gridSquare : String
  frequency : String
  stationCall : String
  myGridSq : String
  qslRcvd : String
  deriving Repr, DecidableEq

/-- Translation of `parseADIFData`: decode the stream with the shared ADIF
decoder, then repackage each record as a `LoTWQSO` — dropping `TIME_OFF`,
`TX_PWR`, `RST_SENT`, `RST_RCVD` and `COMMENT`, reformatting the frequency
with `%.3f`, and marking every record `QSLRcvd = "Y"`. -/
def parseADIFData (username today nowTime : String) (adifData : String) : List LoTWQSO :=
  ((parseADIF today nowTime adifData).1).map fun r =>
    { call := r.callsign
      band := upperStr r.band
      mode := r.mode
      qsoDate := r.date
      timeOn := r.timeOn
      country := r.country
      state := r.qth
      gridSquare := r.grid
      frequency := formatFreq r.frequency
      stationCall := username
      myGridSq := ""
      qslRcvd := "Y" }

/-- Translation of the LoTW file's custom `parseFloat`/`parseFloatString`:
strip every character that is not a digit or a point, fail on an empty
remainder, then accumulate: digits before the first point as the integer
part, every digit after it as successive decimals (extra points are
skipped).  The fold is written in integer arithmetic (`mkRat`) — the same
rational value the Go float fold computes. -/
def goParseFloat (s : String) : Option ℚ :=
  let cleaned := s.data.filter (fun c => c.isDigit || c == '.')
  if cleaned.isEmpty then none
  else
    let pre := cleaned.takeWhile Char.isDigit
    let post := (cleaned.dropWhile Char.isDigit).filter Char.isDigit
    some (mkRat (digitsToNat pre * 10 ^ post.length + digitsToNat post) (10 ^ post.length))

/-- Translation of `LoTWQSO.ConvertToADIFRecord` (lines 237–281 of the
LoTW client file): `powerWatts` is always 100, `comment` always
`"Imported from LoTW"`, both RST fields always `"59"`, `timeOff` a copy of
`timeOn`, and `confirmed` true exactly when `QSLRcvd == "Y"` (which
`parseADIFData` always sets). -/
def lotwConvertToADIFRecord (q : LoTWQSO) : ADIFRecord :=
  let freq : ℚ :=
    if q.frequency = "" then 0
    else match goParseFloat q.frequency with
      | some f => f
      | none => 0
  let date :=
    if q.qsoDate.data.length = 10 ∧ hasSubList ['-'] q.qsoDate.data then q.qsoDate
    else if q.qsoDate.data.length = 8 then
      String.mk (q.qsoDate.data.take 4 ++ '-' ::
        ((q.qsoDate.data.drop 4).take 2 ++ '-' :: q.qsoDate.data.drop 6))
    else q.qsoDate
  let timeOn :=
    if q.timeOn.data.length = 4 then
      String.mk (q.timeOn.data.take 2 ++ ':' :: ((q.timeOn.data.drop 2).take 2 ++ [':', '0', '0']))
    else if q.timeOn.data.length = 6 then
      String.mk (q.timeOn.data.take 2 ++ ':' ::
        ((q.timeOn.data.drop 2).take 2 ++ ':' :: q.timeOn.data.drop 4))
    else q.timeOn
  { callsign := q.call
    date := date
    timeOn := timeOn
    timeOff := timeOn
    frequency := freq
    band := lowerStr q.band
    mode := q.mode
    rstSent := "59"
    rstReceived := "59"
    name := ""
    qth := q.state
    country := q.country
    grid := q.gridSquare
    power := 100
    comment := "Imported from LoTW"
    confirmed := q.qslRcvd == "Y" }

/-- The per-record loop body of `ImportFromLoTW` (lines 353–383 of the
LoTW client file): the duplicate lookup is gated on
`options.MergeDuplicates` ONLY, and `confirmed` is forced to `true` before
every insert or update. -/
def lotwStep (options : ImportOptions) (acc : ImportResult × Store) (record : ADIFRecord) :
    ImportResult × Store :=
  let req := convertToContactRequest record
  let res := acc.1
  let st := acc.2
  if options.mergeDuplicates then
    match findExistingContact st req.callsign req.contactDate req.timeOn with
    | some existing =>
        if options.updateExisting then
          ({ res with importedCount := res.importedCount + 1 },
            updateContact st existing.id { req with confirmed := true })
        else
          ({ res with skippedCount := res.skippedCount + 1 }, st)
    | none =>
        ({ res with importedCount := res.importedCount + 1 },
          createContact st { req with confirmed := true })
  else
    ({ res with importedCount := res.importedCount + 1 },
      createContact st { req with confirmed := true })

/-- The aborting `ImportResult` of `ImportFromLoTW` when retrieval fails:
`success = false`, zero imported and skipped, exactly one error entry. -/
def lotwFailResult (f : LotwFailure) : ImportResult :=
  { success := false
    importedCount := 0
    skippedCount := 0
    errorCount := 1
    errors := ["Failed to retrieve data from LoTW: failed to download QSO data: " ++
      (match f with
       | .authenticationFailed => "authentication failed - received login page instead of ADIF data"
       | .serviceError => "LoTW returned an error"
       | .malformedResponse => "invalid ADIF data received - missing <EOH> header")]
    message := "LoTW import failed" }

/-- The final message update of `ImportFromLoTW`. -/
def lotwFinalizeMessage (username : String) (res : ImportResult) : ImportResult :=
  if res.errorCount = 0 then
    { res with message := "Successfully imported " ++ String.mk (natDigits res.importedCount)
        ++ " confirmed QSOs from LoTW for " ++ username }
  else
    { res with message := "Imported " ++ String.mk (natDigits res.importedCount)
        ++ " QSOs with " ++ String.mk (natDigits res.errorCount)
        ++ " errors from LoTW for " ++ username }

/-- Translation of `ImportFromLoTW` over an already-received response body:
classify the response; on failure abort (no record processed, store
untouched) with the single-error result; on success decode through
`parseADIFData`/`ConvertToADIFRecord` and reconcile each record in order. -/
def importFromLoTW (today nowTime username : String) (options : ImportOptions)
    (body : String) (st : Store) : ImportResult × Store :=
  match classifyLotwResponse body with
  | .error f => (lotwFailResult f, st)
  | .ok data =>
      let qsos := parseADIFData username today nowTime data
      let records := qsos.map lotwConvertToADIFRecord
      let init : ImportResult :=
        { success := true
          importedCount := 0
          skippedCount := 0
          errorCount := 0
          errors := []
          message := "Processing " ++ String.mk (natDigits qsos.length)
            ++ " confirmed QSOs from LoTW for " ++ username }
      let out := records.foldl (lotwStep options) (init, st)
      (lotwFinalizeMessage username out.1, out.2)


/-- Does the list contain a case-insensitive `<eor>` marker anywhere? -/
def hasEORList : List Char → Bool
  | [] => false
  | c :: rest => isEORAt (c :: rest) || hasEORList rest

/-! ## Duplicate Collapser (spec §4.6) -/

/-- The natural key `(callsign, date, timeOn)` (spec §3, `DedupKey`),
shared by the reconciler lookup and the collapser grouping. -/
def dedupKey (c : StoredContact) : String × String × String :=
  (c.callsign, c.contactDate, c.timeOn)

/-- The member of `g :: gs` with the earliest creation timestamp (first
one on ties). -/
def minCreated (g : StoredContact) (gs : List StoredContact) : StoredContact :=
  gs.foldl (fun a b => if b.createdAt < a.createdAt then b else a) g

/-- Modelled from the spec: the per-field merge of
`QSOLogger.MergeDuplicateContacts`, which is not present under `src/`
(only its caller `handleMergeDuplicates` in part_002 is).  Per §4.6, a
non-empty field value of another member is merged into the retained
record only where the retained field is empty; a non-empty retained value
is never overwritten.  "Empty" is the zero value: `""` for strings, `0`
for the numeric fields; `id`, `created_at` and the boolean `confirmed`
belong to the retained row. -/
def mergeInto (a b : StoredContact) : StoredContact :=
  { a with
    callsign := if a.callsign = "" then b.callsign else a.callsign
    contactDate := if a.contactDate = "" then b.contactDate else a.contactDate
    timeOn := if a.timeOn = "" then b.timeOn else a.timeOn
    timeOff := if a.timeOff = "" then b.timeOff else a.timeOff
    frequency := if a.frequency = 0 then b.frequency else a.frequency
    band := if a.band = "" then b.band else a.band
    mode := if a.mode = "" then b.mode else a.mode
    rstSent := if a.rstSent = "" then b.rstSent else a.rstSent
    rstReceived := if a.rstReceived = "" then b.rstReceived else a.rstReceived
    operatorName := if a.operatorName = "" then b.operatorName else a.operatorName
    qth := if a.qth = "" then b.qth else a.qth
    country := if a.country = "" then b.country else a.country
    gridSquare := if a.gridSquare = "" then b.gridSquare else a.gridSquare
    powerWatts := if a.powerWatts = 0 then b.powerWatts else a.powerWatts
    comment := if a.comment = "" then b.comment else a.comment }

/-- Modelled from the spec: the whole-dataset pass of
`QSOLogger.MergeDuplicateContacts` (§4.6): group all rows by `DedupKey`;
in each group retain the member with the earliest creation timestamp,
fold the remaining members into it with `mergeInto`, and delete them; the
returned count is the number of rows removed (`group size - 1` summed
over the groups). -/
def mergeGroupAt (rows : List StoredContact) (k : String × String × String) :
    Option StoredContact :=
  match rows.filter (fun c => dedupKey c = k) with
  | [] => none
  | g :: gs =>
      some (((g :: gs).erase (minCreated g gs)).foldl mergeInto (minCreated g gs))

/-- Modelled from the spec: the top level of `QSOLogger.MergeDuplicateContacts`
(§4.6): one collapsed row per distinct `DedupKey` (in first-occurrence
order), and the removed-row count (`group size - 1` summed over the
groups). -/
def mergeDuplicateContacts (st : Store) : ℕ × Store :=
  let keys := (st.rows.map dedupKey).dedup
  ((keys.map (fun k => (st.rows.filter (fun c => dedupKey c = k)).length - 1)).sum,
   { st with rows := keys.filterMap (mergeGroupAt st.rows) })

/-- The string-valued fields of a stored row that participate in the
collapser's merge (all except the key-independent bookkeeping `id`,
`created_at`, the numeric fields and the boolean `confirmed`). -/
def stringFields : List (StoredContact → String) :=
  [StoredContact.callsign, StoredContact.contactDate, StoredContact.timeOn,
   StoredContact.timeOff, StoredContact.band, StoredContact.mode,
   StoredContact.rstSent, StoredContact.rstReceived, StoredContact.operatorName,
   StoredContact.qth, StoredContact.country, StoredContact.gridSquare,
   StoredContact.comment]

/-! ## Canonical-record predicate for the round-trip law (§4.2/§4.3/§8)

A record decoded from well-formed input and re-encoded round-trips only
when its fields have the shapes the decoder itself produces: an ISO date,
`HH:MM:SS` times, a frequency with at most three decimal places, and
string fields free of the structural characters (`<`, newlines) that the
tag grammar reserves.  The predicates below state those shapes; the
round-trip theorem assumes them and the witness instantiates them. -/

/-- A character that cannot disturb the tag grammar, the line scanner or
the `<eor>` search when it occurs inside an emitted field value. -/
def cleanChar (c : Char) : Bool := c != '<' && c != '\n' && c != '\r'

/-- Every character of the string is structurally harmless. -/
def cleanStr (s : String) : Bool := s.data.all cleanChar

/-- The string does not end in whitespace (`strings.TrimSpace` on the
final record segment would otherwise eat into the last field value). -/
def noTrailSpace (s : String) : Bool :=
  match s.data.getLast? with
  | some c => !isSpaceChar c
  | none => true

/-- The ISO `YYYY-MM-DD` shape the decoder's `formatDate` produces. -/
def dateCanon (s : String) : Bool :=
  match s.data with
  | [a, b, c, d, x, e, f, y, g, h] =>
      a.isDigit && b.isDigit && c.isDigit && d.isDigit && x == '-' &&
      e.isDigit && f.isDigit && y == '-' && g.isDigit && h.isDigit
  | _ => false

/-- The `HH:MM:SS` shape the decoder's `formatTime` produces. -/
def timeCanon (s : String) : Bool :=
  match s.data with
  | [a, b, x, c, d, y, e, f] =>
      a.isDigit && b.isDigit && x == ':' && c.isDigit && d.isDigit &&
      y == ':' && e.isDigit && f.isDigit
  | _ => false

/-- The canonical shape of a decoded `ADIFRecord`: the shapes `parseRecord`
guarantees on its output (non-empty callsign/mode/RSTs, formatted date and
times, band only empty when the frequency is not positive) together with
the cleanliness conditions on the free-text fields under which the encoded
stream re-tokenizes exactly. -/
@[reducible] def canonicalRecord (r : ADIFRecord) : Prop :=
  r.callsign ≠ "" ∧ cleanStr r.callsign = true ∧
  dateCanon r.date = true ∧ timeCanon r.timeOn = true ∧ timeCanon r.timeOff = true ∧
  0 ≤ r.frequency ∧ r.frequency.den ∣ 1000 ∧
  (r.band = "" → r.frequency ≤ 0) ∧ cleanStr r.band = true ∧
  r.mode ≠ "" ∧ cleanStr r.mode = true ∧
  r.rstSent ≠ "" ∧ cleanStr r.rstSent = true ∧
  r.rstReceived ≠ "" ∧ cleanStr r.rstReceived = true ∧ noTrailSpace r.rstReceived = true ∧
  cleanStr r.name = true ∧ noTrailSpace r.name = true ∧
  cleanStr r.qth = true ∧ noTrailSpace r.qth = true ∧
  cleanStr r.country = true ∧ noTrailSpace r.country = true ∧
  cleanStr r.grid = true ∧ noTrailSpace r.grid = true ∧
  0 ≤ r.power ∧
  cleanStr r.comment = true ∧ noTrailSpace r.comment = true

/-! ## Chunk view of the encoder's output

`recordString` emits a sequence of `<NAME:len>value ` chunks.  The
definitions below re-express that emission as a token list so that the
tokenizer walk can proceed one chunk at a time; `recordString_chunks`
below proves the re-expression equal to `recordString`. -/

/-- The characters of one emitted field `<NAME:len>value` (without the
trailing space). -/
def encTok (t : List Char × ℕ × List Char) : List Char :=
  '<' :: (t.1 ++ ':' :: (natDigits t.2.1 ++ '>' :: t.2.2))

/-- A chunk sequence as emitted: every chunk followed by one space. -/
def encSp (chs : List (List Char × ℕ × List Char)) : List Char :=
  (chs.map (fun t => encTok t ++ [' '])).join

/-- A chunk sequence as it stands after `strings.TrimSpace` of the record
segment: every chunk but the last followed by one space. -/
def encTrim : List (List Char × ℕ × List Char) → List Char
  | [] => []
  | [t] => encTok t
  | t :: t' :: ts => encTok t ++ ' ' :: encTrim (t' :: ts)

/-- The `(name, declared length, value)` tokens of `recordString r`, in
emission order (logger.go lines 881–918): the mandatory fields with their
hard-coded or measured lengths, then each optional field when present. -/
def toks (r : ADIFRecord) : List (List Char × ℕ × List Char) :=
  ("CALL".data, r.callsign.data.length, r.callsign.data) ::
  ("QSO_DATE".data, 8, (stripDashes r.date).data) ::
  ("TIME_ON".data, 6, (stripColons r.timeOn).data) ::
  ("TIME_OFF".data, 6, (stripColons r.timeOff).data) ::
  ("FREQ".data, (formatFreq r.frequency).data.length, (formatFreq r.frequency).data) ::
  ("BAND".data, r.band.data.length, r.band.data) ::
  ("MODE".data, r.mode.data.length, r.mode.data) ::
  ("RST_SENT".data, r.rstSent.data.length, r.rstSent.data) ::
  ("RST_RCVD".data, r.rstReceived.data.length, r.rstReceived.data) ::
  ((if r.name = "" then [] else [("NAME".data, r.name.data.length, r.name.data)]) ++
   (if r.qth = "" then [] else [("QTH".data, r.qth.data.length, r.qth.data)]) ++
   (if r.country = "" then []
    else [("COUNTRY".data, r.country.data.length, r.country.data)]) ++
   (if r.grid = "" then []
    else [("GRIDSQUARE".data, r.grid.data.length, r.grid.data)]) ++
   (if 0 < r.power then
      [("TX_PWR".data, (intStr r.power).data.length, (intStr r.power).data)]
    else []) ++
   (if r.comment = "" then []
    else [("COMMENT".data, r.comment.data.length, r.comment.data)]))

/-- Well-formedness of one emitted token: the name is non-empty, starts
with a letter that cannot begin an `<eor>` match, contains no `:`/`>`/`<`;
the value contains no `<`; and the declared length equals the value
length (as `fieldStr` measures it). -/
def goodTok (t : List Char × ℕ × List Char) : Prop :=
  (∃ c n', t.1 = c :: n' ∧ c.toLower ≠ 'e' ∧ c ≠ '<') ∧
  (∀ c ∈ t.1, notColonGt c = true ∧ c ≠ '<' ∧ c ≠ '\n' ∧ c ≠ '\r') ∧
  (∀ c ∈ t.2.2, c ≠ '<' ∧ c ≠ '\n' ∧ c ≠ '\r') ∧
  t.2.1 = t.2.2.length

/-- The field switch applied to un-truncated token values (what the fold
computes when every declared length equals the value length). -/
def applyExact (r : ADIFRecord) (chs : List (List Char × ℕ × List Char)) : ADIFRecord :=
  chs.foldl (fun r t => applyField r (upperStr (String.mk t.1)) (String.mk t.2.2)) r

/-! ## Basic lemmas about the embedded functions -/

theorem natDigitsRevF_congr :
    ∀ f g n : ℕ, n < f → n < g → natDigitsRevF f n = natDigitsRevF g n := by
  intro f
  induction f with
  | zero => intro g n hf _; omega
  | succ f ih =>
      intro g n hf hg
      cases g with
      | zero => omega
      | succ g =>
          by_cases h10 : n < 10
          · simp [natDigitsRevF, h10]
          · have hd : n / 10 < n := Nat.div_lt_self (by omega) (by omega)
            simp only [natDigitsRevF, h10, if_false]
            rw [ih g (n / 10) (by omega) (by omega)]

theorem natDigitsRev_eq (n : ℕ) :
    natDigitsRev n =
      if n < 10 then [digitChar n] else digitChar (n % 10) :: natDigitsRev (n / 10) := by
  have step : natDigitsRevF (n + 1) n =
      if n < 10 then [digitChar n] else digitChar (n % 10) :: natDigitsRevF n (n / 10) := rfl
  by_cases h10 : n < 10
  · rw [if_pos h10]
    show natDigitsRevF (n + 1) n = _
    rw [step, if_pos h10]
  · have hd : n / 10 < n := Nat.div_lt_self (by omega) (by omega)
    rw [if_neg h10]
    show natDigitsRevF (n + 1) n = _
    rw [step, if_neg h10]
    congr 1
    exact natDigitsRevF_congr n (n / 10 + 1) (n / 10) (by omega) (by omega)

theorem expectColon_suffix {l r : List Char} (h : expectColon l = some r) : r <:+ l := by
  cases l with
  | nil => simp [expectColon] at h
  | cons c t =>
      by_cases hc : c = ':'
      · simp only [expectColon, hc, if_true, Option.some.injEq] at h
        subst h
        exact ⟨[c], by simp [hc]⟩
      · simp [expectColon, hc] at h

theorem expectGt_suffix {l r : List Char} (h : expectGt l = some r) : r <:+ l := by
  cases l with
  | nil => simp [expectGt] at h
  | cons c t =>
      by_cases hc : c = '>'
      · simp only [expectGt, hc, if_true, Option.some.injEq] at h
        subst h
        exact ⟨[c], by simp [hc]⟩
      · simp [expectGt, hc] at h

theorem dropWhile_suffix' (p : Char → Bool) (l : List Char) : l.dropWhile p <:+ l := by
  induction l with
  | nil => simp [List.dropWhile]
  | cons c t ih =>
      rw [List.dropWhile_cons]
      by_cases hp : p c = true
      · rw [if_pos hp]
        exact ih.trans ⟨[c], rfl⟩
      · rw [if_neg hp]

theorem expectGtOrTypehint_suffix {l r : List Char}
    (h : expectGtOrTypehint l = some r) : r <:+ l := by
  cases l with
  | nil => simp [expectGtOrTypehint] at h
  | cons c t =>
      by_cases hgt : c = '>'
      · simp only [expectGtOrTypehint, hgt, if_true, Option.some.injEq] at h
        subst h
        exact ⟨[c], by simp [hgt]⟩
      · by_cases hcl : c = ':'
        · simp only [expectGtOrTypehint, hgt, if_false, hcl, if_true] at h
          calc r <:+ t.dropWhile (fun c => c != '>') := expectGt_suffix h
            _ <:+ t := dropWhile_suffix' _ _
            _ <:+ c :: t := ⟨[c], rfl⟩
        · simp [expectGtOrTypehint, hgt, hcl] at h

theorem matchAfterLt_suffix {l : List Char} {n : List Char} {k : ℕ}
    {v r : List Char} (h : matchAfterLt l = some (n, k, v, r)) :
    r <:+ l := by
  unfold matchAfterLt at h
  by_cases hn : (l.takeWhile notColonGt).isEmpty
  · rw [if_pos hn] at h
    exact absurd h (by simp)
  · rw [if_neg hn, Option.bind_eq_some] at h
    obtain ⟨r2, hr2, h⟩ := h
    have s2 : r2 <:+ l := (expectColon_suffix hr2).trans (dropWhile_suffix' _ _)
    by_cases hd : (r2.takeWhile Char.isDigit).isEmpty
    · rw [if_pos hd] at h
      exact absurd h (by simp)
    · rw [if_neg hd, Option.bind_eq_some] at h
      obtain ⟨r4, hr4, h⟩ := h
      have s4 : r4 <:+ r2 :=
        (expectGtOrTypehint_suffix hr4).trans (dropWhile_suffix' _ _)
      simp only [Option.some.injEq, Prod.mk.injEq] at h
      obtain ⟨-, -, -, rfl⟩ := h
      exact ((dropWhile_suffix' notLt r4).trans s4).trans s2

theorem matchAfterLt_length {l : List Char} {n : List Char} {k : ℕ}
    {v r : List Char} (h : matchAfterLt l = some (n, k, v, r)) :
    r.length ≤ l.length :=
  (matchAfterLt_suffix h).length_le

theorem findFieldsF_nil (f : ℕ) : findFieldsF f [] = [] := by
  cases f <;> rfl

theorem findFieldsF_congr :
    ∀ f g : ℕ, ∀ l : List Char, l.length ≤ f → l.length ≤ g →
      findFieldsF f l = findFieldsF g l := by
  intro f
  induction f with
  | zero =>
      intro g l hf _
      have : l = [] := by
        cases l
        · rfl
        · simp at hf
      subst this
      simp [findFieldsF_nil]
  | succ f ih =>
      intro g l hf hg
      cases l with
      | nil => simp [findFieldsF_nil]
      | cons c rest =>
          cases g with
          | zero => simp at hg
          | succ g =>
              have hr : rest.length ≤ f := by simp at hf; omega
              have hrg : rest.length ≤ g := by simp at hg; omega
              by_cases hc : c = '<'
              · cases hm : matchAfterLt rest with
                | none =>
                    simp only [findFieldsF, hc, if_true, hm]
                    exact ih g rest hr hrg
                | some t =>
                    obtain ⟨n, k, v, r'⟩ := t
                    have hlen := matchAfterLt_length hm
                    simp only [findFieldsF, hc, if_true, hm]
                    rw [ih g r' (by omega) (by omega)]
              · simp only [findFieldsF, hc, if_false]
                exact ih g rest hr hrg

theorem findFields_cons (c : Char) (rest : List Char) :
    findFields (c :: rest) =
      if c = '<' then
        match matchAfterLt rest with
        | some (n, k, v, r') => (n, k, v) :: findFields r'
        | none => findFields rest
      else findFields rest := by
  by_cases hc : c = '<'
  · cases hm : matchAfterLt rest with
    | none =>
        show findFieldsF (rest.length + 1) (c :: rest) = _
        simp only [findFieldsF, hc, if_true, hm]
        rfl
    | some t =>
        obtain ⟨n, k, v, r'⟩ := t
        have hlen := matchAfterLt_length hm
        show findFieldsF (rest.length + 1) (c :: rest) = _
        simp only [findFieldsF, hc, if_true, hm]
        rw [findFieldsF_congr rest.length r'.length r' (by omega) (by omega)]
        rfl
  · show findFieldsF (rest.length + 1) (c :: rest) = _
    simp only [findFieldsF, hc, if_false]
    rfl

theorem findFields_nil : findFields [] = [] := rfl

theorem splitEORAuxF_nil (f : ℕ) (cur : List Char) : splitEORAuxF f cur [] = [] := by
  cases f <;> rfl

theorem splitEORAuxF_congr :
    ∀ f g : ℕ, ∀ cur l : List Char, l.length ≤ f → l.length ≤ g →
      splitEORAuxF f cur l = splitEORAuxF g cur l := by
  intro f
  induction f with
  | zero =>
      intro g cur l hf _
      have : l = [] := by
        cases l
        · rfl
        · simp at hf
      subst this
      simp [splitEORAuxF_nil]
  | succ f ih =>
      intro g cur l hf hg
      cases l with
      | nil => simp [splitEORAuxF_nil]
      | cons c rest =>
          cases g with
          | zero => simp at hg
          | succ g =>
              simp only [splitEORAuxF]
              have hr : rest.length ≤ f := by simp at hf; omega
              have hrg : rest.length ≤ g := by simp at hg; omega
              by_cases he : isEORAt (c :: rest) = true
              · simp only [he, if_true]
                rw [ih g [] (rest.drop 4) (by rw [List.length_drop]; omega)
                  (by rw [List.length_drop]; omega)]
              · simp only [he, if_false]
                exact ih g (c :: cur) rest hr hrg

theorem splitEORAux_cons (cur : List Char) (c : Char) (rest : List Char) :
    splitEORAux cur (c :: rest) =
      if isEORAt (c :: rest) then cur.reverse :: splitEORAux [] (rest.drop 4)
      else splitEORAux (c :: cur) rest := by
  show splitEORAuxF (rest.length + 1) cur (c :: rest) = _
  simp only [splitEORAuxF]
  by_cases he : isEORAt (c :: rest) = true
  · simp only [he, if_true]
    rw [splitEORAuxF_congr rest.length (rest.drop 4).length [] (rest.drop 4)
      (by rw [List.length_drop]; omega) le_rfl]
    rfl
  · simp only [he, if_false]
    rfl

theorem splitEORAux_nil (cur : List Char) : splitEORAux cur [] = [] := rfl

theorem finalizeRecord_eq (t n : String) (r : ADIFRecord) :
    finalizeRecord t n r =
      if r.callsign = "" then .error "missing required field: CALL"
      else
        .ok { callsign := r.callsign
              date := if r.date = "" then t else r.date
              timeOn := if r.timeOn = "" then n else r.timeOn
              timeOff := if r.timeOff = "" then (if r.timeOn = "" then n else r.timeOn)
                else r.timeOff
              frequency := r.frequency
              band := if r.band = "" ∧ 0 < r.frequency then frequencyToBand r.frequency
                else r.band
              mode := if r.mode = "" then "SSB" else r.mode
              rstSent := if r.rstSent = "" then "59" else r.rstSent
              rstReceived := if r.rstReceived = "" then "59" else r.rstReceived
              name := r.name
              qth := r.qth
              country := r.country
              grid := r.grid
              power := r.power
              comment := r.comment
              confirmed := r.confirmed } := by
  unfold finalizeRecord
  by_cases hc : r.callsign = ""
  · rw [if_pos hc, if_pos hc]
  · rw [if_neg hc, if_neg hc]
    generalize frequencyToBand r.frequency = B
    by_cases h1 : r.band = "" ∧ 0 < r.frequency <;>
      by_cases h2 : r.date = "" <;>
      by_cases h3 : r.timeOn = "" <;>
      by_cases h4 : r.timeOff = "" <;>
      by_cases h5 : r.mode = "" <;>
      by_cases h6 : r.rstSent = "" <;>
      by_cases h7 : r.rstReceived = "" <;>
      simp [h1, h2, h3, h4, h5, h6, h7]

theorem finalizeRecord_ok_band {t n : String} {r r' : ADIFRecord}
    (h : finalizeRecord t n r = .ok r') :
    r'.band = if r.band = "" ∧ 0 < r.frequency then frequencyToBand r.frequency
      else r.band := by
  rw [finalizeRecord_eq] at h
  by_cases hc : r.callsign = ""
  · rw [if_pos hc] at h
    exact absurd h (by simp)
  · rw [if_neg hc] at h
    simp only [Except.ok.injEq] at h
    subst h
    rfl

theorem processSegments_acc (today nowTime : String) :
    ∀ (segs : List (List Char)) (acc : List ADIFRecord × List String),
      segs.foldl (processSegmentsStep today nowTime) acc =
        (acc.1 ++ (processSegments today nowTime segs).1,
         acc.2 ++ (processSegments today nowTime segs).2) := by
  intro segs
  induction segs with
  | nil => intro acc; simp [processSegments]
  | cons seg segs ih =>
      intro acc
      have hstep : ∀ acc' : List ADIFRecord × List String,
          (seg :: segs).foldl (processSegmentsStep today nowTime) acc' =
            segs.foldl (processSegmentsStep today nowTime)
              (processSegmentsStep today nowTime acc' seg) := by
        intro acc'; rfl
      rw [hstep]
      rw [show processSegments today nowTime (seg :: segs) =
        segs.foldl (processSegmentsStep today nowTime)
          (processSegmentsStep today nowTime ([], []) seg) from rfl]
      rw [ih (processSegmentsStep today nowTime acc seg),
        ih (processSegmentsStep today nowTime ([], []) seg)]
      unfold processSegmentsStep
      cases parseRecord today nowTime (String.mk seg) with
      | ok r => simp
      | error e => simp

theorem processSegments_append (today nowTime : String) (s1 s2 : List (List Char)) :
    processSegments today nowTime (s1 ++ s2) =
      ((processSegments today nowTime s1).1 ++ (processSegments today nowTime s2).1,
       (processSegments today nowTime s1).2 ++ (processSegments today nowTime s2).2) := by
  unfold processSegments
  rw [List.foldl_append]
  rw [show s1.foldl (processSegmentsStep today nowTime) ([], []) =
    processSegments today nowTime s1 from rfl]
  have := processSegments_acc today nowTime s2 (processSegments today nowTime s1)
  rw [this]
  rfl

theorem noEOR_scan :
    ∀ l : List Char, hasEORList l = false → ∀ cur, splitEORAux cur l = [] := by
  intro l
  induction l with
  | nil => intro _ cur; exact splitEORAux_nil cur
  | cons c rest ih =>
      intro h cur
      have h' : isEORAt (c :: rest) = false ∧ hasEORList rest = false := by
        simpa [hasEORList] using h
      rw [splitEORAux_cons, if_neg (by simp [h'.1])]
      exact ih h'.2 (c :: cur)

theorem isEORAt_append_ge5 (l t : List Char) (h : 5 ≤ l.length) :
    isEORAt (l ++ t) = isEORAt l := by
  rcases l with _ | ⟨a, _ | ⟨b, _ | ⟨c, _ | ⟨d, _ | ⟨e, rest⟩⟩⟩⟩⟩
  · simp at h
  · simp at h
  · simp at h
  · simp at h
  · simp at h
  · rfl

theorem lt_head_no_overlap (p : Char) (pre' rest : List Char) (h : pre'.length ≤ 3) :
    isEORAt ((p :: pre') ++ '<' :: rest) = false := by
  have he : ('<'.toLower == 'e') = false := by decide
  have ho : ('<'.toLower == 'o') = false := by decide
  have hr : ('<'.toLower == 'r') = false := by decide
  have hg : (('<' : Char) == '>') = false := by decide
  rcases pre' with _ | ⟨q1, _ | ⟨q2, _ | ⟨q3, pre''⟩⟩⟩
  · rcases rest with _ | ⟨x1, _ | ⟨x2, _ | ⟨x3, r⟩⟩⟩ <;> simp [isEORAt, he]
  · rcases rest with _ | ⟨x1, _ | ⟨x2, r⟩⟩ <;> simp [isEORAt, ho]
  · rcases rest with _ | ⟨x1, r⟩ <;> simp [isEORAt, hr]
  · have : pre'' = [] := by
      cases pre''
      · rfl
      · simp at h
    subst this
    simp [isEORAt, hg]

theorem scan_append_endmark :
    ∀ (N : ℕ) (X : List Char), X.length ≤ N →
      (∃ pre m, X = pre ++ m ∧ isEORAt m = true ∧ m.length = 5) →
      ∀ tail : List Char, hasEORList tail = false →
      ∀ cur, splitEORAux cur (X ++ tail) = splitEORAux cur X := by
  intro N
  induction N with
  | zero =>
      intro X hlen hX tail htail cur
      obtain ⟨pre, m, rfl, hm, hm5⟩ := hX
      exfalso
      simp [hm5] at hlen
  | succ N ih =>
      intro X hlen hX tail htail cur
      obtain ⟨pre, m, rfl, hm, hm5⟩ := hX
      rcases m with _ | ⟨a, m1⟩
      · simp at hm5
      rcases m1 with _ | ⟨b, m2⟩
      · simp at hm5
      rcases m2 with _ | ⟨c, m3⟩
      · simp at hm5
      rcases m3 with _ | ⟨d, m4⟩
      · simp at hm5
      rcases m4 with _ | ⟨e, m5⟩
      · simp at hm5
      have hm50 : m5 = [] := by
        cases m5
        · rfl
        · simp at hm5
      subst hm50
      have ha : a = '<' := by
        by_contra hne
        simp [isEORAt, hne] at hm
      cases pre with
      | nil =>
          simp only [List.nil_append]
          have hstep : ([a, b, c, d, e] : List Char) ++ tail = a :: b :: c :: d :: e :: tail := by
            simp
          rw [hstep, splitEORAux_cons, if_pos (by exact hm), splitEORAux_cons, if_pos hm]
          rw [show (([b, c, d, e] : List Char).drop 4) = [] from rfl]
          rw [show ((b :: c :: d :: e :: tail).drop 4) = tail from rfl]
          rw [splitEORAux_nil, noEOR_scan tail htail]
      | cons p pre' =>
          have hassoc : ((p :: pre') ++ [a, b, c, d, e]) ++ tail =
              p :: (pre' ++ a :: b :: c :: d :: e :: tail) := by simp
          have hassoc2 : (p :: pre') ++ [a, b, c, d, e] =
              p :: (pre' ++ [a, b, c, d, e]) := by simp
          rw [hassoc, hassoc2, splitEORAux_cons, splitEORAux_cons]
          have hge : 5 ≤ (p :: (pre' ++ [a, b, c, d, e])).length := by simp
          have heq : isEORAt (p :: (pre' ++ a :: b :: c :: d :: e :: tail)) =
              isEORAt (p :: (pre' ++ [a, b, c, d, e])) := by
            have h0 := isEORAt_append_ge5 (p :: (pre' ++ [a, b, c, d, e])) tail hge
            rw [show (p :: (pre' ++ [a, b, c, d, e])) ++ tail =
              p :: (pre' ++ a :: b :: c :: d :: e :: tail) by simp] at h0
            exact h0
          have hconsapp : (a :: b :: c :: d :: e :: tail : List Char) =
              [a, b, c, d, e] ++ tail := rfl
          cases hE : isEORAt (p :: (pre' ++ [a, b, c, d, e]))
          · rw [if_neg (by simp [heq, hE]), if_neg (by simp [hE])]
            rw [hconsapp, ← List.append_assoc]
            have hXlen : (pre' ++ [a, b, c, d, e]).length ≤ N := by
              simp at hlen ⊢
              omega
            exact ih (pre' ++ [a, b, c, d, e]) hXlen
              ⟨pre', [a, b, c, d, e], rfl, hm, rfl⟩ tail htail (p :: cur)
          · rw [if_pos (by simp [heq, hE]), if_pos (by simp [hE])]
            have h4 : 4 ≤ pre'.length := by
              by_contra hlt
              push_neg at hlt
              have h3 : pre'.length ≤ 3 := by omega
              subst ha
              have := lt_head_no_overlap p pre' ([b, c, d, e] : List Char) h3
              rw [show (p :: pre') ++ '<' :: ([b, c, d, e] : List Char) =
                p :: (pre' ++ ['<', b, c, d, e]) by simp] at this
              rw [this] at hE
              cases hE
            rw [hconsapp]
            have hd1 : (pre' ++ ([a, b, c, d, e] ++ tail)).drop 4 =
                pre'.drop 4 ++ ([a, b, c, d, e] ++ tail) := by
              rw [List.drop_append_of_le_length h4]
            have hd2 : (pre' ++ [a, b, c, d, e]).drop 4 = pre'.drop 4 ++ [a, b, c, d, e] :=
              List.drop_append_of_le_length h4
            rw [hd1, hd2]
            have hXlen : (pre'.drop 4 ++ [a, b, c, d, e]).length ≤ N := by
              simp [List.length_drop] at hlen ⊢
              omega
            congr 1
            have := ih (pre'.drop 4 ++ [a, b, c, d, e]) hXlen
              ⟨pre'.drop 4, [a, b, c, d, e], rfl, hm, rfl⟩ tail htail []
            simpa using this

theorem importStep_skip {acc : ImportResult × Store} {r : ADIFRecord} {row : StoredContact}
    (hf : findExistingContact acc.2 (convertToContactRequest r).callsign
      (convertToContactRequest r).contactDate (convertToContactRequest r).timeOn = some row) :
    importStep ⟨true, false⟩ acc r =
      ({ acc.1 with skippedCount := acc.1.skippedCount + 1 }, acc.2) := by
  simp [importStep, hf]

theorem importStep_insert {acc : ImportResult × Store} {r : ADIFRecord}
    (hf : findExistingContact acc.2 (convertToContactRequest r).callsign
      (convertToContactRequest r).contactDate (convertToContactRequest r).timeOn = none) :
    importStep ⟨true, false⟩ acc r =
      ({ acc.1 with importedCount := acc.1.importedCount + 1 },
        createContact acc.2 (convertToContactRequest r)) := by
  simp [importStep, hf]

theorem importStep_rows_ext (acc : ImportResult × Store) (r : ADIFRecord) :
    ∃ ext, (importStep ⟨true, false⟩ acc r).2.rows = acc.2.rows ++ ext := by
  cases hf : findExistingContact acc.2 (convertToContactRequest r).callsign
      (convertToContactRequest r).contactDate (convertToContactRequest r).timeOn with
  | some row =>
      refine ⟨[], ?_⟩
      rw [importStep_skip hf]
      simp
  | none =>
      refine ⟨[rowOfRequest acc.2.nextId acc.2.clock (convertToContactRequest r)], ?_⟩
      rw [importStep_insert hf]
      rfl

theorem foldl_importStep_rows_ext (recs : List ADIFRecord) :
    ∀ acc : ImportResult × Store,
      ∃ ext, (recs.foldl (importStep ⟨true, false⟩) acc).2.rows = acc.2.rows ++ ext := by
  induction recs with
  | nil => intro acc; exact ⟨[], by simp⟩
  | cons r recs ih =>
      intro acc
      obtain ⟨e1, he1⟩ := importStep_rows_ext acc r
      obtain ⟨e2, he2⟩ := ih (importStep ⟨true, false⟩ acc r)
      exact ⟨e1 ++ e2, by rw [List.foldl_cons, he2, he1, List.append_assoc]⟩

theorem find?_isSome_of_append_left {p : StoredContact → Bool} {l1 l2 : List StoredContact}
    (h : (l1.find? p).isSome = true) : ((l1 ++ l2).find? p).isSome = true := by
  rw [List.find?_append]
  cases hf : l1.find? p
  · rw [hf] at h; simp at h
  · simp [Option.orElse]

theorem pass1_keys (recs : List ADIFRecord) :
    ∀ acc : ImportResult × Store, ∀ r ∈ recs,
      ((recs.foldl (importStep ⟨true, false⟩) acc).2.rows.find?
        (keyPred (convertToContactRequest r).callsign (convertToContactRequest r).contactDate
          (convertToContactRequest r).timeOn)).isSome = true := by
  induction recs with
  | nil => intro acc r hr; simp at hr
  | cons r0 recs ih =>
      intro acc r hr
      rw [List.foldl_cons]
      rcases List.mem_cons.mp hr with rfl | hr'
      · have hpresent : ((importStep ⟨true, false⟩ acc r).2.rows.find?
            (keyPred (convertToContactRequest r).callsign (convertToContactRequest r).contactDate
              (convertToContactRequest r).timeOn)).isSome = true := by
          cases hf : findExistingContact acc.2 (convertToContactRequest r).callsign
              (convertToContactRequest r).contactDate (convertToContactRequest r).timeOn with
          | some row =>
              rw [importStep_skip hf]
              have : (acc.2.rows.find? (keyPred (convertToContactRequest r).callsign
                  (convertToContactRequest r).contactDate
                  (convertToContactRequest r).timeOn)) = some row := hf
              simp [this]
          | none =>
              rw [importStep_insert hf]
              show ((acc.2.rows ++ [rowOfRequest acc.2.nextId acc.2.clock
                (convertToContactRequest r)]).find? _).isSome = true
              rw [List.find?_append]
              cases hh : acc.2.rows.find? (keyPred (convertToContactRequest r).callsign
                  (convertToContactRequest r).contactDate (convertToContactRequest r).timeOn) <;>
                simp [Option.orElse, List.find?, keyPred, rowOfRequest]
        obtain ⟨ext, hext⟩ := foldl_importStep_rows_ext recs (importStep ⟨true, false⟩ acc r)
        rw [hext]
        exact find?_isSome_of_append_left hpresent
      · exact ih (importStep ⟨true, false⟩ acc r0) r hr'

theorem pass2_skips (recs : List ADIFRecord) :
    ∀ (res : ImportResult) (st : Store),
      (∀ r ∈ recs, (st.rows.find? (keyPred (convertToContactRequest r).callsign
        (convertToContactRequest r).contactDate
        (convertToContactRequest r).timeOn)).isSome = true) →
      recs.foldl (importStep ⟨true, false⟩) (res, st) =
        ({ res with skippedCount := res.skippedCount + recs.length }, st) := by
  induction recs with
  | nil => intro res st _; simp
  | cons r0 recs ih =>
      intro res st hall
      have h0 := hall r0 (List.mem_cons_self r0 recs)
      obtain ⟨row, hrow⟩ := Option.isSome_iff_exists.mp h0
      have hf : findExistingContact st (convertToContactRequest r0).callsign
          (convertToContactRequest r0).contactDate (convertToContactRequest r0).timeOn =
          some row := hrow
      rw [List.foldl_cons,
        show importStep ⟨true, false⟩ (res, st) r0 =
          ({ res with skippedCount := res.skippedCount + 1 }, st) from importStep_skip hf,
        ih _ st (fun r hr => hall r (List.mem_cons_of_mem r0 hr))]
      have harith : res.skippedCount + 1 + recs.length = res.skippedCount + (recs.length + 1) := by
        omega
      simp [harith]

theorem finalizeImportMessage_counts (fn : String) (r : ImportResult) :
    (finalizeImportMessage fn r).importedCount = r.importedCount ∧
    (finalizeImportMessage fn r).skippedCount = r.skippedCount := by
  unfold finalizeImportMessage
  split
  · exact ⟨rfl, rfl⟩
  · exact ⟨rfl, rfl⟩

theorem mergeInto_stringField {a b : StoredContact} {f : StoredContact → String}
    (hf : f ∈ stringFields) :
    f (mergeInto a b) = if f a = "" then f b else f a := by
  simp only [stringFields, List.mem_cons, List.mem_singleton] at hf
  rcases hf with rfl | rfl | rfl | rfl | rfl | rfl | rfl | rfl | rfl | rfl | rfl | rfl | hf
  · rfl
  · rfl
  · rfl
  · rfl
  · rfl
  · rfl
  · rfl
  · rfl
  · rfl
  · rfl
  · rfl
  · rfl
  · simp at hf
    subst hf
    rfl

theorem mergeInto_id (a b : StoredContact) :
    (mergeInto a b).id = a.id ∧ (mergeInto a b).createdAt = a.createdAt ∧
    (mergeInto a b).confirmed = a.confirmed := ⟨rfl, rfl, rfl⟩

theorem fold_mergeInto_id (others : List StoredContact) :
    ∀ ret : StoredContact,
      (others.foldl mergeInto ret).id = ret.id ∧
      (others.foldl mergeInto ret).createdAt = ret.createdAt := by
  induction others with
  | nil => intro ret; exact ⟨rfl, rfl⟩
  | cons b others ih =>
      intro ret
      rw [List.foldl_cons]
      exact ⟨(ih (mergeInto ret b)).1.trans (mergeInto_id ret b).1,
        (ih (mergeInto ret b)).2.trans (mergeInto_id ret b).2.1⟩

theorem fold_mergeInto_preserves {f : StoredContact → String} (hf : f ∈ stringFields)
    (others : List StoredContact) :
    ∀ ret : StoredContact, f ret ≠ "" → f (others.foldl mergeInto ret) = f ret := by
  induction others with
  | nil => intro ret _; rfl
  | cons b others ih =>
      intro ret hne
      rw [List.foldl_cons]
      have hstep : f (mergeInto ret b) = f ret := by
        rw [mergeInto_stringField hf, if_neg hne]
      rw [ih (mergeInto ret b) (by rw [hstep]; exact hne), hstep]

theorem fold_mergeInto_empty {f : StoredContact → String} (hf : f ∈ stringFields)
    (others : List StoredContact) :
    ∀ ret : StoredContact, f (others.foldl mergeInto ret) = "" →
      f ret = "" ∧ ∀ x ∈ others, f x = "" := by
  induction others with
  | nil => intro ret h; exact ⟨h, by simp⟩
  | cons b others ih =>
      intro ret h
      rw [List.foldl_cons] at h
      obtain ⟨h1, h2⟩ := ih (mergeInto ret b) h
      rw [mergeInto_stringField hf] at h1
      by_cases hr : f ret = ""
      · rw [if_pos hr] at h1
        refine ⟨hr, ?_⟩
        intro x hx
        rcases List.mem_cons.mp hx with rfl | hx'
        · exact h1
        · exact h2 x hx'
      · rw [if_neg hr] at h1
        exact absurd h1 hr

theorem fold_mergeInto_freq_preserves (others : List StoredContact) :
    ∀ ret : StoredContact, ret.frequency ≠ 0 →
      (others.foldl mergeInto ret).frequency = ret.frequency := by
  induction others with
  | nil => intro ret _; rfl
  | cons b others ih =>
      intro ret hne
      rw [List.foldl_cons]
      have hstep : (mergeInto ret b).frequency = ret.frequency := by
        show (if ret.frequency = 0 then b.frequency else ret.frequency) = ret.frequency
        rw [if_neg hne]
      rw [ih (mergeInto ret b) (by rw [hstep]; exact hne), hstep]

theorem fold_mergeInto_power_preserves (others : List StoredContact) :
    ∀ ret : StoredContact, ret.powerWatts ≠ 0 →
      (others.foldl mergeInto ret).powerWatts = ret.powerWatts := by
  induction others with
  | nil => intro ret _; rfl
  | cons b others ih =>
      intro ret hne
      rw [List.foldl_cons]
      have hstep : (mergeInto ret b).powerWatts = ret.powerWatts := by
        show (if ret.powerWatts = 0 then b.powerWatts else ret.powerWatts) = ret.powerWatts
        rw [if_neg hne]
      rw [ih (mergeInto ret b) (by rw [hstep]; exact hne), hstep]

theorem mergeInto_key {a b : StoredContact} (h : dedupKey b = dedupKey a) :
    dedupKey (mergeInto a b) = dedupKey a := by
  simp only [dedupKey, Prod.mk.injEq] at h ⊢
  obtain ⟨h1, h2, h3⟩ := h
  refine ⟨?_, ?_, ?_⟩
  · show (if a.callsign = "" then b.callsign else a.callsign) = a.callsign
    split_ifs with hc
    · rw [h1]
    · rfl
  · show (if a.contactDate = "" then b.contactDate else a.contactDate) = a.contactDate
    split_ifs with hc
    · rw [h2]
    · rfl
  · show (if a.timeOn = "" then b.timeOn else a.timeOn) = a.timeOn
    split_ifs with hc
    · rw [h3]
    · rfl

theorem fold_mergeInto_key (others : List StoredContact) :
    ∀ (ret : StoredContact) (k : String × String × String), dedupKey ret = k →
      (∀ x ∈ others, dedupKey x = k) → dedupKey (others.foldl mergeInto ret) = k := by
  induction others with
  | nil => intro ret k h _; exact h
  | cons b others ih =>
      intro ret k hret hall
      rw [List.foldl_cons]
      have hb : dedupKey b = dedupKey ret := by
        rw [hall b (List.mem_cons_self b others), hret]
      exact ih (mergeInto ret b) k ((mergeInto_key hb).trans hret)
        (fun x hx => hall x (List.mem_cons_of_mem b hx))

theorem minCreated_mem (gs : List StoredContact) :
    ∀ g : StoredContact, minCreated g gs ∈ g :: gs := by
  induction gs with
  | nil => intro g; exact List.mem_singleton.mpr rfl
  | cons b gs ih =>
      intro g
      have hstep : minCreated g (b :: gs) =
          minCreated (if b.createdAt < g.createdAt then b else g) gs := rfl
      rw [hstep]
      have := ih (if b.createdAt < g.createdAt then b else g)
      rcases List.mem_cons.mp this with heq | hmem
      · rw [heq]
        split_ifs
        · exact List.mem_cons_of_mem g (List.mem_cons_self b gs)
        · exact List.mem_cons_self g (b :: gs)
      · exact List.mem_cons_of_mem g (List.mem_cons_of_mem b hmem)

theorem minCreated_le (gs : List StoredContact) :
    ∀ g : StoredContact, ∀ x ∈ g :: gs, (minCreated g gs).createdAt ≤ x.createdAt := by
  induction gs with
  | nil =>
      intro g x hx
      rcases List.mem_cons.mp hx with rfl | hx'
      · exact le_rfl
      · simp at hx'
  | cons b gs ih =>
      intro g x hx
      have hstep : minCreated g (b :: gs) =
          minCreated (if b.createdAt < g.createdAt then b else g) gs := rfl
      rw [hstep]
      have hmin : (minCreated (if b.createdAt < g.createdAt then b else g) gs).createdAt ≤
          (if b.createdAt < g.createdAt then b else g).createdAt :=
        ih _ _ (List.mem_cons_self _ gs)
      rcases List.mem_cons.mp hx with rfl | hx'
      · refine le_trans hmin ?_
        split_ifs with h
        · omega
        · exact le_rfl
      · rcases List.mem_cons.mp hx' with rfl | hx''
        · refine le_trans hmin ?_
          split_ifs with h
          · exact le_rfl
          · omega
        · exact ih _ x (List.mem_cons_of_mem _ hx'')

theorem sum_map_add_nat {α : Type} (l : List α) (f g : α → ℕ) :
    (l.map (fun x => f x + g x)).sum = (l.map f).sum + (l.map g).sum := by
  induction l with
  | nil => simp
  | cons a l ih =>
      simp only [List.map_cons, List.sum_cons, ih]
      omega

theorem count_indicator_sum (keys : List (String × String × String))
    (k : String × String × String) (hnd : keys.Nodup) (hk : k ∈ keys) :
    (keys.map (fun k' => if k = k' then 1 else 0)).sum = 1 := by
  induction keys with
  | nil => simp at hk
  | cons k0 keys ih =>
      rcases List.mem_cons.mp hk with rfl | hk'
      · have hnot : k ∉ keys := (List.nodup_cons.mp hnd).1
        have hzero : (keys.map (fun k' => if k = k' then 1 else 0)).sum = 0 := by
          rw [List.sum_eq_zero]
          intro x hx
          rw [List.mem_map] at hx
          obtain ⟨k', hk', rfl⟩ := hx
          rw [if_neg (fun h : k = k' => hnot (h ▸ hk'))]
        simp [hzero]
      · have hne : k ≠ k0 := by
          rintro rfl
          exact (List.nodup_cons.mp hnd).1 hk'
        simp only [List.map_cons, List.sum_cons, if_neg hne]
        rw [ih (List.nodup_cons.mp hnd).2 hk']

theorem sum_filter_partition (rows : List StoredContact)
    (keys : List (String × String × String)) (hnd : keys.Nodup)
    (hall : ∀ r ∈ rows, dedupKey r ∈ keys) :
    (keys.map (fun k => (rows.filter (fun c => dedupKey c = k)).length)).sum =
      rows.length := by
  induction rows with
  | nil => simp
  | cons r rows ih =>
      have hsplit : ∀ k, ((r :: rows).filter (fun c => dedupKey c = k)).length =
          (if dedupKey r = k then 1 else 0) +
            (rows.filter (fun c => dedupKey c = k)).length := by
        intro k
        by_cases h : dedupKey r = k
        · simp [List.filter_cons, h, Nat.add_comm]
        · simp [List.filter_cons, h]
      have hmap : (keys.map (fun k => ((r :: rows).filter (fun c => dedupKey c = k)).length)) =
          keys.map (fun k => (if dedupKey r = k then 1 else 0) +
            (rows.filter (fun c => dedupKey c = k)).length) := by
        exact List.map_congr_left (fun k _ => hsplit k)
      rw [hmap, sum_map_add_nat keys (fun k => if dedupKey r = k then 1 else 0)
          (fun k => (rows.filter (fun c => dedupKey c = k)).length),
        count_indicator_sum keys (dedupKey r) hnd (hall r (List.mem_cons_self r rows)),
        ih (fun x hx => hall x (List.mem_cons_of_mem r hx))]
      simp [Nat.add_comm]

theorem mem_filter_key {rows : List StoredContact} {k : String × String × String}
    {x : StoredContact} :
    x ∈ rows.filter (fun c => dedupKey c = k) ↔ x ∈ rows ∧ dedupKey x = k := by
  simp [List.mem_filter]

theorem mergeGroupAt_some {rows : List StoredContact} {k : String × String × String}
    {g : StoredContact} {gs : List StoredContact}
    (hgrp : rows.filter (fun c => dedupKey c = k) = g :: gs) :
    mergeGroupAt rows k =
      some (((g :: gs).erase (minCreated g gs)).foldl mergeInto (minCreated g gs)) := by
  simp only [mergeGroupAt, hgrp]

theorem filter_key_ne_nil {rows : List StoredContact} {k : String × String × String}
    (hk : k ∈ (rows.map dedupKey).dedup) :
    rows.filter (fun c => dedupKey c = k) ≠ [] := by
  rw [List.mem_dedup, List.mem_map] at hk
  obtain ⟨r, hr, rfl⟩ := hk
  intro hnil
  have : r ∈ rows.filter (fun c => dedupKey c = dedupKey r) :=
    mem_filter_key.mpr ⟨hr, rfl⟩
  rw [hnil] at this
  simp at this

theorem merged_key {rows : List StoredContact} {k : String × String × String}
    {g : StoredContact} {gs : List StoredContact}
    (hgrp : rows.filter (fun c => dedupKey c = k) = g :: gs) :
    dedupKey (((g :: gs).erase (minCreated g gs)).foldl mergeInto (minCreated g gs)) = k := by
  have hretmem : minCreated g gs ∈ g :: gs := minCreated_mem gs g
  have hretkey : dedupKey (minCreated g gs) = k :=
    (mem_filter_key.mp (hgrp ▸ hretmem)).2
  refine fold_mergeInto_key _ _ _ hretkey ?_
  intro x hx
  have hx' : x ∈ g :: gs := List.erase_subset _ _ hx
  exact (mem_filter_key.mp (hgrp ▸ hx')).2

theorem filterMap_mergeGroupAt_keys (rows : List StoredContact) :
    ∀ ks : List (String × String × String),
      (∀ k ∈ ks, rows.filter (fun c => dedupKey c = k) ≠ []) →
      ((ks.filterMap (mergeGroupAt rows)).map dedupKey) = ks := by
  intro ks
  induction ks with
  | nil => intro _; rfl
  | cons k ks ih =>
      intro hall
      cases hgrp : rows.filter (fun c => dedupKey c = k) with
      | nil => exact absurd hgrp (hall k (List.mem_cons_self k ks))
      | cons g gs =>
          rw [List.filterMap_cons, mergeGroupAt_some hgrp]
          simp only [List.map_cons]
          rw [merged_key hgrp, ih (fun k' hk' => hall k' (List.mem_cons_of_mem k hk'))]

theorem sum_sub_one {rows : List StoredContact} :
    ∀ ks : List (String × String × String),
      (∀ k ∈ ks, 1 ≤ (rows.filter (fun c => dedupKey c = k)).length) →
      (ks.map (fun k => (rows.filter (fun c => dedupKey c = k)).length - 1)).sum =
        (ks.map (fun k => (rows.filter (fun c => dedupKey c = k)).length)).sum - ks.length ∧
      ks.length ≤ (ks.map (fun k => (rows.filter (fun c => dedupKey c = k)).length)).sum := by
  intro ks
  induction ks with
  | nil => intro _; simp
  | cons k ks ih =>
      intro hall
      obtain ⟨ih1, ih2⟩ := ih (fun k' hk' => hall k' (List.mem_cons_of_mem k hk'))
      have h1 := hall k (List.mem_cons_self k ks)
      simp only [List.map_cons, List.sum_cons, List.length_cons]
      constructor
      · rw [ih1]
        omega
      · omega

theorem splitNl_no_nl : ∀ l : List Char, '\n' ∉ l → splitNl l = [l] := by
  intro l
  induction l with
  | nil => intro _; rfl
  | cons c rest ih =>
      intro h
      have hc : ¬c = '\n' := fun hh => h (hh ▸ List.mem_cons_self c rest)
      have hr : '\n' ∉ rest := fun hh => h (List.mem_cons_of_mem c hh)
      simp only [splitNl, if_neg hc, ih hr]
      rfl

theorem splitNl_append_nl : ∀ a b : List Char, '\n' ∉ a →
    splitNl (a ++ '\n' :: b) = a :: splitNl b := by
  intro a
  induction a with
  | nil =>
      intro b _
      simp [splitNl]
  | cons c rest ih =>
      intro b h
      have hc : ¬c = '\n' := fun hh => h (hh ▸ List.mem_cons_self c rest)
      have hr : '\n' ∉ rest := fun hh => h (List.mem_cons_of_mem c hh)
      simp only [List.cons_append, splitNl, if_neg hc, List.append_eq, ih b hr]
      rfl

theorem splitNl_joined_lines :
    ∀ lines : List (List Char), (∀ ln ∈ lines, '\n' ∉ ln) →
      splitNl ((lines.map (fun ln => ln ++ ['\n'])).join) = lines ++ [[]] := by
  intro lines
  induction lines with
  | nil => intro _; rfl
  | cons ln ls ih =>
      intro h
      have h1 : ((ln :: ls).map (fun ln => ln ++ ['\n'])).join =
          ln ++ '\n' :: (ls.map (fun ln => ln ++ ['\n'])).join := by
        simp
      rw [h1, splitNl_append_nl ln _ (h ln (List.mem_cons_self ln ls)),
        ih (fun x hx => h x (List.mem_cons_of_mem ln hx))]
      rfl

theorem joined_lines_ends_nl :
    ∀ lines : List (List Char), lines ≠ [] →
      ∃ pre, (lines.map (fun ln => ln ++ ['\n'])).join = pre ++ ['\n'] := by
  intro lines
  induction lines with
  | nil => intro h; exact absurd rfl h
  | cons ln ls ih =>
      intro _
      cases hls : ls with
      | nil => exact ⟨ln, by simp⟩
      | cons l' ls' =>
          obtain ⟨pre, hpre⟩ := ih (by simp [hls])
          refine ⟨(ln ++ ['\n']) ++ pre, ?_⟩
          rw [← hls]
          have : ((ln :: ls).map (fun ln => ln ++ ['\n'])).join =
              (ln ++ ['\n']) ++ (ls.map (fun ln => ln ++ ['\n'])).join := by simp
          rw [this, hpre]
          simp [List.append_assoc]

theorem stripCR_of_no_cr {l : List Char} (h : '\r' ∉ l) : stripCR l = l := by
  unfold stripCR
  cases hl : l.getLast? with
  | none => rfl
  | some c =>
      have hmem : c ∈ l := by
        obtain ⟨hne, heq⟩ := @List.mem_getLast?_eq_getLast Char l c (by rw [hl]; rfl)
        exact heq ▸ List.getLast_mem hne
      have hc : ¬c = '\r' := fun hh => h (hh ▸ hmem)
      simp [hc]

theorem foldr_join_space :
    ∀ lines : List (List Char),
      lines.foldr (fun ln acc => ln ++ ' ' :: acc) [] =
        (lines.map (fun ln => ln ++ [' '])).join := by
  intro lines
  induction lines with
  | nil => rfl
  | cons ln ls ih => simp [ih]

theorem joinLines_structured (lines : List (List Char)) (hne : lines ≠ [])
    (h : ∀ ln ∈ lines, '\n' ∉ ln ∧ '\r' ∉ ln ∧ startsWithHashAfterTrim ln = false) :
    joinLines ((lines.map (fun ln => ln ++ ['\n'])).join) =
      (lines.map (fun ln => ln ++ [' '])).join := by
  obtain ⟨pre, hpre⟩ := joined_lines_ends_nl lines hne
  have hinne : (lines.map (fun ln => ln ++ ['\n'])).join ≠ [] := by
    rw [hpre]; simp
  have hlast : ((lines.map (fun ln => ln ++ ['\n'])).join).getLast? = some '\n' := by
    rw [hpre]; simp
  unfold joinLines scanLines
  rw [if_neg hinne, if_pos hlast,
    splitNl_joined_lines lines (fun ln hln => (h ln hln).1)]
  have hdrop : (lines ++ [([] : List Char)]).dropLast = lines := by
    simp
  rw [hdrop]
  have hmap : lines.map stripCR = lines := by
    have h1 : lines.map stripCR = lines.map id :=
      List.map_congr_left (fun ln hln => stripCR_of_no_cr (h ln hln).2.1)
    rw [h1, List.map_id]
  rw [hmap]
  have hfilter : lines.filter (fun ln => !startsWithHashAfterTrim ln) = lines := by
    rw [List.filter_eq_self]
    intro ln hln
    rw [(h ln hln).2.2]
    rfl
  rw [hfilter, foldr_join_space]

theorem digitChar_isDigit {m : ℕ} (h : m < 10) : (digitChar m).isDigit = true := by
  interval_cases m <;> decide

theorem digitChar_toNat {m : ℕ} (h : m < 10) : (digitChar m).toNat - 48 = m := by
  interval_cases m <;> decide

theorem digitsToNat_append_one (l : List Char) (c : Char) :
    digitsToNat (l ++ [c]) = digitsToNat l * 10 + (c.toNat - 48) := by
  unfold digitsToNat
  rw [List.foldl_append]
  rfl

theorem natDigits_spec :
    ∀ n : ℕ, natDigits n ≠ [] ∧ (∀ c ∈ natDigits n, c.isDigit = true) ∧
      digitsToNat (natDigits n) = n := by
  intro n
  induction n using Nat.strong_induction_on with
  | _ n ih =>
      by_cases h10 : n < 10
      · have hd : natDigits n = [digitChar n] := by
          unfold natDigits
          rw [natDigitsRev_eq, if_pos h10]
          rfl
        refine ⟨by simp [hd], ?_, ?_⟩
        · intro c hc
          rw [hd] at hc
          simp at hc
          rw [hc]
          exact digitChar_isDigit h10
        · rw [hd]
          show 0 * 10 + ((digitChar n).toNat - 48) = n
          rw [digitChar_toNat h10]
          omega
      · have hlt : n / 10 < n := Nat.div_lt_self (by omega) (by omega)
        obtain ⟨hne, hdig, hval⟩ := ih (n / 10) hlt
        have hd : natDigits n = natDigits (n / 10) ++ [digitChar (n % 10)] := by
          unfold natDigits
          rw [natDigitsRev_eq, if_neg h10]
          simp [List.reverse_cons]
        refine ⟨by simp [hd], ?_, ?_⟩
        · intro c hc
          rw [hd, List.mem_append] at hc
          rcases hc with hc | hc
          · exact hdig c hc
          · simp at hc
            rw [hc]
            exact digitChar_isDigit (Nat.mod_lt n (by omega))
        · rw [hd, digitsToNat_append_one, hval, digitChar_toNat (Nat.mod_lt n (by omega))]
          omega

theorem digitsToNat_cons_zero (l : List Char) :
    digitsToNat ('0' :: l) = digitsToNat l := by
  unfold digitsToNat
  rw [List.foldl_cons, show 0 * 10 + ('0'.toNat - 48) = 0 from rfl]

theorem natDigits_two {k : ℕ} (h1 : 10 ≤ k) (h2 : k < 100) :
    natDigits k = [digitChar (k / 10), digitChar (k % 10)] := by
  unfold natDigits
  rw [natDigitsRev_eq, if_neg (by omega), natDigitsRev_eq, if_pos (by omega)]
  rfl

theorem natDigits_three {k : ℕ} (h1 : 100 ≤ k) (h2 : k < 1000) :
    natDigits k = [digitChar (k / 100), digitChar (k / 10 % 10), digitChar (k % 10)] := by
  unfold natDigits
  rw [natDigitsRev_eq, if_neg (by omega), natDigitsRev_eq, if_neg (by omega),
    natDigitsRev_eq, if_pos (by omega)]
  have : k / 10 / 10 = k / 100 := by omega
  rw [this]
  rfl

theorem pad3_spec {k : ℕ} (h : k < 1000) :
    (pad3 k).length = 3 ∧ (∀ c ∈ pad3 k, c.isDigit = true) ∧
      digitsToNat (pad3 k) = k := by
  by_cases h10 : k < 10
  · have hk : natDigits k = [digitChar k] := by
      unfold natDigits
      rw [natDigitsRev_eq, if_pos h10]
      rfl
    have hp : pad3 k = ['0', '0', digitChar k] := by
      unfold pad3
      rw [if_pos h10, hk]
    refine ⟨by rw [hp]; rfl, ?_, ?_⟩
    · intro c hc
      rw [hp] at hc
      simp only [List.mem_cons, List.not_mem_nil, or_false] at hc
      rcases hc with rfl | rfl | rfl
      · decide
      · decide
      · exact digitChar_isDigit h10
    · rw [hp, show (['0', '0', digitChar k] : List Char) = '0' :: '0' :: [digitChar k] from rfl,
        digitsToNat_cons_zero, digitsToNat_cons_zero]
      show 0 * 10 + ((digitChar k).toNat - 48) = k
      rw [digitChar_toNat h10]
      omega
  · by_cases h100 : k < 100
    · have hp : pad3 k = '0' :: natDigits k := by
        unfold pad3
        rw [if_neg h10, if_pos h100]
      obtain ⟨_, hdig, hval⟩ := natDigits_spec k
      refine ⟨?_, ?_, ?_⟩
      · rw [hp, natDigits_two (by omega) h100]
        rfl
      · intro c hc
        rw [hp] at hc
        simp only [List.mem_cons] at hc
        rcases hc with rfl | hc
        · decide
        · exact hdig c hc
      · rw [hp, digitsToNat_cons_zero, hval]
    · have hp : pad3 k = natDigits k := by
        unfold pad3
        rw [if_neg h10, if_neg h100]
      obtain ⟨_, hdig, hval⟩ := natDigits_spec k
      refine ⟨?_, fun c hc => hdig c (hp ▸ hc), hp ▸ hval⟩
      rw [hp, natDigits_three (by omega) h]
      rfl

theorem isDigit_ne {c d : Char} (hc : c.isDigit = true) (hd : d.isDigit = false) :
    c ≠ d := by
  intro h
  rw [h, hd] at hc
  cases hc

theorem takeWhile_append_all {p : Char → Bool} :
    ∀ (a b : List Char), (∀ c ∈ a, p c = true) →
      (a ++ b).takeWhile p = a ++ b.takeWhile p := by
  intro a
  induction a with
  | nil => intro b _; rfl
  | cons c rest ih =>
      intro b h
      have hc : p c = true := h c (List.mem_cons_self c rest)
      simp only [List.cons_append, List.takeWhile_cons, hc, if_true]
      rw [ih b (fun x hx => h x (List.mem_cons_of_mem c hx))]

theorem dropWhile_append_all {p : Char → Bool} :
    ∀ (a b : List Char), (∀ c ∈ a, p c = true) →
      (a ++ b).dropWhile p = b.dropWhile p := by
  intro a
  induction a with
  | nil => intro b _; rfl
  | cons c rest ih =>
      intro b h
      have hc : p c = true := h c (List.mem_cons_self c rest)
      simp only [List.cons_append, List.dropWhile_cons, hc, if_true]
      exact ih b (fun x hx => h x (List.mem_cons_of_mem c hx))

theorem parseIntGo_intStr {p : ℤ} (h : 0 ≤ p) : parseIntGo (intStr p) = some p := by
  obtain ⟨hne, hdig, hval⟩ := natDigits_spec p.natAbs
  have hstr : (intStr p).data = natDigits p.natAbs := by
    unfold intStr
    rw [if_neg (by omega)]
    rfl
  unfold parseIntGo
  rw [hstr]
  cases hh : natDigits p.natAbs with
  | nil => exact absurd hh hne
  | cons c l =>
      have hcd : c.isDigit = true := hdig c (by rw [hh]; exact List.mem_cons_self c l)
      have hall : (c :: l).all Char.isDigit = true := by
        rw [List.all_eq_true]
        intro x hx
        exact hdig x (by rw [hh]; exact hx)
      show (if c = '-' then
              if (!l.isEmpty && l.all Char.isDigit) = true then
                some (-(digitsToNat l : ℤ))
              else none
            else if c = '+' then
              if (!l.isEmpty && l.all Char.isDigit) = true then
                some ((digitsToNat l : ℤ))
              else none
            else
              if (!(c :: l).isEmpty && (c :: l).all Char.isDigit) = true then
                some ((digitsToNat (c :: l) : ℤ))
              else none) = some p
      rw [if_neg (isDigit_ne hcd (by decide)), if_neg (isDigit_ne hcd (by decide))]
      rw [if_pos (by rw [hall]; rfl)]
      have : digitsToNat (c :: l) = p.natAbs := by rw [← hh, hval]
      rw [this, Int.natAbs_of_nonneg h]

theorem freqScaled_of_dvd {q : ℚ} (hd : q.den ∣ 1000) :
    freqScaled q = q.num * ((1000 / q.den : ℕ) : ℤ) := by
  have hden0 : 0 < (q.den : ℤ) := by
    have := q.den_pos
    exact_mod_cast this
  have hmul : (q.den : ℤ) * ((1000 / q.den : ℕ) : ℤ) = 1000 := by
    have h2 : q.den * (1000 / q.den) = 1000 := Nat.mul_div_cancel' hd
    exact_mod_cast h2
  unfold freqScaled
  have hnum : 2000 * q.num + (q.den : ℤ) =
      (q.den : ℤ) + (2 * (q.den : ℤ)) * (q.num * ((1000 / q.den : ℕ) : ℤ)) := by
    have : (2 * (q.den : ℤ)) * (q.num * ((1000 / q.den : ℕ) : ℤ)) =
        2 * ((q.den : ℤ) * ((1000 / q.den : ℕ) : ℤ)) * q.num := by ring
    rw [this, hmul]
    ring
  rw [hnum, Int.fdiv_eq_ediv _ (by omega), Int.add_mul_ediv_left _ _ (by omega),
    Int.ediv_eq_zero_of_lt (by omega) (by omega), zero_add]

theorem parseFreq_formatFreq {q : ℚ} (h0 : 0 ≤ q) (hd : q.den ∣ 1000) :
    parseFreq (formatFreq q) = some q := by
  have hn := freqScaled_of_dvd hd
  have hnum0 : 0 ≤ q.num := Rat.num_nonneg.mpr h0
  have hn0 : 0 ≤ freqScaled q := by
    rw [hn]
    exact mul_nonneg hnum0 (Int.ofNat_nonneg _)
  have hform : (formatFreq q).data =
      natDigits ((freqScaled q).natAbs / 1000) ++
        '.' :: pad3 ((freqScaled q).natAbs % 1000) := by
    simp only [formatFreq]
    rw [if_neg (not_lt.mpr hn0)]
    rfl
  obtain ⟨hne, hdig, hval⟩ := natDigits_spec ((freqScaled q).natAbs / 1000)
  obtain ⟨hplen, hpdig, hpval⟩ :=
    pad3_spec (Nat.mod_lt ((freqScaled q).natAbs) (by omega))
  have hdec : parseDecimalQ (natDigits ((freqScaled q).natAbs / 1000) ++
      '.' :: pad3 ((freqScaled q).natAbs % 1000)) =
      some (mkRat ((freqScaled q).natAbs) 1000) := by
    simp only [parseDecimalQ]
    rw [takeWhile_append_all _ _ hdig, dropWhile_append_all _ _ hdig]
    have ht : (('.' :: pad3 ((freqScaled q).natAbs % 1000)).takeWhile Char.isDigit) = [] := by
      simp [List.takeWhile_cons]
    have hdr : (('.' :: pad3 ((freqScaled q).natAbs % 1000)).dropWhile Char.isDigit) =
        '.' :: pad3 ((freqScaled q).natAbs % 1000) := by
      simp [List.dropWhile_cons]
    rw [ht, hdr, List.append_nil]
    have hfp : (pad3 ((freqScaled q).natAbs % 1000)).all Char.isDigit = true := by
      rw [List.all_eq_true]
      exact hpdig
    have hipne : (natDigits ((freqScaled q).natAbs / 1000)).isEmpty = false := by
      cases hx : natDigits ((freqScaled q).natAbs / 1000)
      · exact absurd hx hne
      · rfl
    show (if ('.' : Char) = '.' then
            if ((pad3 ((freqScaled q).natAbs % 1000)).all Char.isDigit &&
                !((natDigits ((freqScaled q).natAbs / 1000)).isEmpty &&
                  (pad3 ((freqScaled q).natAbs % 1000)).isEmpty)) = true then
              some (mkRat
                ((digitsToNat (natDigits ((freqScaled q).natAbs / 1000)) : ℤ) *
                    10 ^ (pad3 ((freqScaled q).natAbs % 1000)).length +
                  (digitsToNat (pad3 ((freqScaled q).natAbs % 1000)) : ℤ))
                (10 ^ (pad3 ((freqScaled q).natAbs % 1000)).length))
            else none
          else none) = some (mkRat (((freqScaled q).natAbs : ℤ)) 1000)
    rw [if_pos rfl, if_pos (by rw [hfp, hipne]; rfl), hval, hpval, hplen]
    have hN : ((((freqScaled q).natAbs / 1000 : ℕ) : ℤ) * 10 ^ 3 +
        (((freqScaled q).natAbs % 1000 : ℕ) : ℤ)) = ((freqScaled q).natAbs : ℤ) := by
      push_cast
      omega
    rw [hN, show (10 : ℕ) ^ 3 = 1000 from by norm_num]
  have hqeq : mkRat ((freqScaled q).natAbs) 1000 = q := by
    rw [Rat.mkRat_eq_div]
    have hdenq : (q.den : ℚ) ≠ 0 := by
      have := q.den_pos
      positivity
    have hcd : ((1000 / q.den : ℕ) : ℚ) = 1000 / (q.den : ℚ) := Nat.cast_div hd hdenq
    have hnq : (((freqScaled q).natAbs : ℤ) : ℚ) = q * 1000 := by
      rw [Int.natAbs_of_nonneg hn0, hn, Int.cast_mul]
      have h1 : (((1000 / q.den : ℕ) : ℤ) : ℚ) = 1000 / (q.den : ℚ) := by
        rw [Int.cast_natCast, hcd]
      rw [h1]
      calc (q.num : ℚ) * (1000 / (q.den : ℚ))
          = ((q.num : ℚ) / (q.den : ℚ)) * 1000 := by ring
        _ = q * 1000 := by rw [Rat.num_div_den]
    push_cast at hnq ⊢
    rw [hnq]
    norm_num
  cases hform2 : (formatFreq q).data with
  | nil =>
      rw [hform] at hform2
      cases hx : natDigits ((freqScaled q).natAbs / 1000) with
      | nil => exact absurd hx hne
      | cons c l => rw [hx] at hform2; simp at hform2
  | cons c l =>
      have hc : c.isDigit = true := by
        rw [hform] at hform2
        cases hx : natDigits ((freqScaled q).natAbs / 1000) with
        | nil => exact absurd hx hne
        | cons c' l' =>
            rw [hx] at hform2
            simp only [List.cons_append, List.cons.injEq] at hform2
            rw [← hform2.1]
            exact hdig c' (by rw [hx]; exact List.mem_cons_self c' l')
      have hred : parseFreq (formatFreq q) =
          (if c = '-' then (parseDecimalQ l).map (fun q => -q)
           else if c = '+' then parseDecimalQ l
           else parseDecimalQ (c :: l)) := by
        unfold parseFreq
        rw [hform2]
      rw [hred, if_neg (isDigit_ne hc (by decide)), if_neg (isDigit_ne hc (by decide)),
        ← hform2, hform, hdec, hqeq]

theorem matchAfterLt_field (name digits value tail : List Char)
    (hname : name ≠ []) (hname2 : ∀ c ∈ name, notColonGt c = true)
    (hdig : digits ≠ []) (hdig2 : ∀ c ∈ digits, c.isDigit = true)
    (hval : ∀ c ∈ value, c ≠ '<')
    (htail : tail = [] ∨ ∃ t', tail = '<' :: t') :
    matchAfterLt (name ++ ':' :: (digits ++ '>' :: (value ++ tail))) =
      some (name, digitsToNat digits, value, tail) := by
  have hvalp : ∀ c ∈ value, notLt c = true := by
    intro c hc
    simp [notLt, hval c hc]
  have h1 : (name ++ ':' :: (digits ++ '>' :: (value ++ tail))).takeWhile notColonGt
      = name := by
    rw [takeWhile_append_all _ _ hname2]
    simp [List.takeWhile_cons, notColonGt]
  have h2 : (name ++ ':' :: (digits ++ '>' :: (value ++ tail))).dropWhile notColonGt =
      ':' :: (digits ++ '>' :: (value ++ tail)) := by
    rw [dropWhile_append_all _ _ hname2]
    simp [List.dropWhile_cons, notColonGt]
  have h3 : (digits ++ '>' :: (value ++ tail)).takeWhile Char.isDigit = digits := by
    rw [takeWhile_append_all _ _ hdig2]
    simp [List.takeWhile_cons]
  have h4 : (digits ++ '>' :: (value ++ tail)).dropWhile Char.isDigit =
      '>' :: (value ++ tail) := by
    rw [dropWhile_append_all _ _ hdig2]
    simp [List.dropWhile_cons]
  have h5 : (value ++ tail).takeWhile notLt = value := by
    rw [takeWhile_append_all _ _ hvalp]
    rcases htail with rfl | ⟨t', rfl⟩
    · simp
    · simp [List.takeWhile_cons, notLt]
  have h6 : (value ++ tail).dropWhile notLt = tail := by
    rw [dropWhile_append_all _ _ hvalp]
    rcases htail with rfl | ⟨t', rfl⟩
    · simp
    · simp [List.dropWhile_cons, notLt]
  have hnameE : name.isEmpty = false := by
    cases name
    · exact absurd rfl hname
    · rfl
  have hdigE : digits.isEmpty = false := by
    cases digits
    · exact absurd rfl hdig
    · rfl
  unfold matchAfterLt
  rw [h1, h2]
  simp only [hnameE, Bool.false_eq_true, if_false]
  rw [show expectColon (':' :: (digits ++ '>' :: (value ++ tail))) =
    some (digits ++ '>' :: (value ++ tail)) from by simp [expectColon]]
  simp only [Option.some_bind]
  rw [h3, h4]
  simp only [hdigE, Bool.false_eq_true, if_false]
  rw [show expectGtOrTypehint ('>' :: (value ++ tail)) = some (value ++ tail) from by
    simp [expectGtOrTypehint]]
  simp only [Option.some_bind]
  rw [h5, h6]

theorem findFields_skip_run :
    ∀ run : List Char, (∀ c ∈ run, c ≠ '<') → ∀ tail,
      findFields (run ++ tail) = findFields tail := by
  intro run
  induction run with
  | nil => intro _ tail; rfl
  | cons c rest ih =>
      intro h tail
      rw [List.cons_append, findFields_cons, if_neg (h c (List.mem_cons_self c rest))]
      exact ih (fun x hx => h x (List.mem_cons_of_mem c hx)) tail

theorem findFields_field (name digits value tail : List Char)
    (hname : name ≠ []) (hname2 : ∀ c ∈ name, notColonGt c = true)
    (hdig : digits ≠ []) (hdig2 : ∀ c ∈ digits, c.isDigit = true)
    (hval : ∀ c ∈ value, c ≠ '<')
    (htail : tail = [] ∨ ∃ t', tail = '<' :: t') :
    findFields ('<' :: (name ++ ':' :: (digits ++ '>' :: (value ++ tail)))) =
      (name, digitsToNat digits, value) :: findFields tail := by
  rw [findFields_cons, if_pos rfl,
    matchAfterLt_field name digits value tail hname hname2 hdig hdig2 hval htail]

theorem matchAfterLt_eoh (rest : List Char) :
    matchAfterLt ('E' :: 'O' :: 'H' :: '>' :: rest) = none := by
  simp [matchAfterLt, List.takeWhile_cons, List.dropWhile_cons, notColonGt, expectColon]

theorem isEORAt_not_lt {c : Char} (h : c ≠ '<') (l : List Char) :
    isEORAt (c :: l) = false := by
  rcases l with _ | ⟨b, _ | ⟨d, _ | ⟨e, _ | ⟨f, r⟩⟩⟩⟩ <;> simp [isEORAt, h]

theorem isEORAt_lt_not_e {c : Char} (h : c.toLower ≠ 'e') (l : List Char) :
    isEORAt ('<' :: c :: l) = false := by
  rcases l with _ | ⟨x, _ | ⟨y, _ | ⟨z, r⟩⟩⟩ <;> simp [isEORAt, h]

theorem splitEORAux_skip_run :
    ∀ run : List Char, (∀ c ∈ run, c ≠ '<') → ∀ cur tail,
      splitEORAux cur (run ++ tail) = splitEORAux (run.reverse ++ cur) tail := by
  intro run
  induction run with
  | nil => intro _ cur tail; simp
  | cons c rest ih =>
      intro h cur tail
      rw [List.cons_append, splitEORAux_cons, if_neg (by
        rw [isEORAt_not_lt (h c (List.mem_cons_self c rest))]
        exact Bool.false_ne_true)]
      rw [ih (fun x hx => h x (List.mem_cons_of_mem c hx)) (c :: cur) tail]
      congr 1
      simp

theorem splitEORAux_field_chunk (c : Char) (rest : List Char)
    (he : c.toLower ≠ 'e') (hc : c ≠ '<') (hrest : ∀ x ∈ rest, x ≠ '<') :
    ∀ cur tail,
      splitEORAux cur (('<' :: c :: rest) ++ tail) =
        splitEORAux (('<' :: c :: rest).reverse ++ cur) tail := by
  intro cur tail
  rw [List.cons_append, List.cons_append, splitEORAux_cons, if_neg (by
    rw [show c :: (rest ++ tail) = c :: rest ++ tail from rfl, ← List.cons_append,
      show ('<' :: c :: rest) ++ tail = '<' :: c :: (rest ++ tail) from by simp,
      isEORAt_lt_not_e he]
    exact Bool.false_ne_true)]
  rw [show c :: (rest ++ tail) = (c :: rest) ++ tail from rfl,
    splitEORAux_skip_run (c :: rest) (by
      intro x hx
      rcases List.mem_cons.mp hx with rfl | hx
      · exact hc
      · exact hrest x hx) ('<' :: cur) tail]
  congr 1
  simp

theorem splitEORAux_eoh :
    ∀ cur tail,
      splitEORAux cur (('<' :: 'E' :: 'O' :: 'H' :: '>' :: []) ++ tail) =
        splitEORAux (('<' :: 'E' :: 'O' :: 'H' :: '>' :: []).reverse ++ cur) tail := by
  intro cur tail
  rw [show ('<' :: 'E' :: 'O' :: 'H' :: '>' :: []) ++ tail =
    '<' :: 'E' :: 'O' :: 'H' :: '>' :: tail from by simp]
  rw [splitEORAux_cons, if_neg (by
    rw [show isEORAt ('<' :: 'E' :: 'O' :: 'H' :: '>' :: tail) = false from rfl]
    exact Bool.false_ne_true)]
  rw [splitEORAux_cons, if_neg (by
    rw [isEORAt_not_lt (by decide)]
    exact Bool.false_ne_true)]
  rw [splitEORAux_cons, if_neg (by
    rw [isEORAt_not_lt (by decide)]
    exact Bool.false_ne_true)]
  rw [splitEORAux_cons, if_neg (by
    rw [isEORAt_not_lt (by decide)]
    exact Bool.false_ne_true)]
  rw [splitEORAux_cons, if_neg (by
    rw [isEORAt_not_lt (by decide)]
    exact Bool.false_ne_true)]
  congr 1

theorem splitEOR_step_append {A B : List Char}
    (hA : ∀ cur tail, splitEORAux cur (A ++ tail) = splitEORAux (A.reverse ++ cur) tail)
    (hB : ∀ cur tail, splitEORAux cur (B ++ tail) = splitEORAux (B.reverse ++ cur) tail) :
    ∀ cur tail,
      splitEORAux cur ((A ++ B) ++ tail) =
        splitEORAux ((A ++ B).reverse ++ cur) tail := by
  intro cur tail
  rw [List.append_assoc, hA, hB]
  congr 1
  simp

theorem splitEOR_of_chunks (P : List Char)
    (hP : ∀ cur tail, splitEORAux cur (P ++ tail) = splitEORAux (P.reverse ++ cur) tail) :
    splitEOR (P ++ ('<' :: 'E' :: 'O' :: 'R' :: '>' :: [' '])) = [P] := by
  unfold splitEOR
  rw [hP]
  rw [splitEORAux_cons, if_pos (show isEORAt ('<' :: 'E' :: 'O' :: 'R' :: '>' :: [' ']) =
    true from rfl)]
  rw [show (('E' :: 'O' :: 'R' :: '>' :: [' '] : List Char)).drop 4 = [' '] from rfl]
  rw [splitEORAux_cons, if_neg (by
    rw [show isEORAt [' '] = false from rfl]
    exact Bool.false_ne_true)]
  rw [splitEORAux_nil]
  simp

theorem fieldValueOf_append (data extra : List Char) :
    fieldValueOf data.length (data ++ extra) = data := by
  unfold fieldValueOf
  have h : ¬(data ++ extra).length < data.length := by
    simp
  rw [if_neg h, List.take_left]

theorem encTok_eq (t : List Char × ℕ × List Char) :
    encTok t = '<' :: (t.1 ++ ':' :: (natDigits t.2.1 ++ '>' :: t.2.2)) := rfl

theorem encTrim_cons_head (t : List Char × ℕ × List Char) (ts : List (List Char × ℕ × List Char)) :
    ∃ x, encTrim (t :: ts) = '<' :: x := by
  cases ts with
  | nil => exact ⟨_, rfl⟩
  | cons t' ts' => exact ⟨_, rfl⟩

theorem encSp_cons (t : List Char × ℕ × List Char) (ts : List (List Char × ℕ × List Char)) :
    encSp (t :: ts) = (encTok t ++ [' ']) ++ encSp ts := rfl

theorem encSp_eq_encTrim :
    ∀ chs : List (List Char × ℕ × List Char), chs ≠ [] →
      encSp chs = encTrim chs ++ [' '] := by
  intro chs
  induction chs with
  | nil => intro h; exact absurd rfl h
  | cons t ts ih =>
      intro _
      cases ts with
      | nil => simp [encSp, encTrim]
      | cons t' ts' =>
          rw [encSp_cons, ih (by simp)]
          show _ = encTok t ++ ' ' :: encTrim (t' :: ts') ++ [' ']
          simp

theorem applyTokens_cons (r : ADIFRecord) (tok : List Char × ℕ × List Char)
    (rest : List (List Char × ℕ × List Char)) :
    applyTokens r (tok :: rest) =
      applyTokens (applyField r (upperStr (String.mk tok.1))
        (String.mk (fieldValueOf tok.2.1 tok.2.2))) rest := rfl

theorem applyExact_cons (r : ADIFRecord) (tok : List Char × ℕ × List Char)
    (rest : List (List Char × ℕ × List Char)) :
    applyExact r (tok :: rest) =
      applyExact (applyField r (upperStr (String.mk tok.1)) (String.mk tok.2.2)) rest := rfl

theorem applyTokens_encTrim :
    ∀ chs : List (List Char × ℕ × List Char), (∀ t ∈ chs, goodTok t) →
      ∀ r, applyTokens r (findFields (encTrim chs)) = applyExact r chs := by
  intro chs
  induction chs with
  | nil => intro _ r; rfl
  | cons t ts ih =>
      intro h r
      obtain ⟨⟨c0, n', hn, he, hclt⟩, hnameAll, hvalAll, hlen⟩ :=
        h t (List.mem_cons_self t ts)
      obtain ⟨hdne, hddig, hdval⟩ := natDigits_spec t.2.1
      have hname_ne : t.1 ≠ [] := by rw [hn]; simp
      cases ts with
      | nil =>
          have hstruct : encTrim [t] =
              '<' :: (t.1 ++ ':' :: (natDigits t.2.1 ++ '>' :: (t.2.2 ++ []))) := by
            rw [show encTrim [t] = encTok t from rfl, encTok_eq]
            simp
          rw [hstruct, findFields_field t.1 (natDigits t.2.1) t.2.2 [] hname_ne
            (fun c hc => (hnameAll c hc).1) hdne hddig
            (fun c hc => (hvalAll c hc).1) (Or.inl rfl)]
          rw [findFields_nil, applyTokens_cons, hdval]
          show applyTokens
            (applyField r (upperStr (String.mk t.1))
              (String.mk (fieldValueOf t.2.1 t.2.2))) [] = _
          rw [hlen, show fieldValueOf t.2.2.length t.2.2 = t.2.2 from by
            have := fieldValueOf_append t.2.2 []
            rwa [List.append_nil] at this]
          rfl
      | cons t' ts' =>
          obtain ⟨x, hx⟩ := encTrim_cons_head t' ts'
          have hstruct : encTrim (t :: t' :: ts') =
              '<' :: (t.1 ++ ':' :: (natDigits t.2.1 ++ '>' ::
                ((t.2.2 ++ [' ']) ++ encTrim (t' :: ts')))) := by
            rw [show encTrim (t :: t' :: ts') = encTok t ++ ' ' :: encTrim (t' :: ts')
              from rfl, encTok_eq]
            simp
          have hval' : ∀ c ∈ t.2.2 ++ [' '], c ≠ '<' := by
            intro c hc
            rcases List.mem_append.mp hc with hc | hc
            · exact (hvalAll c hc).1
            · simp at hc
              rw [hc]
              decide
          rw [hstruct, findFields_field t.1 (natDigits t.2.1) (t.2.2 ++ [' '])
            (encTrim (t' :: ts')) hname_ne (fun c hc => (hnameAll c hc).1) hdne hddig
            hval' (Or.inr ⟨x, hx⟩)]
          rw [applyTokens_cons, hdval]
          show applyTokens
            (applyField r (upperStr (String.mk t.1))
              (String.mk (fieldValueOf t.2.1 (t.2.2 ++ [' '])))) _ = _
          rw [hlen, fieldValueOf_append]
          rw [applyExact_cons]
          exact ih (fun x hx => h x (List.mem_cons_of_mem t hx)) _

theorem encSp_step :
    ∀ chs : List (List Char × ℕ × List Char), (∀ t ∈ chs, goodTok t) →
      ∀ cur tail, splitEORAux cur (encSp chs ++ tail) =
        splitEORAux ((encSp chs).reverse ++ cur) tail := by
  intro chs
  induction chs with
  | nil =>
      intro _ cur tail
      simp [encSp]
  | cons t ts ih =>
      intro h cur tail
      obtain ⟨⟨c0, n', hn, he, hclt⟩, hnameAll, hvalAll, hlen⟩ :=
        h t (List.mem_cons_self t ts)
      obtain ⟨hdne, hddig, _⟩ := natDigits_spec t.2.1
      have hchunk : ∀ cur tail, splitEORAux cur ((encTok t ++ [' ']) ++ tail) =
          splitEORAux ((encTok t ++ [' ']).reverse ++ cur) tail := by
        have hshape : encTok t ++ [' '] =
            '<' :: c0 :: (n' ++ (':' :: (natDigits t.2.1 ++ '>' :: t.2.2) ++ [' '])) := by
          rw [encTok_eq, hn]
          simp
        intro cur tail
        rw [hshape]
        refine splitEORAux_field_chunk c0 _ he hclt ?_ cur tail
        intro x hx
        rcases List.mem_append.mp hx with hx | hx
        · exact (hnameAll x (by rw [hn]; exact List.mem_cons_of_mem c0 hx)).2.1
        · rcases List.mem_append.mp hx with hx | hx
          · rcases List.mem_cons.mp hx with rfl | hx
            · decide
            · rcases List.mem_append.mp hx with hx | hx
              · exact isDigit_ne (hddig x hx) (by decide)
              · rcases List.mem_cons.mp hx with rfl | hx
                · decide
                · exact (hvalAll x hx).1
          · simp at hx
            rw [hx]
            decide
      rw [encSp_cons]
      exact splitEOR_step_append hchunk
        (ih (fun x hx => h x (List.mem_cons_of_mem t hx))) cur tail

theorem trimSpace_of_ends (D : List Char) (hd : Char) (tl : List Char)
    (hD : D = hd :: tl) (hhd : isSpaceChar hd = false)
    (c : Char) (hlast : D.getLast? = some c) (hc : isSpaceChar c = false) :
    trimSpace (D ++ [' ']) = D := by
  unfold trimSpace trimLead
  have h1 : (D ++ [' ']).dropWhile isSpaceChar = D ++ [' '] := by
    rw [hD, List.cons_append, List.dropWhile_cons, hhd]
    rfl
  rw [h1, List.reverse_append]
  have h2 : D.reverse.head? = some c := by
    rw [List.head?_reverse]
    exact hlast
  cases hrev : D.reverse with
  | nil => rw [hrev] at h2; cases h2
  | cons x xs =>
      rw [hrev] at h2
      injection h2 with h2
      subst h2
      rw [show ([' '] : List Char).reverse = [' '] from rfl, List.singleton_append,
        List.dropWhile_cons, show isSpaceChar ' ' = true from rfl]
      simp only [if_true]
      rw [List.dropWhile_cons, hc]
      simp only [Bool.false_eq_true, if_false]
      rw [← hrev, List.reverse_reverse]

theorem cleanStr_spec {s : String} (h : cleanStr s = true) :
    ∀ c ∈ s.data, c ≠ '<' ∧ c ≠ '\n' ∧ c ≠ '\r' := by
  intro c hc
  have h1 := List.all_eq_true.mp h c hc
  unfold cleanChar at h1
  simp only [Bool.and_eq_true, bne_iff_ne] at h1
  exact ⟨h1.1.1, h1.1.2, h1.2⟩

theorem dateCanon_spec {s : String} (h : dateCanon s = true) :
    ∃ a b c d e f g h', s.data = [a, b, c, d, '-', e, f, '-', g, h'] ∧
      a.isDigit = true ∧ b.isDigit = true ∧ c.isDigit = true ∧ d.isDigit = true ∧
      e.isDigit = true ∧ f.isDigit = true ∧ g.isDigit = true ∧ h'.isDigit = true := by
  unfold dateCanon at h
  split at h
  · next a b c d x e f y g h2 heq =>
      simp only [Bool.and_eq_true, beq_iff_eq] at h
      obtain ⟨⟨⟨⟨⟨⟨⟨⟨⟨ha, hb⟩, hc⟩, hd⟩, hx⟩, he⟩, hf⟩, hy⟩, hg⟩, hh⟩ := h
      subst hx
      subst hy
      exact ⟨a, b, c, d, e, f, g, h2, heq, ha, hb, hc, hd, he, hf, hg, hh⟩
  · cases h

theorem timeCanon_spec {s : String} (h : timeCanon s = true) :
    ∃ a b c d e f, s.data = [a, b, ':', c, d, ':', e, f] ∧
      a.isDigit = true ∧ b.isDigit = true ∧ c.isDigit = true ∧ d.isDigit = true ∧
      e.isDigit = true ∧ f.isDigit = true := by
  unfold timeCanon at h
  split at h
  · next a b x c d y e f heq =>
      simp only [Bool.and_eq_true, beq_iff_eq] at h
      obtain ⟨⟨⟨⟨⟨⟨⟨ha, hb⟩, hx⟩, hc⟩, hd⟩, hy⟩, he⟩, hf⟩ := h
      subst hx
      subst hy
      exact ⟨a, b, c, d, e, f, heq, ha, hb, hc, hd, he, hf⟩
  · cases h

theorem date_roundtrip {s : String} (h : dateCanon s = true) :
    (stripDashes s).data.length = 8 ∧
    (∀ c ∈ (stripDashes s).data, c.isDigit = true) ∧
    formatDate (stripDashes s) = s := by
  obtain ⟨a, b, c, d, e, f, g, h', hdata, ha, hb, hc, hd, he, hf, hg, hh⟩ :=
    dateCanon_spec h
  have ha' : a ≠ '-' := @isDigit_ne a '-' ha (by decide)
  have hb' : b ≠ '-' := @isDigit_ne b '-' hb (by decide)
  have hc' : c ≠ '-' := @isDigit_ne c '-' hc (by decide)
  have hd' : d ≠ '-' := @isDigit_ne d '-' hd (by decide)
  have he' : e ≠ '-' := @isDigit_ne e '-' he (by decide)
  have hf' : f ≠ '-' := @isDigit_ne f '-' hf (by decide)
  have hg' : g ≠ '-' := @isDigit_ne g '-' hg (by decide)
  have hh' : h' ≠ '-' := @isDigit_ne h' '-' hh (by decide)
  have hsd : (stripDashes s).data = [a, b, c, d, e, f, g, h'] := by
    rw [show (stripDashes s).data = s.data.filter (fun c => decide (c ≠ '-')) from rfl,
      hdata]
    simp [ha', hb', hc', hd', he', hf', hg', hh']
  refine ⟨?_, ?_, ?_⟩
  · rw [hsd]
    rfl
  · rw [hsd]
    intro x hx
    simp only [List.mem_cons, List.not_mem_nil, or_false] at hx
    rcases hx with rfl | rfl | rfl | rfl | rfl | rfl | rfl | rfl <;> assumption
  · have hmk : stripDashes s = String.mk [a, b, c, d, e, f, g, h'] := by
      rw [← hsd]
    rw [hmk, show formatDate (String.mk [a, b, c, d, e, f, g, h']) =
      String.mk [a, b, c, d, '-', e, f, '-', g, h'] from rfl, ← hdata]

theorem time_roundtrip {s : String} (h : timeCanon s = true) :
    (stripColons s).data.length = 6 ∧
    (∀ c ∈ (stripColons s).data, c.isDigit = true) ∧
    formatTime (stripColons s) = s := by
  obtain ⟨a, b, c, d, e, f, hdata, ha, hb, hc, hd, he, hf⟩ := timeCanon_spec h
  have ha' : a ≠ ':' := @isDigit_ne a ':' ha (by decide)
  have hb' : b ≠ ':' := @isDigit_ne b ':' hb (by decide)
  have hc' : c ≠ ':' := @isDigit_ne c ':' hc (by decide)
  have hd' : d ≠ ':' := @isDigit_ne d ':' hd (by decide)
  have he' : e ≠ ':' := @isDigit_ne e ':' he (by decide)
  have hf' : f ≠ ':' := @isDigit_ne f ':' hf (by decide)
  have hsd : (stripColons s).data = [a, b, c, d, e, f] := by
    rw [show (stripColons s).data = s.data.filter (fun c => decide (c ≠ ':')) from rfl,
      hdata]
    simp [ha', hb', hc', hd', he', hf']
  refine ⟨?_, ?_, ?_⟩
  · rw [hsd]
    rfl
  · rw [hsd]
    intro x hx
    simp only [List.mem_cons, List.not_mem_nil, or_false] at hx
    rcases hx with rfl | rfl | rfl | rfl | rfl | rfl <;> assumption
  · have hmk : stripColons s = String.mk [a, b, c, d, e, f] := by
      rw [← hsd]
    rw [hmk, show formatTime (String.mk [a, b, c, d, e, f]) =
      String.mk [a, b, ':', c, d, ':', e, f] from rfl, ← hdata]

theorem freqScaled_nonneg {q : ℚ} (h0 : 0 ≤ q) : 0 ≤ freqScaled q := by
  have hnum0 : 0 ≤ q.num := Rat.num_nonneg.mpr h0
  have hden0 : 0 < (q.den : ℤ) := by
    have := q.den_pos
    exact_mod_cast this
  unfold freqScaled
  rw [Int.fdiv_eq_ediv _ (by omega)]
  exact Int.ediv_nonneg (by omega) (by omega)

theorem formatFreq_data {q : ℚ} (h0 : 0 ≤ q) :
    (formatFreq q).data = natDigits ((freqScaled q).natAbs / 1000) ++
      '.' :: pad3 ((freqScaled q).natAbs % 1000) := by
  simp only [formatFreq]
  rw [if_neg (not_lt.mpr (freqScaled_nonneg h0))]
  rfl

theorem formatFreq_chars {q : ℚ} (h0 : 0 ≤ q) :
    ∀ c ∈ (formatFreq q).data, c.isDigit = true ∨ c = '.' := by
  rw [formatFreq_data h0]
  intro c hc
  obtain ⟨_, hdig, _⟩ := natDigits_spec ((freqScaled q).natAbs / 1000)
  obtain ⟨_, hpdig, _⟩ :=
    pad3_spec (Nat.mod_lt ((freqScaled q).natAbs) (by omega))
  rcases List.mem_append.mp hc with hc | hc
  · exact Or.inl (hdig c hc)
  · rcases List.mem_cons.mp hc with rfl | hc
    · exact Or.inr rfl
    · exact Or.inl (hpdig c hc)

theorem intStr_data {p : ℤ} (h : 0 ≤ p) : (intStr p).data = natDigits p.natAbs := by
  unfold intStr
  rw [if_neg (by omega)]
  rfl

theorem mem_ite_nil_right {α : Type} {c : Prop} [Decidable c] {l : List α} {x : α}
    (h : x ∈ (if c then ([] : List α) else l)) : x ∈ l := by
  split at h
  · cases h
  · exact h

theorem mem_ite_nil_left {α : Type} {c : Prop} [Decidable c] {l : List α} {x : α}
    (h : x ∈ (if c then l else ([] : List α))) : x ∈ l := by
  split at h
  · exact h
  · cases h

theorem digit_clean {c : Char} (hd : c.isDigit = true) :
    c ≠ '<' ∧ c ≠ '\n' ∧ c ≠ '\r' :=
  ⟨isDigit_ne hd (by decide), isDigit_ne hd (by decide), isDigit_ne hd (by decide)⟩

theorem toks_good {r : ADIFRecord} (h : canonicalRecord r) :
    ∀ t ∈ toks r, goodTok t := by
  obtain ⟨hcall, hcallcl, hdate, htOn, htOff, hfreq0, hfden, hband0, hbandcl,
    hmode, hmodecl, hrsts, hrstscl, hrstr, hrstrcl, _, hnamecl, _, hqthcl, _,
    hcountrycl, _, hgridcl, _, hpow, hcommentcl, _⟩ := h
  intro t ht
  unfold toks at ht
  rcases List.mem_cons.mp ht with rfl | ht
  · exact ⟨⟨'C', _, rfl, by decide, by decide⟩,
      (by decide : ∀ c ∈ "CALL".data, notColonGt c = true ∧ c ≠ '<' ∧ c ≠ '\n' ∧ c ≠ '\r'),
      fun c hc => cleanStr_spec hcallcl c hc, rfl⟩
  rcases List.mem_cons.mp ht with rfl | ht
  · obtain ⟨hlen8, hdig8, _⟩ := date_roundtrip hdate
    exact ⟨⟨'Q', _, rfl, by decide, by decide⟩,
      (by decide : ∀ c ∈ "QSO_DATE".data,
        notColonGt c = true ∧ c ≠ '<' ∧ c ≠ '\n' ∧ c ≠ '\r'),
      fun c hc => digit_clean (hdig8 c hc), hlen8.symm⟩
  rcases List.mem_cons.mp ht with rfl | ht
  · obtain ⟨hlen6, hdig6, _⟩ := time_roundtrip htOn
    exact ⟨⟨'T', _, rfl, by decide, by decide⟩,
      (by decide : ∀ c ∈ "TIME_ON".data,
        notColonGt c = true ∧ c ≠ '<' ∧ c ≠ '\n' ∧ c ≠ '\r'),
      fun c hc => digit_clean (hdig6 c hc), hlen6.symm⟩
  rcases List.mem_cons.mp ht with rfl | ht
  · obtain ⟨hlen6, hdig6, _⟩ := time_roundtrip htOff
    exact ⟨⟨'T', _, rfl, by decide, by decide⟩,
      (by decide : ∀ c ∈ "TIME_OFF".data,
        notColonGt c = true ∧ c ≠ '<' ∧ c ≠ '\n' ∧ c ≠ '\r'),
      fun c hc => digit_clean (hdig6 c hc), hlen6.symm⟩
  rcases List.mem_cons.mp ht with rfl | ht
  · refine ⟨⟨'F', _, rfl, by decide, by decide⟩,
      (by decide : ∀ c ∈ "FREQ".data,
        notColonGt c = true ∧ c ≠ '<' ∧ c ≠ '\n' ∧ c ≠ '\r'), ?_, rfl⟩
    intro c hc
    rcases formatFreq_chars hfreq0 c hc with hd | rfl
    · exact digit_clean hd
    · exact ⟨by decide, by decide, by decide⟩
  rcases List.mem_cons.mp ht with rfl | ht
  · exact ⟨⟨'B', _, rfl, by decide, by decide⟩,
      (by decide : ∀ c ∈ "BAND".data, notColonGt c = true ∧ c ≠ '<' ∧ c ≠ '\n' ∧ c ≠ '\r'),
      fun c hc => cleanStr_spec hbandcl c hc, rfl⟩
  rcases List.mem_cons.mp ht with rfl | ht
  · exact ⟨⟨'M', _, rfl, by decide, by decide⟩,
      (by decide : ∀ c ∈ "MODE".data, notColonGt c = true ∧ c ≠ '<' ∧ c ≠ '\n' ∧ c ≠ '\r'),
      fun c hc => cleanStr_spec hmodecl c hc, rfl⟩
  rcases List.mem_cons.mp ht with rfl | ht
  · exact ⟨⟨'R', _, rfl, by decide, by decide⟩,
      (by decide : ∀ c ∈ "RST_SENT".data,
        notColonGt c = true ∧ c ≠ '<' ∧ c ≠ '\n' ∧ c ≠ '\r'),
      fun c hc => cleanStr_spec hrstscl c hc, rfl⟩
  rcases List.mem_cons.mp ht with rfl | ht
  · exact ⟨⟨'R', _, rfl, by decide, by decide⟩,
      (by decide : ∀ c ∈ "RST_RCVD".data,
        notColonGt c = true ∧ c ≠ '<' ∧ c ≠ '\n' ∧ c ≠ '\r'),
      fun c hc => cleanStr_spec hrstrcl c hc, rfl⟩
  rcases List.mem_append.mp ht with ht | ht
  swap
  · have ht' := mem_ite_nil_right ht
    rcases List.mem_cons.mp ht' with rfl | ht2
    · exact ⟨⟨'C', _, rfl, by decide, by decide⟩,
        (by decide : ∀ c ∈ "COMMENT".data,
          notColonGt c = true ∧ c ≠ '<' ∧ c ≠ '\n' ∧ c ≠ '\r'),
        fun c hc => cleanStr_spec hcommentcl c hc, rfl⟩
    · cases ht2
  rcases List.mem_append.mp ht with ht | ht
  swap
  · have ht' := mem_ite_nil_left ht
    rcases List.mem_cons.mp ht' with rfl | ht2
    · refine ⟨⟨'T', _, rfl, by decide, by decide⟩,
        (by decide : ∀ c ∈ "TX_PWR".data,
          notColonGt c = true ∧ c ≠ '<' ∧ c ≠ '\n' ∧ c ≠ '\r'), ?_, rfl⟩
      intro c hc
      rw [intStr_data hpow] at hc
      obtain ⟨_, hdig, _⟩ := natDigits_spec r.power.natAbs
      exact digit_clean (hdig c hc)
    · cases ht2
  rcases List.mem_append.mp ht with ht | ht
  swap
  · have ht' := mem_ite_nil_right ht
    rcases List.mem_cons.mp ht' with rfl | ht2
    · exact ⟨⟨'G', _, rfl, by decide, by decide⟩,
        (by decide : ∀ c ∈ "GRIDSQUARE".data,
          notColonGt c = true ∧ c ≠ '<' ∧ c ≠ '\n' ∧ c ≠ '\r'),
        fun c hc => cleanStr_spec hgridcl c hc, rfl⟩
    · cases ht2
  rcases List.mem_append.mp ht with ht | ht
  swap
  · have ht' := mem_ite_nil_right ht
    rcases List.mem_cons.mp ht' with rfl | ht2
    · exact ⟨⟨'C', _, rfl, by decide, by decide⟩,
        (by decide : ∀ c ∈ "COUNTRY".data,
          notColonGt c = true ∧ c ≠ '<' ∧ c ≠ '\n' ∧ c ≠ '\r'),
        fun c hc => cleanStr_spec hcountrycl c hc, rfl⟩
    · cases ht2
  rcases List.mem_append.mp ht with ht | ht
  · have ht' := mem_ite_nil_right ht
    rcases List.mem_cons.mp ht' with rfl | ht2
    · exact ⟨⟨'N', _, rfl, by decide, by decide⟩,
        (by decide : ∀ c ∈ "NAME".data,
          notColonGt c = true ∧ c ≠ '<' ∧ c ≠ '\n' ∧ c ≠ '\r'),
        fun c hc => cleanStr_spec hnamecl c hc, rfl⟩
    · cases ht2
  · have ht' := mem_ite_nil_right ht
    rcases List.mem_cons.mp ht' with rfl | ht2
    · exact ⟨⟨'Q', _, rfl, by decide, by decide⟩,
        (by decide : ∀ c ∈ "QTH".data, notColonGt c = true ∧ c ≠ '<' ∧ c ≠ '\n' ∧ c ≠ '\r'),
        fun c hc => cleanStr_spec hqthcl c hc, rfl⟩
    · cases ht2

theorem getLast?_mem' {α : Type} {l : List α} {c : α} (h : l.getLast? = some c) :
    c ∈ l := by
  obtain ⟨hne, heq⟩ := @List.mem_getLast?_eq_getLast α l c (by rw [h]; rfl)
  exact heq ▸ List.getLast_mem hne

theorem digit_not_space {c : Char} (hd : c.isDigit = true) : isSpaceChar c = false := by
  unfold isSpaceChar
  have h1 := isDigit_ne hd (show (' ').isDigit = false from by decide)
  have h2 := isDigit_ne hd (show ('\t').isDigit = false from by decide)
  have h3 := isDigit_ne hd (show ('\n').isDigit = false from by decide)
  have h4 := isDigit_ne hd (show ('\r').isDigit = false from by decide)
  have h5 := isDigit_ne hd (show ('\x0b').isDigit = false from by decide)
  have h6 := isDigit_ne hd (show ('\x0c').isDigit = false from by decide)
  simp [h1, h2, h3, h4, h5, h6]

theorem data_ne_nil {s : String} (h : s ≠ "") : s.data ≠ [] := by
  intro hh
  apply h
  have hs : s = String.mk s.data := rfl
  rw [hs, hh]

theorem noTrailSpace_spec {s : String} (h : noTrailSpace s = true) :
    ∀ c, s.data.getLast? = some c → isSpaceChar c = false := by
  intro c hc
  unfold noTrailSpace at h
  rw [hc] at h
  simpa using h

theorem encSp_forall (P : Char → Prop)
    (hlt : P '<') (hcolon : P ':') (hgt : P '>') (hsp : P ' ')
    (hdig : ∀ c : Char, c.isDigit = true → P c) :
    ∀ chs : List (List Char × ℕ × List Char),
      (∀ t ∈ chs, (∀ c ∈ t.1, P c) ∧ (∀ c ∈ t.2.2, P c)) →
      ∀ c ∈ encSp chs, P c := by
  intro chs
  induction chs with
  | nil =>
      intro _ c hc
      simp [encSp] at hc
  | cons t ts ih =>
      intro h c hc
      rw [encSp_cons] at hc
      rcases List.mem_append.mp hc with hc | hc
      · rcases List.mem_append.mp hc with hc | hc
        · rw [encTok_eq] at hc
          rcases List.mem_cons.mp hc with rfl | hc
          · exact hlt
          rcases List.mem_append.mp hc with hc | hc
          · exact (h t (List.mem_cons_self t ts)).1 c hc
          rcases List.mem_cons.mp hc with rfl | hc
          · exact hcolon
          rcases List.mem_append.mp hc with hc | hc
          · obtain ⟨_, hdg, _⟩ := natDigits_spec t.2.1
            exact hdig c (hdg c hc)
          rcases List.mem_cons.mp hc with rfl | hc
          · exact hgt
          · exact (h t (List.mem_cons_self t ts)).2 c hc
        · simp only [List.mem_singleton] at hc
          rw [hc]
          exact hsp
      · exact ih (fun x hx => h x (List.mem_cons_of_mem t hx)) c hc

theorem encSp_cons_head (t : List Char × ℕ × List Char)
    (ts : List (List Char × ℕ × List Char)) :
    ∃ x, encSp (t :: ts) = '<' :: x := ⟨_, rfl⟩

theorem encTok_getLast {t : List Char × ℕ × List Char} (h : t.2.2 ≠ []) :
    (encTok t).getLast? = t.2.2.getLast? := by
  have hstruct : encTok t =
      ('<' :: (t.1 ++ ':' :: (natDigits t.2.1 ++ ['>']))) ++ t.2.2 := by
    rw [encTok_eq]
    simp
  rw [hstruct, List.getLast?_append_of_ne_nil _ h]

theorem encTrim_getLast :
    ∀ (chs : List (List Char × ℕ × List Char)) (t : List Char × ℕ × List Char),
      chs.getLast? = some t → t.2.2 ≠ [] →
      (encTrim chs).getLast? = t.2.2.getLast? := by
  intro chs
  induction chs with
  | nil =>
      intro t h
      cases h
  | cons t0 ts ih =>
      intro t hlast hne
      cases ts with
      | nil =>
          have ht0 : t0 = t := by
            simpa using hlast
          subst ht0
          rw [show encTrim [t0] = encTok t0 from rfl]
          exact encTok_getLast hne
      | cons t1 ts1 =>
          obtain ⟨x, hx⟩ := encTrim_cons_head t1 ts1
          have hne2 : encTrim (t1 :: ts1) ≠ [] := by
            rw [hx]
            simp
          have hlast' : (t1 :: ts1).getLast? = some t := by
            rw [← hlast, List.getLast?_cons_cons]
          rw [show encTrim (t0 :: t1 :: ts1) = encTok t0 ++ ' ' :: encTrim (t1 :: ts1)
            from rfl]
          rw [List.getLast?_append_of_ne_nil _ (by simp),
            show (' ' :: encTrim (t1 :: ts1)) = [' '] ++ encTrim (t1 :: ts1) from rfl,
            List.getLast?_append_of_ne_nil _ hne2]
          exact ih t hlast' hne

theorem toks_last {r : ADIFRecord} (h : canonicalRecord r) :
    ∃ t, (toks r).getLast? = some t ∧ t.2.2 ≠ [] ∧
      ∀ c, t.2.2.getLast? = some c → isSpaceChar c = false := by
  obtain ⟨hcall, hcallcl, hdate, htOn, htOff, hfreq0, hfden, hband0, hbandcl,
    hmode, hmodecl, hrsts, hrstscl, hrstr, hrstrcl, hrstrtr, hnamecl, hnametr,
    hqthcl, hqthtr, hcountrycl, hcountrytr, hgridcl, hgridtr, hpow,
    hcommentcl, hcommenttr⟩ := h
  by_cases h6 : r.comment = ""
  all_goals by_cases h5 : 0 < r.power
  all_goals by_cases h4 : r.grid = ""
  all_goals by_cases h3 : r.country = ""
  all_goals by_cases h2 : r.qth = ""
  all_goals by_cases h1 : r.name = ""
  all_goals simp only [toks, h1, h2, h3, h4, h5, h6, if_true, if_false,
    List.append_nil, List.nil_append, List.singleton_append, List.cons_append]
  all_goals first
    | exact ⟨_, rfl, data_ne_nil h6, noTrailSpace_spec hcommenttr⟩
    | (refine ⟨_, rfl, ?_, ?_⟩
       · rw [intStr_data hpow]
         exact (natDigits_spec r.power.natAbs).1
       · intro c hc
         rw [intStr_data hpow] at hc
         exact digit_not_space ((natDigits_spec r.power.natAbs).2.1 c (getLast?_mem' hc)))
    | exact ⟨_, rfl, data_ne_nil h4, noTrailSpace_spec hgridtr⟩
    | exact ⟨_, rfl, data_ne_nil h3, noTrailSpace_spec hcountrytr⟩
    | exact ⟨_, rfl, data_ne_nil h2, noTrailSpace_spec hqthtr⟩
    | exact ⟨_, rfl, data_ne_nil h1, noTrailSpace_spec hnametr⟩
    | exact ⟨_, rfl, data_ne_nil hrstr, noTrailSpace_spec hrstrtr⟩

theorem fieldStr_data (n v : String) :
    (fieldStr n v).data = encTok (n.data, v.data.length, v.data) ++ [' '] := by
  show ("<" ++ n ++ ":" ++ String.mk (natDigits v.data.length) ++ ">" ++ v ++ " ").data = _
  rw [encTok_eq]
  simp

theorem encSp_append (A B : List (List Char × ℕ × List Char)) :
    encSp (A ++ B) = encSp A ++ encSp B := by
  simp [encSp]

theorem opt_emit (b : Prop) [Decidable b] (n v : String) :
    ((if b then "" else fieldStr n v)).data =
      encSp (if b then ([] : List (List Char × ℕ × List Char))
        else [(n.data, v.data.length, v.data)]) := by
  split
  · rfl
  · rw [fieldStr_data]
    simp [encSp]

theorem opt_emit' (b : Prop) [Decidable b] (n v : String) :
    ((if b then fieldStr n v else "")).data =
      encSp (if b then [(n.data, v.data.length, v.data)]
        else ([] : List (List Char × ℕ × List Char))) := by
  split
  · rw [fieldStr_data]
    simp [encSp]
  · rfl

theorem recordString_data (r : ADIFRecord) :
    (recordString r).data =
      encSp (toks r) ++ ('<' :: 'E' :: 'O' :: 'R' :: '>' :: ['\n']) := by
  unfold recordString
  simp only [String.data_append, fieldStr_data, opt_emit, opt_emit']
  simp only [toks, encSp_cons, encSp_append, encTok_eq]
  simp [show natDigits 8 = ['8'] from rfl, show natDigits 6 = ['6'] from rfl,
    List.append_assoc]

theorem String_eta (s : String) : String.mk s.data = s := rfl

theorem applyExact_nil (x : ADIFRecord) : applyExact x [] = x := rfl

theorem applyExact_append (x : ADIFRecord) (A B : List (List Char × ℕ × List Char)) :
    applyExact x (A ++ B) = applyExact (applyExact x A) B := by
  simp [applyExact, List.foldl_append]

theorem applyExact_CALL (x : ADIFRecord) (k : ℕ) (v : List Char)
    (rest : List (List Char × ℕ × List Char)) :
    applyExact x (("CALL".data, k, v) :: rest) =
      applyExact { x with callsign := String.mk v } rest := rfl

theorem applyExact_QSO_DATE (x : ADIFRecord) (k : ℕ) (v : List Char)
    (rest : List (List Char × ℕ × List Char)) :
    applyExact x (("QSO_DATE".data, k, v) :: rest) =
      applyExact { x with date := formatDate (String.mk v) } rest := rfl

theorem applyExact_TIME_ON (x : ADIFRecord) (k : ℕ) (v : List Char)
    (rest : List (List Char × ℕ × List Char)) :
    applyExact x (("TIME_ON".data, k, v) :: rest) =
      applyExact { x with timeOn := formatTime (String.mk v) } rest := rfl

theorem applyExact_TIME_OFF (x : ADIFRecord) (k : ℕ) (v : List Char)
    (rest : List (List Char × ℕ × List Char)) :
    applyExact x (("TIME_OFF".data, k, v) :: rest) =
      applyExact { x with timeOff := formatTime (String.mk v) } rest := rfl

theorem applyExact_FREQ (x : ADIFRecord) (k : ℕ) (v : List Char)
    (rest : List (List Char × ℕ × List Char)) {f : ℚ}
    (h : parseFreq (String.mk v) = some f) :
    applyExact x (("FREQ".data, k, v) :: rest) =
      applyExact { x with frequency := f } rest := by
  show applyExact (match parseFreq (String.mk v) with
    | some f => { x with frequency := f }
    | none => x) rest = _
  rw [h]

theorem applyExact_BAND (x : ADIFRecord) (k : ℕ) (v : List Char)
    (rest : List (List Char × ℕ × List Char)) :
    applyExact x (("BAND".data, k, v) :: rest) =
      applyExact { x with band := String.mk v } rest := rfl

theorem applyExact_MODE (x : ADIFRecord) (k : ℕ) (v : List Char)
    (rest : List (List Char × ℕ × List Char)) :
    applyExact x (("MODE".data, k, v) :: rest) =
      applyExact { x with mode := String.mk v } rest := rfl

theorem applyExact_RST_SENT (x : ADIFRecord) (k : ℕ) (v : List Char)
    (rest : List (List Char × ℕ × List Char)) :
    applyExact x (("RST_SENT".data, k, v) :: rest) =
      applyExact { x with rstSent := String.mk v } rest := rfl

theorem applyExact_RST_RCVD (x : ADIFRecord) (k : ℕ) (v : List Char)
    (rest : List (List Char × ℕ × List Char)) :
    applyExact x (("RST_RCVD".data, k, v) :: rest) =
      applyExact { x with rstReceived := String.mk v } rest := rfl

theorem applyExact_NAME (x : ADIFRecord) (k : ℕ) (v : List Char)
    (rest : List (List Char × ℕ × List Char)) :
    applyExact x (("NAME".data, k, v) :: rest) =
      applyExact { x with name := String.mk v } rest := rfl

theorem applyExact_QTH (x : ADIFRecord) (k : ℕ) (v : List Char)
    (rest : List (List Char × ℕ × List Char)) :
    applyExact x (("QTH".data, k, v) :: rest) =
      applyExact { x with qth := String.mk v } rest := rfl

theorem applyExact_COUNTRY (x : ADIFRecord) (k : ℕ) (v : List Char)
    (rest : List (List Char × ℕ × List Char)) :
    applyExact x (("COUNTRY".data, k, v) :: rest) =
      applyExact { x with country := String.mk v } rest := rfl

theorem applyExact_GRIDSQUARE (x : ADIFRecord) (k : ℕ) (v : List Char)
    (rest : List (List Char × ℕ × List Char)) :
    applyExact x (("GRIDSQUARE".data, k, v) :: rest) =
      applyExact { x with grid := String.mk v } rest := rfl

theorem applyExact_TX_PWR (x : ADIFRecord) (k : ℕ) (v : List Char)
    (rest : List (List Char × ℕ × List Char)) {p : ℤ}
    (h : parseIntGo (String.mk v) = some p) :
    applyExact x (("TX_PWR".data, k, v) :: rest) =
      applyExact { x with power := p } rest := by
  show applyExact (match parseIntGo (String.mk v) with
    | some p => { x with power := p }
    | none => x) rest = _
  rw [h]

theorem applyExact_COMMENT (x : ADIFRecord) (k : ℕ) (v : List Char)
    (rest : List (List Char × ℕ × List Char)) :
    applyExact x (("COMMENT".data, k, v) :: rest) =
      applyExact { x with comment := String.mk v } rest := rfl

theorem applyExact_ADIF_VER (x : ADIFRecord) (k : ℕ) (v : List Char)
    (rest : List (List Char × ℕ × List Char)) :
    applyExact x (("ADIF_VER".data, k, v) :: rest) = applyExact x rest := rfl

theorem applyExact_PROGRAMID (x : ADIFRecord) (k : ℕ) (v : List Char)
    (rest : List (List Char × ℕ × List Char)) :
    applyExact x (("PROGRAMID".data, k, v) :: rest) = applyExact x rest := rfl

theorem applyExact_PROGRAMVERSION (x : ADIFRecord) (k : ℕ) (v : List Char)
    (rest : List (List Char × ℕ × List Char)) :
    applyExact x (("PROGRAMVERSION".data, k, v) :: rest) = applyExact x rest := rfl

theorem applyExact_opt_name (x : ADIFRecord) (v : String)
    (rest : List (List Char × ℕ × List Char)) (hx : x.name = "") :
    applyExact x ((if v = "" then [] else [("NAME".data, v.data.length, v.data)]) ++ rest) =
      applyExact { x with name := v } rest := by
  split
  · next hv =>
      rw [List.nil_append]
      have hxe : ({ x with name := v } : ADIFRecord) = x := by
        rw [hv, ← hx]
      rw [hxe]
  · rw [List.singleton_append, applyExact_NAME, String_eta]

theorem applyExact_opt_qth (x : ADIFRecord) (v : String)
    (rest : List (List Char × ℕ × List Char)) (hx : x.qth = "") :
    applyExact x ((if v = "" then [] else [("QTH".data, v.data.length, v.data)]) ++ rest) =
      applyExact { x with qth := v } rest := by
  split
  · next hv =>
      rw [List.nil_append]
      have hxe : ({ x with qth := v } : ADIFRecord) = x := by
        rw [hv, ← hx]
      rw [hxe]
  · rw [List.singleton_append, applyExact_QTH, String_eta]

theorem applyExact_opt_country (x : ADIFRecord) (v : String)
    (rest : List (List Char × ℕ × List Char)) (hx : x.country = "") :
    applyExact x ((if v = "" then []
      else [("COUNTRY".data, v.data.length, v.data)]) ++ rest) =
      applyExact { x with country := v } rest := by
  split
  · next hv =>
      rw [List.nil_append]
      have hxe : ({ x with country := v } : ADIFRecord) = x := by
        rw [hv, ← hx]
      rw [hxe]
  · rw [List.singleton_append, applyExact_COUNTRY, String_eta]

theorem applyExact_opt_grid (x : ADIFRecord) (v : String)
    (rest : List (List Char × ℕ × List Char)) (hx : x.grid = "") :
    applyExact x ((if v = "" then []
      else [("GRIDSQUARE".data, v.data.length, v.data)]) ++ rest) =
      applyExact { x with grid := v } rest := by
  split
  · next hv =>
      rw [List.nil_append]
      have hxe : ({ x with grid := v } : ADIFRecord) = x := by
        rw [hv, ← hx]
      rw [hxe]
  · rw [List.singleton_append, applyExact_GRIDSQUARE, String_eta]

theorem applyExact_opt_power (x : ADIFRecord) (p : ℤ)
    (rest : List (List Char × ℕ × List Char)) (hx : x.power = 0) (hp : 0 ≤ p) :
    applyExact x ((if 0 < p then
      [("TX_PWR".data, (intStr p).data.length, (intStr p).data)] else []) ++ rest) =
      applyExact { x with power := p } rest := by
  split
  · next hlt =>
      rw [List.singleton_append,
        applyExact_TX_PWR x _ _ rest (by rw [String_eta]; exact parseIntGo_intStr hp)]
  · next hge =>
      rw [List.nil_append]
      have hp0 : p = 0 := by omega
      have hxe : ({ x with power := p } : ADIFRecord) = x := by
        rw [hp0, ← hx]
      rw [hxe]

theorem applyExact_opt_comment (x : ADIFRecord) (v : String)
    (rest : List (List Char × ℕ × List Char)) (hx : x.comment = "") :
    applyExact x ((if v = "" then []
      else [("COMMENT".data, v.data.length, v.data)]) ++ rest) =
      applyExact { x with comment := v } rest := by
  split
  · next hv =>
      rw [List.nil_append]
      have hxe : ({ x with comment := v } : ADIFRecord) = x := by
        rw [hv, ← hx]
      rw [hxe]
  · rw [List.singleton_append, applyExact_COMMENT, String_eta]

theorem applyExact_opt_comment_last (x : ADIFRecord) (v : String) (hx : x.comment = "") :
    applyExact x (if v = "" then []
      else [("COMMENT".data, v.data.length, v.data)]) =
      { x with comment := v } := by
  have h := applyExact_opt_comment x v [] hx
  rwa [List.append_nil, applyExact_nil] at h

theorem applyExact_toks {r : ADIFRecord} (h : canonicalRecord r) :
    applyExact emptyRecord (toks r) = { r with confirmed := false } := by
  obtain ⟨hcall, hcallcl, hdate, htOn, htOff, hfreq0, hfden, hband0, hbandcl,
    hmode, hmodecl, hrsts, hrstscl, hrstr, hrstrcl, _, hnamecl, _, hqthcl, _,
    hcountrycl, _, hgridcl, _, hpow, hcommentcl, _⟩ := h
  obtain ⟨_, _, hdateEq⟩ := date_roundtrip hdate
  obtain ⟨_, _, htOnEq⟩ := time_roundtrip htOn
  obtain ⟨_, _, htOffEq⟩ := time_roundtrip htOff
  unfold toks
  rw [applyExact_CALL, applyExact_QSO_DATE, applyExact_TIME_ON, applyExact_TIME_OFF,
    applyExact_FREQ _ _ _ _
      (by rw [String_eta]; exact parseFreq_formatFreq hfreq0 hfden),
    applyExact_BAND, applyExact_MODE, applyExact_RST_SENT, applyExact_RST_RCVD]
  simp only [String_eta]
  rw [hdateEq, htOnEq, htOffEq]
  simp only [List.append_assoc]
  rw [applyExact_opt_name _ _ _ rfl, applyExact_opt_qth _ _ _ rfl,
    applyExact_opt_country _ _ _ rfl, applyExact_opt_grid _ _ _ rfl,
    applyExact_opt_power _ _ _ rfl hpow, applyExact_opt_comment_last _ _ rfl]
  rfl

theorem applyTokens_ADIF_VER (x : ADIFRecord) (k : ℕ) (v : List Char)
    (rest : List (List Char × ℕ × List Char)) :
    applyTokens x (("ADIF_VER".data, k, v) :: rest) = applyTokens x rest := rfl

theorem applyTokens_PROGRAMID (x : ADIFRecord) (k : ℕ) (v : List Char)
    (rest : List (List Char × ℕ × List Char)) :
    applyTokens x (("PROGRAMID".data, k, v) :: rest) = applyTokens x rest := rfl

theorem applyTokens_PROGRAMVERSION (x : ADIFRecord) (k : ℕ) (v : List Char)
    (rest : List (List Char × ℕ × List Char)) :
    applyTokens x (("PROGRAMVERSION".data, k, v) :: rest) = applyTokens x rest := rfl

theorem ne_empty_of_data {s : String} (h : s.data ≠ []) : s ≠ "" := by
  intro hh
  apply h
  rw [hh]

theorem dateCanon_ne_empty {s : String} (h : dateCanon s = true) : s ≠ "" := by
  obtain ⟨a, b, c, d, e, f, g, h', hdata, _⟩ := dateCanon_spec h
  exact ne_empty_of_data (by rw [hdata]; simp)

theorem timeCanon_ne_empty {s : String} (h : timeCanon s = true) : s ≠ "" := by
  obtain ⟨a, b, c, d, e, f, hdata, _⟩ := timeCanon_spec h
  exact ne_empty_of_data (by rw [hdata]; simp)

theorem finalizeRecord_canonical {today now : String} {r : ADIFRecord}
    (h : canonicalRecord r) :
    finalizeRecord today now { r with confirmed := false } =
      .ok { r with confirmed := false } := by
  obtain ⟨hcall, _, hdate, htOn, htOff, _, _, hband0, _, hmode, _, hrsts, _,
    hrstr, _⟩ := h
  rw [finalizeRecord_eq]
  rw [if_neg (show ¬({ r with confirmed := false } : ADIFRecord).callsign = ""
    from hcall)]
  have hbandc : ¬(({ r with confirmed := false } : ADIFRecord).band = "" ∧
      0 < ({ r with confirmed := false } : ADIFRecord).frequency) := by
    rintro ⟨hb, hf⟩
    exact absurd hf (not_lt.mpr (hband0 hb))
  simp only [if_neg (dateCanon_ne_empty hdate), if_neg (timeCanon_ne_empty htOn),
    if_neg (timeCanon_ne_empty htOff), if_neg hmode, if_neg hrsts, if_neg hrstr,
    if_neg hbandc]

theorem trimSpace_of_ends' (D : List Char) (hd : Char)
    (hhead : D.head? = some hd) (hhd : isSpaceChar hd = false)
    (c : Char) (hlast : D.getLast? = some c) (hc : isSpaceChar c = false) :
    trimSpace (D ++ [' ']) = D := by
  cases D with
  | nil => cases hhead
  | cons x xs =>
      injection hhead with hx
      subst hx
      exact trimSpace_of_ends (x :: xs) x xs rfl hhd c hlast hc

theorem append_ne_nil_right {α : Type} {A B : List α} (h : B ≠ []) : A ++ B ≠ [] :=
  fun hh => h (List.append_eq_nil.mp hh).2

theorem findFields_lt_none {rest : List Char} (h : matchAfterLt rest = none) :
    findFields ('<' :: rest) = findFields rest := by
  rw [findFields_cons, if_pos rfl, h]

set_option maxHeartbeats 2000000 in
/-- C1 (amended): the encode/decode round-trip law holds for every
canonically-shaped decoded record in every field EXCEPT `confirmed`:
since `ExportADIFToWriter` never emits a `QSL_RCVD` field, decoding the
encoder's output yields exactly the original record with
`confirmed := false`, with every emitted field's declared length equal to
the character count of its value (no error entry is produced).  The
original claim — that every field keeps its value — fails for `confirmed`
(see `roundtrip_confirmed_counterexample`). -/
theorem adif_export_roundtrip (today now ns : String) (r : ADIFRecord)
    (hr : canonicalRecord r) (hns : cleanStr ns = true) :
    parseADIF today now (exportADIF ns [r]) = ([{ r with confirmed := false }], []) := by
  have hgood := toks_good hr
  have hinput : (exportADIF ns [r]).data =
      (([ "Generated by GoQSO v1.0.0 on ".data ++ ns.data,
          ([] : List Char),
          "<ADIF_VER:5>3.1.0".data,
          "<PROGRAMID:5>GoQSO".data,
          "<PROGRAMVERSION:5>1.0.0".data,
          "<EOH>".data,
          ([] : List Char),
          encSp (toks r) ++ ('<' :: 'E' :: 'O' :: 'R' :: '>' :: []) ]).map
        (fun ln => ln ++ ['\n'])).join := by
    show ("Generated by GoQSO v1.0.0 on " ++ ns ++
        "\n\n<ADIF_VER:5>3.1.0\n<PROGRAMID:5>GoQSO\n<PROGRAMVERSION:5>1.0.0\n<EOH>\n\n"
        ++ String.join ([r].map recordString)).data = _
    have hjoin1 : ∀ s : String, String.join [s] = s := fun s => rfl
    rw [show ([r].map recordString) = [recordString r] from rfl, hjoin1]
    simp only [String.data_append, recordString_data]
    simp [List.append_assoc]
  have hL8chars : ∀ c ∈ encSp (toks r), c ≠ '\n' ∧ c ≠ '\r' := by
    refine encSp_forall (fun c => c ≠ '\n' ∧ c ≠ '\r') (by decide) (by decide) (by decide)
      (by decide) (fun c hc => ⟨isDigit_ne hc (by decide), isDigit_ne hc (by decide)⟩)
      (toks r) ?_
    intro t ht
    obtain ⟨_, hname, hval, _⟩ := hgood t ht
    exact ⟨fun c hc => ⟨(hname c hc).2.2.1, (hname c hc).2.2.2⟩,
      fun c hc => ⟨(hval c hc).2.1, (hval c hc).2.2⟩⟩
  have hL8head : ∃ x, encSp (toks r) = '<' :: x := by
    unfold toks
    exact encSp_cons_head _ _
  have hlines : ∀ ln ∈ [ "Generated by GoQSO v1.0.0 on ".data ++ ns.data,
        ([] : List Char), "<ADIF_VER:5>3.1.0".data, "<PROGRAMID:5>GoQSO".data,
        "<PROGRAMVERSION:5>1.0.0".data, "<EOH>".data, ([] : List Char),
        encSp (toks r) ++ ('<' :: 'E' :: 'O' :: 'R' :: '>' :: []) ],
      '\n' ∉ ln ∧ '\r' ∉ ln ∧ startsWithHashAfterTrim ln = false := by
    intro ln hln
    simp only [List.mem_cons, List.not_mem_nil, or_false] at hln
    rcases hln with rfl | rfl | rfl | rfl | rfl | rfl | rfl | rfl
    · refine ⟨?_, ?_, rfl⟩
      · intro hmem
        rcases List.mem_append.mp hmem with hmem | hmem
        · exact absurd hmem (by decide)
        · exact (cleanStr_spec hns '\n' hmem).2.1 rfl
      · intro hmem
        rcases List.mem_append.mp hmem with hmem | hmem
        · exact absurd hmem (by decide)
        · exact (cleanStr_spec hns '\r' hmem).2.2 rfl
    · exact ⟨by decide, by decide, rfl⟩
    · exact ⟨by decide, by decide, rfl⟩
    · exact ⟨by decide, by decide, rfl⟩
    · exact ⟨by decide, by decide, rfl⟩
    · exact ⟨by decide, by decide, rfl⟩
    · exact ⟨by decide, by decide, rfl⟩
    · obtain ⟨x, hx⟩ := hL8head
      refine ⟨?_, ?_, ?_⟩
      · intro hmem
        rcases List.mem_append.mp hmem with hmem | hmem
        · exact (hL8chars '\n' hmem).1 rfl
        · exact absurd hmem (by decide)
      · intro hmem
        rcases List.mem_append.mp hmem with hmem | hmem
        · exact (hL8chars '\r' hmem).2 rfl
        · exact absurd hmem (by decide)
      · rw [hx]
        rfl
  set pre6 : List Char :=
    ("Generated by GoQSO v1.0.0 on ".data ++ ns.data ++ [' ', ' ']) ++
    ("<ADIF_VER:5>3.1.0 ".data ++
     ("<PROGRAMID:5>GoQSO ".data ++
      ("<PROGRAMVERSION:5>1.0.0 ".data ++
       ("<EOH>".data ++ [' ', ' '])))) with hpre6
  have hcontent : joinLines (exportADIF ns [r]).data =
      (pre6 ++ encSp (toks r)) ++ ('<' :: 'E' :: 'O' :: 'R' :: '>' :: [' ']) := by
    rw [hinput, joinLines_structured _ (by simp) hlines, hpre6]
    simp [List.append_assoc]
  have hrun0 : ∀ c ∈ ("Generated by GoQSO v1.0.0 on ".data ++ ns.data ++ [' ', ' ']),
      c ≠ '<' := by
    intro c hc
    rcases List.mem_append.mp hc with hc | hc
    · rcases List.mem_append.mp hc with hc | hc
      · exact (by decide : ∀ c ∈ "Generated by GoQSO v1.0.0 on ".data, c ≠ '<') c hc
      · exact (cleanStr_spec hns c hc).1
    · simp only [List.mem_cons, List.not_mem_nil, or_false] at hc
      rcases hc with rfl | rfl <;> decide
  have hPstep : ∀ cur tail,
      splitEORAux cur ((pre6 ++ encSp (toks r)) ++ tail) =
        splitEORAux ((pre6 ++ encSp (toks r)).reverse ++ cur) tail := by
    refine splitEOR_step_append (splitEOR_step_append
      (fun cur tail => splitEORAux_skip_run _ hrun0 cur tail)
      (splitEOR_step_append ?_ (splitEOR_step_append ?_ (splitEOR_step_append ?_
        (splitEOR_step_append ?_ ?_)))))
      (encSp_step (toks r) hgood)
    · intro cur tail
      rw [show ("<ADIF_VER:5>3.1.0 ".data : List Char) =
        '<' :: 'A' :: "DIF_VER:5>3.1.0 ".data from rfl]
      exact splitEORAux_field_chunk 'A' _ (by decide) (by decide) (by decide) cur tail
    · intro cur tail
      rw [show ("<PROGRAMID:5>GoQSO ".data : List Char) =
        '<' :: 'P' :: "ROGRAMID:5>GoQSO ".data from rfl]
      exact splitEORAux_field_chunk 'P' _ (by decide) (by decide) (by decide) cur tail
    · intro cur tail
      rw [show ("<PROGRAMVERSION:5>1.0.0 ".data : List Char) =
        '<' :: 'P' :: "ROGRAMVERSION:5>1.0.0 ".data from rfl]
      exact splitEORAux_field_chunk 'P' _ (by decide) (by decide) (by decide) cur tail
    · intro cur tail
      rw [show ("<EOH>".data : List Char) = '<' :: 'E' :: 'O' :: 'H' :: '>' :: []
        from rfl]
      exact splitEORAux_eoh cur tail
    · intro cur tail
      exact splitEORAux_skip_run _ (by decide) cur tail
  have hsplit : splitEOR (joinLines (exportADIF ns [r]).data) =
      [pre6 ++ encSp (toks r)] := by
    rw [hcontent]
    exact splitEOR_of_chunks _ hPstep
  have htoksne : toks r ≠ [] := by
    unfold toks
    simp
  obtain ⟨tlast, hlastTok, hlastNe, hlastSp⟩ := toks_last hr
  have hencne : encTrim (toks r) ≠ [] := by
    have hhd : ∃ x, encTrim (toks r) = '<' :: x := by
      unfold toks
      exact encTrim_cons_head _ _
    obtain ⟨x, hx⟩ := hhd
    rw [hx]
    simp
  obtain ⟨c, hcEq⟩ : ∃ c, (tlast.2.2).getLast? = some c := by
    cases hc : tlast.2.2.getLast? with
    | none => exact absurd (List.getLast?_eq_none.mp hc) hlastNe
    | some c => exact ⟨c, rfl⟩
  have hencLast : (encTrim (toks r)).getLast? = some c := by
    rw [encTrim_getLast (toks r) tlast hlastTok hlastNe, hcEq]
  have hPD : pre6 ++ encSp (toks r) = (pre6 ++ encTrim (toks r)) ++ [' '] := by
    rw [encSp_eq_encTrim _ htoksne]
    simp [List.append_assoc]
  have htrimP : trimSpace (pre6 ++ encSp (toks r)) = pre6 ++ encTrim (toks r) := by
    rw [hPD]
    refine trimSpace_of_ends' _ 'G' ?_ rfl c ?_ (hlastSp c hcEq)
    · rw [hpre6]
      rfl
    · rw [List.getLast?_append_of_ne_nil _ hencne]
      exact hencLast
  have hffD : applyTokens emptyRecord (findFields (pre6 ++ encTrim (toks r))) =
      { r with confirmed := false } := by
    have e1 : pre6 ++ encTrim (toks r) =
        ("Generated by GoQSO v1.0.0 on ".data ++ ns.data ++ [' ', ' ']) ++
        ('<' :: ("ADIF_VER".data ++ ':' :: (['5'] ++ '>' :: ("3.1.0 ".data ++
        ('<' :: ("PROGRAMID".data ++ ':' :: (['5'] ++ '>' :: ("GoQSO ".data ++
        ('<' :: ("PROGRAMVERSION".data ++ ':' :: (['5'] ++ '>' :: ("1.0.0 ".data ++
        ('<' :: ('E' :: 'O' :: 'H' :: '>' ::
          (' ' :: ' ' :: encTrim (toks r)))))))))))))))) := by
      rw [hpre6]
      simp [List.append_assoc]
    rw [e1, findFields_skip_run _ hrun0 _]
    rw [findFields_field "ADIF_VER".data ['5'] "3.1.0 ".data _
      (by decide) (by decide) (by decide) (by decide) (by decide) (Or.inr ⟨_, rfl⟩)]
    rw [findFields_field "PROGRAMID".data ['5'] "GoQSO ".data _
      (by decide) (by decide) (by decide) (by decide) (by decide) (Or.inr ⟨_, rfl⟩)]
    rw [findFields_field "PROGRAMVERSION".data ['5'] "1.0.0 ".data _
      (by decide) (by decide) (by decide) (by decide) (by decide) (Or.inr ⟨_, rfl⟩)]
    rw [findFields_lt_none (matchAfterLt_eoh _)]
    rw [show ('E' :: 'O' :: 'H' :: '>' :: (' ' :: ' ' :: encTrim (toks r))) =
      (['E', 'O', 'H', '>', ' ', ' '] ++ encTrim (toks r)) from rfl,
      findFields_skip_run _ (by decide) _]
    rw [applyTokens_ADIF_VER, applyTokens_PROGRAMID, applyTokens_PROGRAMVERSION,
      applyTokens_encTrim (toks r) hgood emptyRecord]
    exact applyExact_toks hr
  have hDne : pre6 ++ encTrim (toks r) ≠ [] := append_ne_nil_right hencne
  show parseADIFContent today now (joinLines (exportADIF ns [r]).data) = _
  unfold parseADIFContent
  rw [hsplit]
  rw [show ([pre6 ++ encSp (toks r)].map trimSpace) = [pre6 ++ encTrim (toks r)] from by
    rw [List.map_cons, List.map_nil, htrimP]]
  rw [show ([pre6 ++ encTrim (toks r)].filter (fun s => s ≠ [])) =
      [pre6 ++ encTrim (toks r)] from by
    rw [List.filter_eq_self]
    intro a ha
    simp only [List.mem_singleton] at ha
    subst ha
    simp [hDne]]
  show processSegmentsStep today now ([], []) (pre6 ++ encTrim (toks r)) = _
  unfold processSegmentsStep
  rw [show parseRecord today now (String.mk (pre6 ++ encTrim (toks r))) =
      Except.ok { r with confirmed := false } from by
    unfold parseRecord
    rw [show (String.mk (pre6 ++ encTrim (toks r))).data = pre6 ++ encTrim (toks r)
      from rfl, hffD]
    exact finalizeRecord_canonical hr]
  rfl

/-! ## Claim theorems -/

/-- C7: after one pass of the Duplicate Collapser, at most one
StoredContact exists per DedupKey (the keys of the remaining rows are
pairwise distinct); the returned count is the number of rows removed; and
every remaining row descends from the member of its key group with the
earliest creation timestamp — it keeps that member's `id` and
`created_at`, every non-empty field of that member survives unchanged
(never overwritten), and a field is empty on the result only when it was
empty on every member of the group. -/
theorem merge_duplicates_collapses (st : Store) :
    ((mergeDuplicateContacts st).2.rows.map dedupKey).Nodup ∧
    (mergeDuplicateContacts st).1 =
      st.rows.length - (mergeDuplicateContacts st).2.rows.length ∧
    (∀ row' ∈ (mergeDuplicateContacts st).2.rows,
      ∃ ret ∈ st.rows,
        dedupKey ret = dedupKey row' ∧
        (∀ x ∈ st.rows, dedupKey x = dedupKey row' → ret.createdAt ≤ x.createdAt) ∧
        row'.id = ret.id ∧ row'.createdAt = ret.createdAt ∧
        (∀ f ∈ stringFields,
          (f ret ≠ "" → f row' = f ret) ∧
          (f row' = "" → ∀ x ∈ st.rows, dedupKey x = dedupKey row' → f x = "")) ∧
        (ret.frequency ≠ 0 → row'.frequency = ret.frequency) ∧
        (ret.powerWatts ≠ 0 → row'.powerWatts = ret.powerWatts)) := by
  have hne : ∀ k ∈ (st.rows.map dedupKey).dedup,
      st.rows.filter (fun c => dedupKey c = k) ≠ [] := fun k hk => filter_key_ne_nil hk
  have hrows : (mergeDuplicateContacts st).2.rows =
      ((st.rows.map dedupKey).dedup).filterMap (mergeGroupAt st.rows) := rfl
  have hmapkeys : ((mergeDuplicateContacts st).2.rows.map dedupKey) =
      (st.rows.map dedupKey).dedup := by
    rw [hrows]
    exact filterMap_mergeGroupAt_keys st.rows _ hne
  refine ⟨?_, ?_, ?_⟩
  · rw [hmapkeys]
    exact List.nodup_dedup _
  · have hlen : (mergeDuplicateContacts st).2.rows.length =
        ((st.rows.map dedupKey).dedup).length := by
      rw [← List.length_map (mergeDuplicateContacts st).2.rows dedupKey, hmapkeys]
    have hone : ∀ k ∈ (st.rows.map dedupKey).dedup,
        1 ≤ (st.rows.filter (fun c => dedupKey c = k)).length := by
      intro k hk
      cases hgrp : st.rows.filter (fun c => dedupKey c = k) with
      | nil => exact absurd hgrp (hne k hk)
      | cons g gs => simp [hgrp]
    obtain ⟨hsub, hle⟩ := @sum_sub_one st.rows _ hone
    have hpart := sum_filter_partition st.rows (st.rows.map dedupKey).dedup
      (List.nodup_dedup _) (fun r hr => List.mem_dedup.mpr (List.mem_map_of_mem dedupKey hr))
    have hcount : (mergeDuplicateContacts st).1 =
        ((st.rows.map dedupKey).dedup.map (fun k =>
          (st.rows.filter (fun c => dedupKey c = k)).length - 1)).sum := rfl
    rw [hcount, hsub, hpart, hlen]
  · intro row' hrow'
    rw [hrows, List.mem_filterMap] at hrow'
    obtain ⟨k, hk, hfk⟩ := hrow'
    cases hgrp : st.rows.filter (fun c => dedupKey c = k) with
    | nil => exact absurd hgrp (hne k hk)
    | cons g gs =>
        rw [mergeGroupAt_some hgrp, Option.some.injEq] at hfk
        subst hfk
        set ret := minCreated g gs with hret
        have hretmem : ret ∈ g :: gs := minCreated_mem gs g
        have hretrows : ret ∈ st.rows ∧ dedupKey ret = k :=
          mem_filter_key.mp (hgrp ▸ hretmem)
        have hkey : dedupKey (((g :: gs).erase ret).foldl mergeInto ret) = k :=
          merged_key hgrp
        refine ⟨ret, hretrows.1, ?_, ?_, ?_, ?_, ?_, ?_, ?_⟩
        · rw [hretrows.2, hkey]
        · intro x hx hxkey
          rw [hkey] at hxkey
          have : x ∈ g :: gs := by
            rw [← hgrp]
            exact mem_filter_key.mpr ⟨hx, hxkey⟩
          exact minCreated_le gs g x this
        · exact (fold_mergeInto_id _ ret).1
        · exact (fold_mergeInto_id _ ret).2
        · intro f hf
          constructor
          · intro hne'
            exact fold_mergeInto_preserves hf _ ret hne'
          · intro hempty x hx hxkey
            rw [hkey] at hxkey
            have hxgrp : x ∈ g :: gs := by
              rw [← hgrp]
              exact mem_filter_key.mpr ⟨hx, hxkey⟩
            obtain ⟨hretempty, hothers⟩ := fold_mergeInto_empty hf _ ret hempty
            by_cases hxr : x = ret
            · rw [hxr]; exact hretempty
            · exact hothers x (List.mem_erase_of_ne hxr |>.mpr hxgrp)
        · intro hne'
          exact fold_mergeInto_freq_preserves _ ret hne'
        · intro hne'
          exact fold_mergeInto_power_preserves _ ret hne'

/-- Witness for C7 (the per-row part carries hypotheses): a concrete
two-row store whose rows share a DedupKey collapses to one row — the
earlier row's id — with the later row's non-empty comment merged in, and
reports one row removed. -/
theorem merge_duplicates_collapses_witness :
    (mergeDuplicateContacts
      ⟨[⟨1, "W1AW", "2025-01-01", "00:00:00", "00:00:00", 0, "", "SSB", "59", "59",
          "", "", "", "", 0, "", false, 0⟩,
        ⟨2, "W1AW", "2025-01-01", "00:00:00", "01:00:00", 0, "20m", "SSB", "59", "59",
          "", "", "", "", 0, "note", true, 7⟩], 3, 9⟩).1 = 1 ∧
    (mergeDuplicateContacts
      ⟨[⟨1, "W1AW", "2025-01-01", "00:00:00", "00:00:00", 0, "", "SSB", "59", "59",
          "", "", "", "", 0, "", false, 0⟩,
        ⟨2, "W1AW", "2025-01-01", "00:00:00", "01:00:00", 0, "20m", "SSB", "59", "59",
          "", "", "", "", 0, "note", true, 7⟩], 3, 9⟩).2.rows =
      [⟨1, "W1AW", "2025-01-01", "00:00:00", "00:00:00", 0, "20m", "SSB", "59", "59",
        "", "", "", "", 0, "note", false, 0⟩] ∧
    ((mergeDuplicateContacts
      ⟨[⟨1, "W1AW", "2025-01-01", "00:00:00", "00:00:00", 0, "", "SSB", "59", "59",
          "", "", "", "", 0, "", false, 0⟩,
        ⟨2, "W1AW", "2025-01-01", "00:00:00", "01:00:00", 0, "20m", "SSB", "59", "59",
          "", "", "", "", 0, "note", true, 7⟩], 3, 9⟩).2.rows.map dedupKey).Nodup := by
  refine ⟨by decide, by decide, ?_⟩
  exact (merge_duplicates_collapses
    ⟨[⟨1, "W1AW", "2025-01-01", "00:00:00", "00:00:00", 0, "", "SSB", "59", "59",
        "", "", "", "", 0, "", false, 0⟩,
      ⟨2, "W1AW", "2025-01-01", "00:00:00", "01:00:00", 0, "20m", "SSB", "59", "59",
        "", "", "", "", 0, "note", true, 7⟩], 3, 9⟩).1

/-- C2: importing the same well-formed stream twice with
`mergeDuplicates = true, updateExisting = false` yields, on the second
import, `imported = 0` and `skippedCount` equal to the number of valid
records in the stream, and the second import performs no insert or update
(the store is exactly the store after the first import). -/
theorem merge_import_twice_idempotent (today nowTime fn1 fn2 input : String) (st0 : Store) :
    (importADIF today nowTime fn2 ⟨true, false⟩ input
      (importADIF today nowTime fn1 ⟨true, false⟩ input st0).2).1.importedCount = 0 ∧
    (importADIF today nowTime fn2 ⟨true, false⟩ input
      (importADIF today nowTime fn1 ⟨true, false⟩ input st0).2).1.skippedCount =
      (parseADIF today nowTime input).1.length ∧
    (importADIF today nowTime fn2 ⟨true, false⟩ input
        (importADIF today nowTime fn1 ⟨true, false⟩ input st0).2).2 =
      (importADIF today nowTime fn1 ⟨true, false⟩ input st0).2 := by
  have hst1 : (importADIF today nowTime fn1 ⟨true, false⟩ input st0).2 =
      ((parseADIF today nowTime input).1.foldl (importStep ⟨true, false⟩)
        (initImportResult (parseADIF today nowTime input).1.length fn1, st0)).2 := rfl
  have hkeys : ∀ r ∈ (parseADIF today nowTime input).1,
      (((importADIF today nowTime fn1 ⟨true, false⟩ input st0).2).rows.find?
        (keyPred (convertToContactRequest r).callsign (convertToContactRequest r).contactDate
          (convertToContactRequest r).timeOn)).isSome = true := by
    intro r hr
    rw [hst1]
    exact pass1_keys (parseADIF today nowTime input).1 _ r hr
  have hfold := pass2_skips (parseADIF today nowTime input).1
    (initImportResult (parseADIF today nowTime input).1.length fn2)
    (importADIF today nowTime fn1 ⟨true, false⟩ input st0).2 hkeys
  have hunfold : ∀ (fn : String) (st : Store),
      importADIF today nowTime fn ⟨true, false⟩ input st =
        (finalizeImportMessage fn ((parseADIF today nowTime input).1.foldl
          (importStep ⟨true, false⟩)
          (initImportResult (parseADIF today nowTime input).1.length fn, st)).1,
        ((parseADIF today nowTime input).1.foldl (importStep ⟨true, false⟩)
          (initImportResult (parseADIF today nowTime input).1.length fn, st)).2) :=
    fun fn st => rfl
  have hsecond : importADIF today nowTime fn2 ⟨true, false⟩ input
      (importADIF today nowTime fn1 ⟨true, false⟩ input st0).2 =
      (finalizeImportMessage fn2
        ({ initImportResult (parseADIF today nowTime input).1.length fn2 with
          skippedCount := (initImportResult (parseADIF today nowTime input).1.length
            fn2).skippedCount + (parseADIF today nowTime input).1.length }),
        (importADIF today nowTime fn1 ⟨true, false⟩ input st0).2) := by
    rw [hunfold fn2, hfold]
  rw [hsecond]
  refine ⟨?_, ?_, rfl⟩
  · rw [(finalizeImportMessage_counts fn2 _).1]
    rfl
  · rw [(finalizeImportMessage_counts fn2 _).2]
    show 0 + (parseADIF today nowTime input).1.length = _
    omega

/-- C9: content after the final case-insensitive `<EOR>` marker — even a
complete, otherwise decodable field sequence that lacks its own
terminating `<EOR>` — is silently discarded: the parse result (records and
errors) is exactly that of the stream truncated at the final marker, and
in the concrete stream `<CALL:4>W1AW<EOR><CALL:5>K1ABC<QSO_DATE:8>20250101`
the trailing `K1ABC` record yields no CanonicalRecord and no error. -/
theorem content_after_final_eor_discarded (today nowTime : String)
    (content tail : List Char) (htail : hasEORList tail = false) :
    parseADIFContent today nowTime ((content ++ "<EOR>".data) ++ tail) =
      parseADIFContent today nowTime (content ++ "<EOR>".data) ∧
    parseADIF today nowTime "<CALL:4>W1AW<EOR><CALL:5>K1ABC<QSO_DATE:8>20250101" =
      ([⟨"W1AW", today, nowTime, nowTime, 0, "", "SSB", "59", "59",
        "", "", "", "", 0, "", false⟩], []) := by
  constructor
  · have hs : splitEOR ((content ++ "<EOR>".data) ++ tail) =
        splitEOR (content ++ "<EOR>".data) := by
      unfold splitEOR
      exact scan_append_endmark (content ++ "<EOR>".data).length
        (content ++ "<EOR>".data) le_rfl
        ⟨content, "<EOR>".data, rfl, by decide, by decide⟩ tail htail []
    unfold parseADIFContent
    rw [hs]
  · rfl

/-- Witness for C9: the concrete trailing field sequence
`<CALL:5>K1ABC<QSO_DATE:8>20250101` after the final `<EOR>` changes
nothing. -/
theorem content_after_final_eor_discarded_witness :
    hasEORList "<CALL:5>K1ABC<QSO_DATE:8>20250101".data = false ∧
    parseADIFContent "2025-01-01" "00:00:00"
        (("<CALL:4>W1AW".data ++ "<EOR>".data) ++ "<CALL:5>K1ABC<QSO_DATE:8>20250101".data) =
      parseADIFContent "2025-01-01" "00:00:00" ("<CALL:4>W1AW".data ++ "<EOR>".data) :=
  ⟨by decide, (content_after_final_eor_discarded "2025-01-01" "00:00:00"
    "<CALL:4>W1AW".data "<CALL:5>K1ABC<QSO_DATE:8>20250101".data (by decide)).1⟩

/-- C5: decoding the scenario record
`<CALL:4>W1AW <QSO_DATE:8>20250920<TIME_ON:4>1430<FREQ:6>14.205<EOR>`
yields the CanonicalRecord with callsign `W1AW`, date `2025-09-20`,
timeOn `14:30:00`, frequency `14.205`, band `20m` (derived) and mode `SSB`
(defaulted) — and no error; and for the fixed frequency-range table, any
record finalized with frequency `14.205` and an empty band gets band
`20m`, while `123.45` gets the `"Unknown"` sentinel. -/
theorem scenario_decode_and_band_inference :
    parseADIF "2025-10-12" "12:00:00"
        "<CALL:4>W1AW <QSO_DATE:8>20250920<TIME_ON:4>1430<FREQ:6>14.205<EOR>" =
      ([⟨"W1AW", "2025-09-20", "14:30:00", "14:30:00", mkRat 14205 1000, "20m", "SSB",
        "59", "59", "", "", "", "", 0, "", false⟩], []) ∧
    (mkRat 14205 1000 : ℚ) = 14.205 ∧ (mkRat 12345 100 : ℚ) = 123.45 ∧
    frequencyToBand (mkRat 14205 1000) = "20m" ∧
    frequencyToBand (mkRat 12345 100) = "Unknown" ∧
    (∀ today nowTime (r r' : ADIFRecord), r.band = "" → r.frequency = mkRat 14205 1000 →
      finalizeRecord today nowTime r = .ok r' → r'.band = "20m") ∧
    (∀ today nowTime (r r' : ADIFRecord), r.band = "" → r.frequency = mkRat 12345 100 →
      finalizeRecord today nowTime r = .ok r' → r'.band = "Unknown") := by
  refine ⟨by decide, by rw [Rat.mkRat_eq_div]; norm_num, by rw [Rat.mkRat_eq_div]; norm_num,
    by decide, by decide, ?_, ?_⟩
  · intro today nowTime r r' hb hf h
    rw [finalizeRecord_ok_band h, if_pos ⟨hb, by rw [hf]; decide⟩, hf]
    decide
  · intro today nowTime r r' hb hf h
    rw [finalizeRecord_ok_band h, if_pos ⟨hb, by rw [hf]; decide⟩, hf]
    decide

/-- Witness for C5's band-inference parts: a concrete record with an empty
band and frequency `14.205` finalizes with band `20m`. -/
theorem scenario_decode_and_band_inference_witness :
    (⟨"K1", "d", "t", "t", mkRat 14205 1000, "20m", "SSB", "59", "59",
      "", "", "", "", 0, "", false⟩ : ADIFRecord).band = "20m" ∧
    (⟨"K2", "d", "t", "t", mkRat 12345 100, "Unknown", "SSB", "59", "59",
      "", "", "", "", 0, "", false⟩ : ADIFRecord).band = "Unknown" := by
  constructor
  · exact scenario_decode_and_band_inference.2.2.2.2.2.1 "d" "t"
      ⟨"K1", "", "", "", mkRat 14205 1000, "", "", "", "", "", "", "", "", 0, "", false⟩
      _ rfl rfl (by rfl)
  · exact scenario_decode_and_band_inference.2.2.2.2.2.2 "d" "t"
      ⟨"K2", "", "", "", mkRat 12345 100, "", "", "", "", "", "", "", "", 0, "", false⟩
      _ rfl rfl (by rfl)

/-- C6: a segment whose bytes do not decode to a record with a non-empty
callsign contributes exactly one parse-level error and no record, and the
decoding of every other segment is unaffected — the fold over segments
never aborts.  Concretely, `<CALL:0>a<EOR><CALL:4>W1AW<EOR>` decodes to
the single `W1AW` record plus one error entry. -/
theorem bad_record_isolated (today nowTime : String) (pre post : List (List Char))
    (bad : List Char) (e : String)
    (hbad : parseRecord today nowTime (String.mk bad) = .error e) :
    processSegments today nowTime (pre ++ bad :: post) =
      ((processSegments today nowTime pre).1 ++ (processSegments today nowTime post).1,
       (processSegments today nowTime pre).2 ++ e :: (processSegments today nowTime post).2) := by
  have hone : processSegments today nowTime [bad] = ([], [e]) := by
    unfold processSegments
    show processSegmentsStep today nowTime ([], []) bad = ([], [e])
    unfold processSegmentsStep
    rw [hbad]
    rfl
  have : pre ++ bad :: post = (pre ++ [bad]) ++ post := by simp
  rw [this, processSegments_append, processSegments_append, hone]
  simp

/-- Witness for C6: the concrete stream `<CALL:0>a<EOR><CALL:4>W1AW<EOR>`
split into its two segments; the failing first segment yields one error,
the second decodes normally, and the end-to-end parse agrees. -/
theorem bad_record_isolated_witness :
    processSegments "2025-01-01" "00:00:00" ([] ++ "<CALL:0>a".data :: ["<CALL:4>W1AW".data]) =
      ((processSegments "2025-01-01" "00:00:00" []).1 ++
        (processSegments "2025-01-01" "00:00:00" ["<CALL:4>W1AW".data]).1,
       (processSegments "2025-01-01" "00:00:00" []).2 ++
        "missing required field: CALL" ::
          (processSegments "2025-01-01" "00:00:00" ["<CALL:4>W1AW".data]).2) ∧
    parseADIF "2025-01-01" "00:00:00" "<CALL:0>a<EOR><CALL:4>W1AW<EOR>" =
      ([⟨"W1AW", "2025-01-01", "00:00:00", "00:00:00", 0, "", "SSB", "59", "59",
        "", "", "", "", 0, "", false⟩], ["missing required field: CALL"]) := by
  refine ⟨bad_record_isolated "2025-01-01" "00:00:00" [] ["<CALL:4>W1AW".data]
    "<CALL:0>a".data "missing required field: CALL" (by rfl), by rfl⟩

/-- C10: every record imported through the external source adapter — i.e.
every element of the record list `ImportFromLoTW` processes, obtained by
`parseADIFData` followed by `ConvertToADIFRecord` — has `powerWatts = 100`,
`comment = "Imported from LoTW"`, `rstSent = rstReceived = "59"`,
`timeOff = timeOn`, and `confirmed = true`, regardless of what the
`TX_PWR`, `COMMENT`, `RST_SENT`, `RST_RCVD` and `TIME_OFF` fields of the
downloaded stream contain. -/
theorem lotw_fixed_fields (username today nowTime body : String) (r : ADIFRecord)
    (hr : r ∈ (parseADIFData username today nowTime body).map lotwConvertToADIFRecord) :
    r.power = 100 ∧ r.comment = "Imported from LoTW" ∧ r.rstSent = "59" ∧
    r.rstReceived = "59" ∧ r.timeOff = r.timeOn ∧ r.confirmed = true := by
  rw [List.mem_map] at hr
  obtain ⟨q, hq, rfl⟩ := hr
  have hy : q.qslRcvd = "Y" := by
    rw [parseADIFData, List.mem_map] at hq
    obtain ⟨r0, -, rfl⟩ := hq
    rfl
  refine ⟨rfl, rfl, rfl, rfl, rfl, ?_⟩
  simp [lotwConvertToADIFRecord, hy]

/-- Witness for C10: a concrete stream whose record carries
`TX_PWR = 5`, `COMMENT = hi`, `RST_SENT = 33`, `RST_RCVD = 44` and
`TIME_OFF = 2359`, all of which the adapter overrides. -/
theorem lotw_fixed_fields_witness :
    (⟨"W1AW", "2025-01-01", "00:00:00", "00:00:00", 0, "", "SSB", "59", "59",
        "", "", "", "", 100, "Imported from LoTW", true⟩ : ADIFRecord) ∈
      (parseADIFData "u" "2025-01-01" "00:00:00"
        "<CALL:4>W1AW<TX_PWR:1>5<COMMENT:2>hi<RST_SENT:2>33<RST_RCVD:2>44<TIME_OFF:4>2359<EOR>").map
        lotwConvertToADIFRecord ∧
    (⟨"W1AW", "2025-01-01", "00:00:00", "00:00:00", 0, "", "SSB", "59", "59",
        "", "", "", "", 100, "Imported from LoTW", true⟩ : ADIFRecord).power = 100 := by
  refine ⟨by decide, ?_⟩
  exact (lotw_fixed_fields "u" "2025-01-01" "00:00:00"
    "<CALL:4>W1AW<TX_PWR:1>5<COMMENT:2>hi<RST_SENT:2>33<RST_RCVD:2>44<TIME_OFF:4>2359<EOR>"
    _ (by decide)).1

/-- C4: when the adapter response lacks the end-of-header marker, retrieval
is classified — `authenticationFailed` when the (lower-cased) response
mentions `login` or `password`, `serviceError` when it mentions `error`,
`malformedResponse` otherwise — and the import aborts before processing
any record: the store is untouched and the outcome has `success = false`,
zero imported and skipped counts and exactly one error entry. -/
theorem lotw_no_eoh_aborts (today nowTime username body : String)
    (options : ImportOptions) (st : Store)
    (hno : hasSubList "<EOH>".data (upperStr body).data = false) :
    classifyLotwResponse body =
      .error (if hasSubList "login".data (lowerStr body).data
            || hasSubList "password".data (lowerStr body).data then
          LotwFailure.authenticationFailed
        else if hasSubList "error".data (lowerStr body).data then LotwFailure.serviceError
        else LotwFailure.malformedResponse) ∧
    importFromLoTW today nowTime username options body st =
      (lotwFailResult (if hasSubList "login".data (lowerStr body).data
            || hasSubList "password".data (lowerStr body).data then
          LotwFailure.authenticationFailed
        else if hasSubList "error".data (lowerStr body).data then LotwFailure.serviceError
        else LotwFailure.malformedResponse), st) ∧
    ∀ f : LotwFailure, (lotwFailResult f).success = false ∧
      (lotwFailResult f).importedCount = 0 ∧ (lotwFailResult f).skippedCount = 0 ∧
      (lotwFailResult f).errors.length = 1 := by
  have hcl : classifyLotwResponse body =
      .error (if hasSubList "login".data (lowerStr body).data
            || hasSubList "password".data (lowerStr body).data then
          LotwFailure.authenticationFailed
        else if hasSubList "error".data (lowerStr body).data then LotwFailure.serviceError
        else LotwFailure.malformedResponse) := by
    unfold classifyLotwResponse
    rw [if_neg (by simp [hno])]
    by_cases h1 : (hasSubList "login".data (lowerStr body).data
        || hasSubList "password".data (lowerStr body).data) = true
    · rw [if_pos h1, if_pos h1]
    · rw [if_neg h1, if_neg h1]
      by_cases h2 : hasSubList "error".data (lowerStr body).data = true
      · rw [if_pos h2, if_pos h2]
      · rw [if_neg h2, if_neg h2]
  refine ⟨hcl, ?_, fun f => ⟨rfl, rfl, rfl, rfl⟩⟩
  unfold importFromLoTW
  rw [hcl]

/-- Witness for C4: a login-page-free, error-free response body without
`<EOH>` is classified `malformedResponse` and the import aborts with one
error entry and the store untouched. -/
theorem lotw_no_eoh_aborts_witness :
    hasSubList "<EOH>".data (upperStr "not adif data").data = false ∧
    classifyLotwResponse "not adif data" = .error LotwFailure.malformedResponse ∧
    importFromLoTW "2025-01-01" "00:00:00" "u" ⟨true, false⟩ "not adif data"
        { rows := [], nextId := 1, clock := 0 } =
      (lotwFailResult LotwFailure.malformedResponse, { rows := [], nextId := 1, clock := 0 }) := by
  have h := lotw_no_eoh_aborts "2025-01-01" "00:00:00" "u" "not adif data" ⟨true, false⟩
    { rows := [], nextId := 1, clock := 0 } (by decide)
  refine ⟨by decide, ?_, ?_⟩
  · have := h.1
    simpa using this
  · have := h.2.1
    simpa using this

/-- C8: for every field token whose available value text is shorter than
the declared length, the decoder truncates silently — it takes all
available characters (`fieldValueOf` is total and returns the whole text),
and truncation never fails a record: the only error `parseRecord` can
produce is the missing-callsign validation error. -/
theorem truncation_silent :
    (∀ (len : ℕ) (data : List Char), data.length < len → fieldValueOf len data = data) ∧
    (∀ today nowTime s e, parseRecord today nowTime s = .error e →
      e = "missing required field: CALL") := by
  constructor
  · intro len data h
    rw [fieldValueOf, if_pos h, List.take_length]
  · intro t n s e h
    unfold parseRecord finalizeRecord at h
    by_cases hc : (applyTokens emptyRecord (findFields s.data)).callsign = ""
    · rw [if_pos hc] at h
      simp only [Except.error.injEq] at h
      exact h.symm
    · rw [if_neg hc] at h
      exact absurd h (by simp)

/-- Witness for C8: a declared length of 10 with only 4 characters of text
available decodes to those 4 characters without failing the record. -/
theorem truncation_silent_witness :
    (['W', '1', 'A', 'W'].length < 10 ∧ fieldValueOf 10 ['W', '1', 'A', 'W'] = ['W', '1', 'A', 'W']) ∧
    (parseRecord "2025-01-01" "00:00:00" "<CALL:0>" = .error "missing required field: CALL" ∧
      "missing required field: CALL" = "missing required field: CALL") ∧
    (parseADIF "2025-01-01" "00:00:00" "<CALL:10>W1AW<EOR>").1 =
      [⟨"W1AW", "2025-01-01", "00:00:00", "00:00:00", 0, "", "SSB", "59", "59",
        "", "", "", "", 0, "", false⟩] := by
  refine ⟨⟨by decide, truncation_silent.1 10 ['W', '1', 'A', 'W'] (by decide)⟩,
    ⟨by rfl, truncation_silent.2 "2025-01-01" "00:00:00" "<CALL:0>"
      "missing required field: CALL" (by rfl)⟩, by decide⟩

/-- C3 (amended): with `updateExisting = true` and a DedupKey match, the
file-upload reconciler (`handleImportADIF`) always updates the matched row
in place — the row count is unchanged, `imported` is incremented — but the
external-source reconciler (`ImportFromLoTW`) does so only when
`mergeDuplicates` is also set, since its duplicate lookup is gated on
`MergeDuplicates` alone. -/
theorem update_existing_match_updates (options : ImportOptions) (res : ImportResult)
    (st : Store) (record : ADIFRecord) (row : StoredContact)
    (hu : options.updateExisting = true)
    (hfind : findExistingContact st (convertToContactRequest record).callsign
        (convertToContactRequest record).contactDate
        (convertToContactRequest record).timeOn = some row) :
    importStep options (res, st) record =
      ({ res with importedCount := res.importedCount + 1 },
        updateContact st row.id (convertToContactRequest record)) ∧
    (updateContact st row.id (convertToContactRequest record)).rows.length = st.rows.length ∧
    (options.mergeDuplicates = true →
      lotwStep options (res, st) record =
        ({ res with importedCount := res.importedCount + 1 },
          updateContact st row.id { convertToContactRequest record with confirmed := true }) ∧
      (updateContact st row.id
          { convertToContactRequest record with confirmed := true }).rows.length
        = st.rows.length) := by
  refine ⟨?_, ?_, fun hm => ⟨?_, ?_⟩⟩
  · simp only [importStep, hu, Bool.or_true, if_true, hfind]
  · simp [updateContact]
  · simp only [lotwStep, hm, if_true, hfind, hu]
  · simp [updateContact]

/-- Witness for C3's amended theorem: a concrete store with a matching row
and a concrete record, on both reconciler paths. -/
theorem update_existing_match_updates_witness :
    importStep ⟨false, true⟩
        (⟨true, 0, 0, 0, [], "m"⟩,
          ⟨[⟨1, "W1AW", "2025-01-01", "00:00:00", "00:00:00", 0, "", "SSB", "59", "59",
            "", "", "", "", 0, "", false, 0⟩], 2, 1⟩)
        ⟨"W1AW", "2025-01-01", "00:00:00", "00:00:00", 0, "20m", "CW", "58", "57",
          "", "", "", "", 0, "", false⟩ =
      (⟨true, 1, 0, 0, [], "m"⟩,
        updateContact
          ⟨[⟨1, "W1AW", "2025-01-01", "00:00:00", "00:00:00", 0, "", "SSB", "59", "59",
            "", "", "", "", 0, "", false, 0⟩], 2, 1⟩ 1
          (convertToContactRequest
            ⟨"W1AW", "2025-01-01", "00:00:00", "00:00:00", 0, "20m", "CW", "58", "57",
              "", "", "", "", 0, "", false⟩)) := by
  have h := update_existing_match_updates ⟨false, true⟩ ⟨true, 0, 0, 0, [], "m"⟩
    ⟨[⟨1, "W1AW", "2025-01-01", "00:00:00", "00:00:00", 0, "", "SSB", "59", "59",
      "", "", "", "", 0, "", false, 0⟩], 2, 1⟩
    ⟨"W1AW", "2025-01-01", "00:00:00", "00:00:00", 0, "20m", "CW", "58", "57",
      "", "", "", "", 0, "", false⟩
    ⟨1, "W1AW", "2025-01-01", "00:00:00", "00:00:00", 0, "", "SSB", "59", "59",
      "", "", "", "", 0, "", false, 0⟩ rfl (by decide)
  exact h.1

/-- Counterexample to C3 as stated: on the external-source path with
`updateExisting = true` but `mergeDuplicates = false`, a record whose
DedupKey matches an existing row is INSERTED as a second row (and
`imported` is incremented), instead of updating the existing row: after
the import two stored rows share the DedupKey `(W1AW, 2025-01-01,
00:00:00)`. -/
theorem lotw_update_without_merge_inserts_duplicate :
    (importFromLoTW "2025-01-01" "00:00:00" "u" ⟨false, true⟩
        "<eoh> <CALL:4>W1AW<QSO_DATE:8>20250101<TIME_ON:6>000000<EOR>"
        ⟨[⟨1, "W1AW", "2025-01-01", "00:00:00", "00:00:00", 0, "", "SSB", "59", "59",
          "", "", "", "", 0, "", false, 0⟩], 2, 1⟩).1.importedCount = 1 ∧
    (importFromLoTW "2025-01-01" "00:00:00" "u" ⟨false, true⟩
        "<eoh> <CALL:4>W1AW<QSO_DATE:8>20250101<TIME_ON:6>000000<EOR>"
        ⟨[⟨1, "W1AW", "2025-01-01", "00:00:00", "00:00:00", 0, "", "SSB", "59", "59",
          "", "", "", "", 0, "", false, 0⟩], 2, 1⟩).2.rows.length = 2 ∧
    ((importFromLoTW "2025-01-01" "00:00:00" "u" ⟨false, true⟩
        "<eoh> <CALL:4>W1AW<QSO_DATE:8>20250101<TIME_ON:6>000000<EOR>"
        ⟨[⟨1, "W1AW", "2025-01-01", "00:00:00", "00:00:00", 0, "", "SSB", "59", "59",
          "", "", "", "", 0, "", false, 0⟩], 2, 1⟩).2.rows.filter
      (fun c => dedupKey c = ("W1AW", "2025-01-01", "00:00:00"))).length = 2 := by
  refine ⟨by decide, by decide, by decide⟩

set_option maxRecDepth 10000 in
/-- Counterexample to C1 as stated: a record decoded from well-formed
input with `<QSL_RCVD:1>Y` has `confirmed = true`, but encoding it and
decoding the encoder's output yields the same record with
`confirmed = false` — the `confirmed` field does not survive the
round-trip, because the encoder never emits a `QSL_RCVD` field. -/
theorem roundtrip_confirmed_counterexample :
    parseADIF "2025-09-20" "14:30:00" "<CALL:4>W1AW <QSL_RCVD:1>Y<EOR>" =
      ([⟨"W1AW", "2025-09-20", "14:30:00", "14:30:00", 0, "", "SSB", "59", "59",
         "", "", "", "", 0, "", true⟩], []) ∧
    parseADIF "2025-09-20" "14:30:00"
        (exportADIF "2025-09-20 14:30:00"
          [⟨"W1AW", "2025-09-20", "14:30:00", "14:30:00", 0, "", "SSB", "59", "59",
            "", "", "", "", 0, "", true⟩]) =
      ([⟨"W1AW", "2025-09-20", "14:30:00", "14:30:00", 0, "", "SSB", "59", "59",
         "", "", "", "", 0, "", false⟩], []) ∧
    (⟨"W1AW", "2025-09-20", "14:30:00", "14:30:00", 0, "", "SSB", "59", "59",
      "", "", "", "", 0, "", true⟩ : ADIFRecord) ≠
      ⟨"W1AW", "2025-09-20", "14:30:00", "14:30:00", 0, "", "SSB", "59", "59",
       "", "", "", "", 0, "", false⟩ := by
  refine ⟨by decide, by decide, by decide⟩

set_option maxRecDepth 10000 in
/-- Witness for C1's amended theorem: the round-trip at a concrete
canonical record with every optional field populated. -/
theorem adif_export_roundtrip_witness :
    parseADIF "2025-10-12" "12:00:00"
        (exportADIF "2025-10-12 12:00:00"
          [⟨"W1AW", "2025-09-20", "14:30:00", "14:31:00", mkRat 14205 1000, "20m",
            "SSB", "59", "59", "John", "Newington", "USA", "FN31", 100, "Test",
            true⟩]) =
      ([⟨"W1AW", "2025-09-20", "14:30:00", "14:31:00", mkRat 14205 1000, "20m",
         "SSB", "59", "59", "John", "Newington", "USA", "FN31", 100, "Test",
         false⟩], []) :=
  adif_export_roundtrip "2025-10-12" "12:00:00" "2025-10-12 12:00:00"
    ⟨"W1AW", "2025-09-20", "14:30:00", "14:31:00", mkRat 14205 1000, "20m",
     "SSB", "59", "59", "John", "Newington", "USA", "FN31", 100, "Test", true⟩
    (by decide) (by decide)

end GoQSO
